import Mathlib

/-!
# vanilla-os: the contiguous frame pool (`mp3/cont_frame_pool.C`)

A shallow embedding of `ContFramePool` and proofs about it.

Conventions of the embedding.

* The bitmap is the list of the `unsigned char`s `bitmap[0]`, `bitmap[1]`, ... that the pool
  owns (one byte holds four frames, most significant pair first).  `bitmap[i]` is read with
  `List.getD _ i 0` and written with `List.set`.
* A C `for` loop over `cur_bit = 7, 5, 3, 1` is a recursion over the list `cur_bits`; the loop
  over the bytes, `for (...; i*8 < n_frames*2; i++)`, is a recursion over `byte_indices`.  A
  `break` ends the recursion.
* `assert` failures halt the kernel: the functions that contain one return `Option`, and `none`
  is the halt.
* The target is 32-bit x86 (`unsigned long` and `unsigned int` are 32 bits wide).  Frame numbers
  are taken to be small enough that `base_frame_no + n_frames` does not wrap, so arithmetic on
  frame numbers is arithmetic on `Nat`; the counter `n_free_frames`, which the code decrements
  without a guard, is modelled modulo `2^32` (`sub32`, `add32`).
-/

/-- Modelled from the spec: `FRAME_SIZE` is declared in `cont_frame_pool.H`, which is not among
the sources; the spec fixes a frame at 4 KiB. -/
def FRAME_SIZE : Nat := 4096

/-- Status code `11`. -/
def FREE : Nat := 3
/-- Status code `10`. -/
def HEAD_OF_SEQUENCE : Nat := 2
/-- Status code `01`. -/
def INACCESSIBLE : Nat := 1
/-- Status code `00`. -/
def ALLOCATED : Nat := 0

/-- Truncation to `unsigned char` when an `int` expression is stored into `bitmap[i]`. -/
def u8 (x : Nat) : Nat := x % 256

/-- The bit pattern of `~x` for a 32-bit `int`. -/
def not32 (x : Nat) : Nat := 4294967295 - x % 4294967296

/-- Subtraction on `unsigned long` (32 bits). -/
def sub32 (a b : Nat) : Nat := (a % 4294967296 + (4294967296 - b % 4294967296)) % 4294967296

/-- Addition on `unsigned long` (32 bits). -/
def add32 (a b : Nat) : Nat := (a + b) % 4294967296

/-- The value of `0x1 << k` for an `unsigned int` shift count `k`.  For `k ≥ 32` the C shift is
undefined; the model gives it no bit at all (in particular no bit inside a byte). -/
def shl_one (k : Nat) : Nat := if k < 32 then 1 <<< k else 0

/-- The values of `cur_bit` in `for (int cur_bit = 7; cur_bit > 0; cur_bit = cur_bit - 2)`. -/
def cur_bits : List Nat := [7, 5, 3, 1]

/-- The values of `i` in `for (; i*8 < n_frames*2; i++)` when the loop starts at `i0`. -/
def byte_indices (n_frames i0 : Nat) : List Nat :=
  List.range' i0 ((n_frames * 2 + 7) / 8 - i0)

/-- The 2-bit status of the `j`-th frame (`j = 0..3`, most significant pair first) of a
bitmap byte. -/
def stat (b j : Nat) : Nat := (b >>> (6 - 2 * j)) &&& 3

/-- The 2-bit status of the frame with index `k` (frame number `base_frame_no + k`). -/
def status (bitmap : List Nat) (k : Nat) : Nat := stat (bitmap.getD (k / 4) 0) (k % 4)

/-- The state of a `ContFramePool` object, with the bitmap bytes it points to. -/
structure ContFramePool where
  base_frame_no : Nat
  n_frames : Nat
  n_free_frames : Nat
  info_frame_no : Nat
  n_info_frames : Nat
  bitmap : List Nat
deriving DecidableEq

namespace ContFramePool

/-- The 2-bit status of frame number `frame_no` of the pool. -/
def frame_status (p : ContFramePool) (frame_no : Nat) : Nat :=
  status p.bitmap (frame_no - p.base_frame_no)

/-- Number of frames of the pool whose status is FREE. -/
def count_free (p : ContFramePool) : Nat :=
  ((List.range p.n_frames).filter (fun k => status p.bitmap k = FREE)).length

/-! ## Constructor -/

/-- Local variables of the constructor's marking loop (lines 180-198). -/
structure InitState where
  bitmap : List Nat
  n_free_frames : Nat
  cur_frame_no : Nat
deriving DecidableEq

/-- Inner loop of the constructor (lines 184-194), for byte `i`. -/
def init_bits (info_frame_end_no i : Nat) : List Nat → Nat → InitState → InitState
  | [], _, s => s
  | _ :: rest, mask, s =>
    if s.cur_frame_no > info_frame_end_no then s
    else
      init_bits info_frame_end_no i rest (mask >>> 2)
        { bitmap := s.bitmap.set i (s.bitmap.getD i 0 ^^^ mask)
          n_free_frames := sub32 s.n_free_frames 1
          cur_frame_no := s.cur_frame_no + 1 }

/-- Outer loop of the constructor (lines 182-198). -/
def init_bytes (info_frame_end_no : Nat) : List Nat → InitState → InitState
  | [], s => s
  | i :: is, s =>
    let s1 := init_bits info_frame_end_no i cur_bits 0xC0 s
    if s1.cur_frame_no > info_frame_end_no then s1
    else init_bytes info_frame_end_no is s1

/-- The constructor `ContFramePool::ContFramePool` (lines 138-211); `none` is a failed
assertion.  (Inside the namespace the structure's own name is taken, hence `construct`.)  The
link into the global pool list is `register`. -/
def construct (_base_frame_no _n_frames _info_frame_no _n_info_frames : Nat) :
    Option ContFramePool :=
  if ¬ (_n_frames ≤ FRAME_SIZE * 8) then none
  else if ¬ (_n_frames % 8 = 0) then none
  else
    let bitmap := List.replicate ((byte_indices _n_frames 0).length) 0xFF
    let info_frame_no := if _info_frame_no = 0 then _base_frame_no else _info_frame_no
    let n_info_frames := if _info_frame_no = 0 then 1 else _n_info_frames
    let info_frame_end_no := info_frame_no + n_info_frames - 1
    let s := init_bytes info_frame_end_no (byte_indices _n_frames 0)
      { bitmap := bitmap, n_free_frames := _n_frames, cur_frame_no := _base_frame_no }
    some { base_frame_no := _base_frame_no
           n_frames := _n_frames
           n_free_frames := s.n_free_frames
           info_frame_no := info_frame_no
           n_info_frames := n_info_frames
           bitmap := s.bitmap }

/-- The frame pool list setup at the end of the constructor (lines 200-208): the new pool
becomes the head of the global list. -/
def register (poolList : List ContFramePool) (p : ContFramePool) : List ContFramePool :=
  p :: poolList

/-! ## get_frames -/

/-- Local variables of the search loop of `get_frames` (lines 225-255). -/
structure Search where
  free_frame_count : Nat
  free_frame_start_no : Nat
  bitmap_start_i : Nat
  bitmap_start_offset : Nat
  cur_frame_no : Nat
deriving DecidableEq

/-- Inner loop of the search (lines 233-251) on byte `b = bitmap[i]`. -/
def get_frames_bits (b _n_frames i : Nat) : List Nat → Nat → Search → Search
  | [], _, s => s
  | cur_bit :: rest, mask, s =>
    let s1 : Search :=
      if b &&& mask = mask then
        { free_frame_count := s.free_frame_count + 1
          free_frame_start_no :=
            if s.free_frame_count = 0 then s.cur_frame_no else s.free_frame_start_no
          bitmap_start_i := if s.free_frame_count = 0 then i else s.bitmap_start_i
          bitmap_start_offset :=
            if s.free_frame_count = 0 then cur_bit else s.bitmap_start_offset
          cur_frame_no := s.cur_frame_no }
      else { s with free_frame_count := 0 }
    if s1.free_frame_count = _n_frames then s1
    else
      get_frames_bits b _n_frames i rest (mask >>> 2)
        { s1 with cur_frame_no := s1.cur_frame_no + 1 }

/-- Outer loop of the search (lines 231-255). -/
def get_frames_bytes (bitmap : List Nat) (_n_frames : Nat) : List Nat → Search → Search
  | [], s => s
  | i :: is, s =>
    let s1 := get_frames_bits (bitmap.getD i 0) _n_frames i cur_bits 0xC0 s
    if s1.free_frame_count = _n_frames then s1
    else get_frames_bytes bitmap _n_frames is s1

/-- The search of `get_frames` from its initial values (lines 225-255). -/
def get_frames_search (p : ContFramePool) (_n_frames : Nat) : Search :=
  get_frames_bytes p.bitmap _n_frames (byte_indices p.n_frames 0)
    { free_frame_count := 0
      free_frame_start_no := p.base_frame_no
      bitmap_start_i := 0
      bitmap_start_offset := 0
      cur_frame_no := p.base_frame_no }

/-- The `while (free_frame_count > 0)` loop that marks the rest of the run (lines 273-281). -/
def get_frames_mark : Nat → Nat → Nat → List Nat → List Nat
  | 0, _, _, bitmap => bitmap
  | free_frame_count + 1, mask, cur_i, bitmap =>
    let mask1 := if mask >>> 2 = 0 then 0xC0 else mask >>> 2
    let cur_i1 := if mask >>> 2 = 0 then cur_i + 1 else cur_i
    get_frames_mark free_frame_count mask1 cur_i1
      (bitmap.set cur_i1 (bitmap.getD cur_i1 0 ^^^ mask1))

/-- The function `ContFramePool::get_frames` (lines 213-287): the returned frame number and
the pool afterwards.  The request is at least 1 (for 0 the C code shifts by -1 and decrements an
unsigned 0; the model does not follow it there). -/
def get_frames (p : ContFramePool) (_n_frames : Nat) : Nat × ContFramePool :=
  if p.n_free_frames ≤ 0 then (0, p)
  else
    let s := get_frames_search p _n_frames
    if s.free_frame_count ≠ _n_frames then (0, p)
    else
      let bm1 := p.bitmap.set s.bitmap_start_i
        (u8 (p.bitmap.getD s.bitmap_start_i 0 ||| (1 <<< s.bitmap_start_offset)))
      let bm2 := bm1.set s.bitmap_start_i
        (u8 (bm1.getD s.bitmap_start_i 0 &&& not32 (1 <<< (s.bitmap_start_offset - 1))))
      let bm3 := get_frames_mark (s.free_frame_count - 1)
        (u8 (0x3 <<< (s.bitmap_start_offset - 1))) s.bitmap_start_i bm2
      (s.free_frame_start_no,
        { p with bitmap := bm3, n_free_frames := sub32 p.n_free_frames _n_frames })

/-- The call `get_frames(_n_frames)` takes the allocation path (lines 264-286): neither of the
two `return 0` statements (lines 221 and 261) is reached. -/
def get_frames_succeeds (p : ContFramePool) (_n_frames : Nat) : Bool :=
  decide (0 < p.n_free_frames) &&
    decide ((get_frames_search p _n_frames).free_frame_count = _n_frames)

/-! ## mark_inaccessible -/

/-- Local variables of the loop of `mark_inaccessible` (lines 296-314); `_n_frames` is the
parameter, which the loop counts down. -/
structure MarkState where
  bitmap : List Nat
  n_free_frames : Nat
  cur_frame_no : Nat
  _n_frames : Nat
deriving DecidableEq

/-- Inner loop of `mark_inaccessible` (lines 299-310) for byte `i`.  The two shifts are by `i`
and `i-1` (an `unsigned int`), as in the source. -/
def mark_inaccessible_bits (_base_frame_no i : Nat) : List Nat → MarkState → MarkState
  | [], s => s
  | _ :: rest, s =>
    let s1 : MarkState :=
      if s.cur_frame_no ≥ _base_frame_no then
        let bm1 := s.bitmap.set i (u8 (s.bitmap.getD i 0 &&& not32 (shl_one i)))
        let bm2 := bm1.set i (u8 (bm1.getD i 0 ||| shl_one ((i + 4294967295) % 4294967296)))
        { bitmap := bm2
          n_free_frames := sub32 s.n_free_frames 1
          cur_frame_no := s.cur_frame_no
          _n_frames := s._n_frames - 1 }
      else s
    if s1._n_frames = 0 then s1
    else mark_inaccessible_bits _base_frame_no i rest { s1 with cur_frame_no := s1.cur_frame_no + 1 }

/-- Outer loop of `mark_inaccessible` (lines 298-314). -/
def mark_inaccessible_bytes (_base_frame_no : Nat) : List Nat → MarkState → MarkState
  | [], s => s
  | i :: is, s =>
    let s1 := mark_inaccessible_bits _base_frame_no i cur_bits s
    if s1._n_frames = 0 then s1
    else mark_inaccessible_bytes _base_frame_no is s1

/-- The function `ContFramePool::mark_inaccessible` (lines 289-315); `none` is the failed
assertion. -/
def mark_inaccessible (p : ContFramePool) (_base_frame_no _n_frames : Nat) :
    Option ContFramePool :=
  if ¬ (_base_frame_no ≥ p.base_frame_no ∧ _n_frames > 0) then none
  else
    let i := (_base_frame_no - p.base_frame_no) / 4
    let s := mark_inaccessible_bytes _base_frame_no (byte_indices p.n_frames i)
      { bitmap := p.bitmap
        n_free_frames := p.n_free_frames
        cur_frame_no := p.base_frame_no + i * 4
        _n_frames := _n_frames }
    some { p with bitmap := s.bitmap, n_free_frames := s.n_free_frames }

/-! ## release_frames -/

/-- Local variables of the loop of `release_frames` (lines 331-368), with the fields of `cur`
that it changes. -/
structure ReleaseState where
  bitmap : List Nat
  n_free_frames : Nat
  cur_frame_no : Nat
  is_released : Bool
deriving DecidableEq

/-- Inner loop of `release_frames` (lines 336-361) for byte `i`; `none` is `assert(false)`. -/
def release_frames_bits (_first_frame_no i : Nat) :
    List Nat → ReleaseState → Option ReleaseState
  | [], s => some s
  | cur_bit :: rest, s =>
    if s.cur_frame_no = _first_frame_no then
      let msb_matched : Bool := (s.bitmap.getD i 0 &&& (1 <<< cur_bit)) != 0
      let lsb_matched : Bool := (s.bitmap.getD i 0 &&& (1 <<< (cur_bit - 1))) == 0
      if !msb_matched || !lsb_matched then none
      else
        release_frames_bits _first_frame_no i rest
          { bitmap := s.bitmap.set i (u8 (s.bitmap.getD i 0 ||| (0x3 <<< (cur_bit - 1))))
            n_free_frames := add32 s.n_free_frames 1
            cur_frame_no := s.cur_frame_no + 1
            is_released := s.is_released }
    else if s.cur_frame_no > _first_frame_no then
      let msb_matched : Bool := (s.bitmap.getD i 0 &&& (1 <<< cur_bit)) == 0
      let lsb_matched : Bool := (s.bitmap.getD i 0 &&& (1 <<< (cur_bit - 1))) == 0
      if !msb_matched || !lsb_matched then some { s with is_released := true }
      else
        release_frames_bits _first_frame_no i rest
          { bitmap := s.bitmap.set i (u8 (s.bitmap.getD i 0 ||| (0x3 <<< (cur_bit - 1))))
            n_free_frames := add32 s.n_free_frames 1
            cur_frame_no := s.cur_frame_no + 1
            is_released := s.is_released }
    else
      release_frames_bits _first_frame_no i rest { s with cur_frame_no := s.cur_frame_no + 1 }

/-- Outer loop of `release_frames` (lines 335-368). -/
def release_frames_bytes (_first_frame_no : Nat) : List Nat → ReleaseState → Option ReleaseState
  | [], s => some s
  | i :: is, s =>
    match release_frames_bits _first_frame_no i cur_bits s with
    | none => none
    | some s1 =>
      if s1.is_released then some s1
      else release_frames_bytes _first_frame_no is s1

/-- The part of `release_frames` that works on the pool `cur` found by the lookup
(lines 330-369); `none` is `assert(false)`. -/
def release_frames_in (cur : ContFramePool) (_first_frame_no : Nat) : Option ContFramePool :=
  let i := (_first_frame_no - cur.base_frame_no) / 4
  match release_frames_bytes _first_frame_no (byte_indices cur.n_frames i)
      { bitmap := cur.bitmap
        n_free_frames := cur.n_free_frames
        cur_frame_no := cur.base_frame_no + i * 4
        is_released := false } with
  | none => none
  | some s => some { cur with bitmap := s.bitmap, n_free_frames := s.n_free_frames }

/-- The function `ContFramePool::release_frames` (lines 317-369) on the global pool list, head
first.  The `while` loop skips a pool when `_first_frame_no < base_frame_no` or
`_first_frame_no > base_frame_no + n_frames`; `none` is a failed assertion (`cur != NULL` or
`assert(false)`). -/
def release_frames : List ContFramePool → Nat → Option (List ContFramePool)
  | [], _ => none
  | cur :: poolListNext, _first_frame_no =>
    if _first_frame_no < cur.base_frame_no
        ∨ _first_frame_no > cur.base_frame_no + cur.n_frames then
      (release_frames poolListNext _first_frame_no).map (fun l => cur :: l)
    else
      (release_frames_in cur _first_frame_no).map (fun c => c :: poolListNext)

/-- The function `ContFramePool::needed_info_frames` (lines 371-374), with `KB` expanded to
`* (0x1 << 10)`. -/
def needed_info_frames (_n_frames : Nat) : Nat :=
  _n_frames / (4 * 4 * (0x1 <<< 10)) + (if _n_frames % (4 * 4 * (0x1 <<< 10)) > 0 then 1 else 0)

end ContFramePool

/-!
# vanilla-os: the virtual memory pool (`mp4/vm_pool.C`)

Conventions of the embedding, in addition to those of the frame pool.

* The array `vm_mem_pool` (the interval list, which the object keeps at `base_address`) is the
  function from word index to word; what the memory holds before the first write is a parameter
  of the constructor.  `release` assigns no word of the array; what its calls of
  `PageTable::free_page` do to the memory that holds the list is `page_freed`.
* `unsigned long` and `unsigned int` are 32 bits wide: sums and products of addresses are taken
  modulo `2^32` (`u32`, `sub32`).  The `int` variables (`vm_mem_pool_cur`, `cur`, `num_pages`,
  `count`) stay far below `2^31` and are `Int` or `Nat`.
* The calls that `release` makes to the page table are returned as a list of `PageTableCall`.
-/

/-- Modelled from the spec: `PageTable::PAGE_SIZE` is declared in `page_table.H`, which is not
among the sources; the spec fixes a page at the size of a frame, 4 KiB. -/
def PAGE_SIZE : Nat := 4096

/-- Truncation to `unsigned long` (32 bits). -/
def u32 (x : Nat) : Nat := x % 4294967296

/-- The assignment `array[i] = v` on an array of words. -/
def write_word (array : Nat → Nat) (i v : Nat) : Nat → Nat :=
  fun k => if k = i then v else array k

/-- Modelled from the spec: the class `VMPool` is declared in `vm_pool.H`, which is not among
the sources.  The fields are those that `vm_pool.C` uses; `vm_mem_pool_cur`, which the
constructor sets to -1 and `allocate` tests with `< 0`, is a signed `int`.  The pointers
`frame_pool` and `page_table` are left out. -/
structure VMPool where
  base_address : Nat
  size : Nat
  vm_mem_pool : Nat → Nat
  vm_mem_pool_cur : Int

/-- A call that `VMPool::release` makes to its page table. -/
inductive PageTableCall where
  | free_page (_page_no : Nat)
  | load
deriving DecidableEq

namespace VMPool

/-- The constructor `VMPool::VMPool` (lines 50-68); `memory` is what the memory at
`base_address` holds, word by word.  (Inside the namespace the structure's own name is taken,
hence `construct`.)  The call of `register_pool` belongs to the page table. -/
def construct (_base_address _size : Nat) (memory : Nat → Nat) : VMPool :=
  { base_address := _base_address
    size := _size
    vm_mem_pool := memory
    vm_mem_pool_cur := -1 }

/-- The value of `num_pages` after lines 75-76 of `allocate`. -/
def allocate_num_pages (_size : Nat) : Nat :=
  let page_size := PAGE_SIZE
  let num_pages := _size / page_size
  num_pages + (if num_pages % page_size > 0 then 1 else 0)

/-- The value of `cur_addr` after lines 79-84 of `allocate`. -/
def allocate_cur_addr (p : VMPool) : Nat :=
  if p.vm_mem_pool_cur < 0 then u32 (p.base_address + PAGE_SIZE + 1)
  else p.vm_mem_pool p.vm_mem_pool_cur.toNat

/-- The value of `next_addr` (line 86 of `allocate`). -/
def allocate_next_addr (p : VMPool) (_size : Nat) : Nat :=
  u32 (allocate_cur_addr p + u32 (allocate_num_pages _size * PAGE_SIZE))

/-- The test of line 87: the call `allocate(_size)` records an interval and returns its start
(lines 88-91) instead of returning 0 (line 95). -/
def allocate_succeeds (p : VMPool) (_size : Nat) : Bool :=
  decide (allocate_next_addr p _size < u32 (p.base_address + p.size) ∧
    allocate_next_addr p _size ≥ p.base_address)

/-- The function `VMPool::allocate` (lines 70-97): the returned address and the pool
afterwards. -/
def allocate (p : VMPool) (_size : Nat) : Nat × VMPool :=
  let cur_addr := allocate_cur_addr p
  let next_addr := allocate_next_addr p _size
  if next_addr < u32 (p.base_address + p.size) ∧ next_addr ≥ p.base_address then
    (cur_addr,
      { p with
        vm_mem_pool :=
          write_word (write_word p.vm_mem_pool (p.vm_mem_pool_cur + 1).toNat cur_addr)
            (p.vm_mem_pool_cur + 1 + 1).toNat next_addr
        vm_mem_pool_cur := p.vm_mem_pool_cur + 1 + 1 })
  else (0, p)

/-- The first loop of `release` (lines 103-108): the value of `cur` when the loop ends.  The
first argument bounds the number of iterations. -/
def release_find (p : VMPool) (_start_address : Nat) : Nat → Int → Int
  | 0, cur => cur
  | fuel + 1, cur =>
    if cur ≤ p.vm_mem_pool_cur then
      if p.vm_mem_pool cur.toNat = _start_address then cur
      else release_find p _start_address fuel (cur + 2)
    else cur

/-- The second loop of `release` (lines 113-116), whose test `count < (end - start) / page_size`
reads the variable `start` that the body advances.  The first argument bounds the number of
iterations. -/
def release_pages (page_size end_ : Nat) : Nat → Nat → Nat → List PageTableCall
  | 0, _, _ => []
  | fuel + 1, count, start =>
    if count < sub32 end_ start / page_size then
      PageTableCall.free_page start ::
        release_pages page_size end_ fuel (count + 1) (u32 (start + page_size))
    else []

/-- The function `VMPool::release` (lines 99-121): the calls made to the page table, in order.
The function assigns no field of the object and no word of `vm_mem_pool`. -/
def release (p : VMPool) (_start_address : Nat) : List PageTableCall :=
  let page_size := PAGE_SIZE
  let cur := release_find p _start_address ((p.vm_mem_pool_cur + 2) / 2).toNat 0
  let start := p.vm_mem_pool cur.toNat
  let end_ := p.vm_mem_pool (cur + 1).toNat
  release_pages page_size end_ (sub32 end_ start / page_size) 0 start ++ [PageTableCall.load]

/-- The function `VMPool::is_legitimate` (lines 123-128). -/
def is_legitimate (p : VMPool) (_address : Nat) : Bool :=
  let end_ := u32 (p.base_address + p.size)
  decide (_address < end_ ∧ _address ≥ p.base_address)

end VMPool

/-!
# vanilla-os: the page table (`mp4/page_table.C`) and the file (`mp7/file.C`)

Conventions of the embedding of the page table, in addition to those above.

* `Paging` holds what the code of `PageTable` works on besides the object itself: the physical
  memory (a word for each word-aligned byte address), the global list of frame pools with the
  two static pool pointers (positions in that list), `shared_size`, and the register CR3.
* The constructor writes through the pointers it gets from the kernel pool (memory that is
  mapped one to one).  `handle_fault` and `free_page` use the addresses `0xFFFFF000` and
  `0xFFC00000 | (pd_addr << 12)`, which the hardware translates through the directory in CR3:
  every such access goes through `translate`.  A translation that fails inside these functions
  would be a fault within the handler; the model stops there with `none`.  No translation is
  cached.
* The console output of `handle_fault` that depends on the state is returned as a list of
  `Diagnostic`.
-/

/-- The constant `PAGE_DIRECTORY_SIZE`. -/
def PAGE_DIRECTORY_SIZE : Nat := 1
/-- The constant `PAGE_TABLE_SIZE`. -/
def PAGE_TABLE_SIZE : Nat := 1
/-- The constant `PD_SHIFT`. -/
def PD_SHIFT : Nat := 22
/-- The constant `PT_SHIFT`. -/
def PT_SHIFT : Nat := 12
/-- The constant `PTE_PRESENT`. -/
def PTE_PRESENT : Nat := 1
/-- The constant `PTE_WRITE`. -/
def PTE_WRITE : Nat := 2

/-- Modelled from the spec: the class `PageTable` is declared in `page_table.H`, which is not
among the sources.  The fields are those that `page_table.C` uses: the pointer
`page_directory` (a physical address), the counter `vm_pool_no` and the array
`registered_vm_pools`, given by its entries.  The declared length of the array is not known:
it is the parameter `capacity` of `register_pool`. -/
structure PageTable where
  page_directory : Nat
  vm_pool_no : Int
  registered_vm_pools : Nat → VMPool

/-- The machine state that the code of `PageTable` reads and writes besides the object: the
physical memory, the static members `kernel_mem_pool`, `process_mem_pool` (as positions in the
global pool list `ContFramePool::poolListHead`) and `shared_size`, and the register CR3. -/
structure Paging where
  memory : Nat → Nat
  poolListHead : List ContFramePool
  kernel_mem_pool : Nat
  process_mem_pool : Nat
  shared_size : Nat
  cr3 : Nat

/-- A state-dependent console message of `handle_fault`. -/
inductive Diagnostic where
  | failed_to_get_vm_pool
  | failed_to_get_frame
deriving DecidableEq

/-- Modelled from the spec: the two-level address translation of the hardware (the
translation-hardware contract and the self-mapping convention).  A virtual address selects the
directory entry `va >> 22` of the directory in CR3 and the entry `(va >> 12) & 0x3FF` of the
table that entry points to; `none` is a page fault (an entry without the present bit). -/
def Paging.translate (memory : Nat → Nat) (cr3 va : Nat) : Option Nat :=
  let pde := memory (cr3 + 4 * (va >>> 22))
  if pde &&& 1 = 0 then none
  else
    let pte := memory ((pde &&& 0xFFFFF000) + 4 * ((va >>> 12) &&& 0x3FF))
    if pte &&& 1 = 0 then none
    else some ((pte &&& 0xFFFFF000) + (va &&& 0xFFF))

/-- A read of the word at virtual address `va`. -/
def Paging.vread (memory : Nat → Nat) (cr3 va : Nat) : Option Nat :=
  (Paging.translate memory cr3 va).map (fun pa => memory pa)

/-- A store of `v` into the word at virtual address `va`. -/
def Paging.vwrite (memory : Nat → Nat) (cr3 va v : Nat) : Option (Nat → Nat) :=
  (Paging.translate memory cr3 va).map (fun pa => write_word memory pa v)

namespace Paging

/-- The call `pool->get_frames(n)` through one of the static pool pointers: the frame number
returned and the pool list afterwards.  The pointer is a position in the list. -/
def get_frames (poolListHead : List ContFramePool) (pool n : Nat) :
    Nat × List ContFramePool :=
  match poolListHead[pool]? with
  | some p => ((p.get_frames n).1, poolListHead.set pool (p.get_frames n).2)
  | none => (0, poolListHead)

end Paging

namespace PageTable

/-- The loop of the constructor that fills the direct-mapped page table (lines 47-51); the first
argument counts the iterations left, `i` and `mask` are the loop variables. -/
def construct_shared (direct_mapped_page_table : Nat) :
    Nat → Nat → Nat → (Nat → Nat) → (Nat → Nat)
  | 0, _, _, memory => memory
  | n + 1, i, mask, memory =>
    construct_shared direct_mapped_page_table n (i + 1) (u32 (mask + PAGE_SIZE))
      (write_word memory (direct_mapped_page_table + 4 * i) (mask ||| PTE_PRESENT ||| PTE_WRITE))

/-- The loop of the constructor over the directory (lines 57-60), which runs from `i = 1` up to
`shared_frames`; the first argument counts the iterations left. -/
def construct_directory (page_directory mask : Nat) : Nat → Nat → (Nat → Nat) → (Nat → Nat)
  | 0, _, memory => memory
  | n + 1, i, memory =>
    construct_directory page_directory mask n (i + 1)
      (write_word memory (page_directory + 4 * i) (mask ||| PTE_WRITE))

/-- The constructor `PageTable::PageTable` (lines 36-65): the machine afterwards and the new
object.  `registry` is what the memory of `registered_vm_pools` holds. -/
def construct (s : Paging) (registry : Nat → VMPool) : Paging × PageTable :=
  let r1 := Paging.get_frames s.poolListHead s.kernel_mem_pool PAGE_DIRECTORY_SIZE
  let page_directory := u32 (r1.1 * PAGE_SIZE)
  let r2 := Paging.get_frames r1.2 s.kernel_mem_pool PAGE_TABLE_SIZE
  let direct_mapped_page_table := u32 (r2.1 * PAGE_SIZE)
  let shared_frames := s.shared_size / PAGE_SIZE
  let m1 := construct_shared direct_mapped_page_table shared_frames 0 0x0 s.memory
  let m2 := write_word m1 page_directory (direct_mapped_page_table ||| PTE_PRESENT ||| PTE_WRITE)
  let m3 := construct_directory page_directory 0x0 (shared_frames - 1) 1 m2
  let m4 := write_word m3 (page_directory + 4 * 1023) (page_directory ||| PTE_PRESENT ||| PTE_WRITE)
  ({ s with memory := m4, poolListHead := r2.2 },
    { page_directory := page_directory, vm_pool_no := -1, registered_vm_pools := registry })

/-- The function `PageTable::load` (lines 68-76): the directory of the object goes into CR3. -/
def load (s : Paging) (this : PageTable) : Paging :=
  { s with cr3 := this.page_directory }

/-- The loop of `handle_fault` that looks for a registered pool containing the address
(lines 96-102): whether one is found.  The first argument counts the iterations left. -/
def handle_fault_lookup (current_page_table : PageTable) (addr : Nat) : Nat → Int → Bool
  | 0, _ => false
  | n + 1, i =>
    if i ≤ current_page_table.vm_pool_no then
      if (current_page_table.registered_vm_pools i.toNat).is_legitimate addr then true
      else handle_fault_lookup current_page_table addr n (i + 1)
    else false

/-- The function `PageTable::handle_fault` (lines 88-128) for the fault address `addr` read
from CR2: the machine afterwards and the messages printed; `none` is a fault inside the
handler. -/
def handle_fault (s : Paging) (current_page_table : PageTable) (addr : Nat) :
    Option (Paging × List Diagnostic) :=
  let mask := 0x3FF
  let pd_addr := (addr >>> PD_SHIFT) &&& mask
  let pt_addr := (addr >>> PT_SHIFT) &&& mask
  let found := handle_fault_lookup current_page_table addr
    (current_page_table.vm_pool_no + 1).toNat 0
  let d1 := if found then [] else [Diagnostic.failed_to_get_vm_pool]
  let page_directory := 0xFFFFF000
  match Paging.vread s.memory s.cr3 (page_directory + 4 * pd_addr) with
  | none => none
  | some pde =>
    let r1 :=
      if pde &&& 1 = 0 then
        let g := Paging.get_frames s.poolListHead s.process_mem_pool PAGE_DIRECTORY_SIZE
        (Paging.vwrite s.memory s.cr3 (page_directory + 4 * pd_addr)
          (u32 (g.1 * PAGE_SIZE) ||| PTE_PRESENT ||| PTE_WRITE), g.2)
      else (some s.memory, s.poolListHead)
    match r1.1 with
    | none => none
    | some m1 =>
      let page_table := 0xFFC00000 ||| (pd_addr <<< 12)
      let g := Paging.get_frames r1.2 s.process_mem_pool PAGE_TABLE_SIZE
      let d2 := if g.1 = 0 then [Diagnostic.failed_to_get_frame] else []
      let addr := u32 (g.1 * PAGE_SIZE)
      match Paging.vwrite m1 s.cr3 (page_table + 4 * pt_addr) addr with
      | none => none
      | some m2 =>
        match Paging.vread m2 s.cr3 (page_table + 4 * pt_addr) with
        | none => none
        | some pte =>
          match Paging.vwrite m2 s.cr3 (page_table + 4 * pt_addr) (pte ||| PTE_PRESENT ||| PTE_WRITE) with
          | none => none
          | some m3 => some ({ s with memory := m3, poolListHead := g.2 }, d1 ++ d2)

/-- The outcome of `register_pool`, by where the store
`registered_vm_pools[vm_pool_no] = _vm_pool` (line 133) goes: into the array, which gives the
object afterwards, or behind the end of the array, at the index `vm_pool_no` that the counter
has reached.  In both cases the function goes on to its end; neither is a halt.  What the
object holds after a store behind the array depends on what that store has overwritten and is
not modelled. -/
inductive Registered where
  | stored (this : PageTable)
  | out_of_bounds (vm_pool_no : Int) (_vm_pool : VMPool)

/-- The function `PageTable::register_pool` (lines 131-135).  It contains no test and no
assertion.  Modelled from the spec: the array `registered_vm_pools` has a fixed length, which
is declared in `page_table.H` and so not known; it is the parameter `capacity`.  The counter is
incremented first; a store at an index below `capacity` changes that entry of the array, a
store at an index from `capacity` on is a write behind the array. -/
def register_pool (capacity : Nat) (this : PageTable) (_vm_pool : VMPool) : Registered :=
  let vm_pool_no := this.vm_pool_no + 1
  if 0 ≤ vm_pool_no ∧ vm_pool_no < (capacity : Int) then
    Registered.stored
      { this with
        vm_pool_no := vm_pool_no
        registered_vm_pools := fun k =>
          if k = vm_pool_no.toNat then _vm_pool else this.registered_vm_pools k }
  else Registered.out_of_bounds vm_pool_no _vm_pool

/-- The function `PageTable::free_page` (lines 137-149); `none` is a fault inside the function
or a failed assertion of `release_frames`. -/
def free_page (s : Paging) (_page_no : Nat) : Option Paging :=
  let mask := 0x3FF
  let pd_addr := (_page_no >>> PD_SHIFT) &&& mask
  let pt_addr := (_page_no >>> PT_SHIFT) &&& mask
  let page_table := 0xFFC00000 ||| (pd_addr <<< 12)
  match Paging.vread s.memory s.cr3 (page_table + 4 * pt_addr) with
  | none => none
  | some pte =>
    let frame_no := pte / PAGE_SIZE
    match Paging.vwrite s.memory s.cr3 (page_table + 4 * pt_addr) (pte &&& not32 PTE_PRESENT) with
    | none => none
    | some m1 =>
      match ContFramePool.release_frames s.poolListHead frame_no with
      | none => none
      | some l => some { s with memory := m1, poolListHead := l }

end PageTable

/-! ## The file (`mp7/file.C`)

The 512-byte buffers are functions from index to byte; the disk is a function from block number
to the 512 bytes of the block, and `read` and `write` of a block copy it as a whole. -/

/-- Modelled from the spec: the class `File` is declared in `file.H`, which is not among the
sources.  The fields are those that `Read`, `Write`, `Reset` and `EoF` use: whether the pointer
`fs` is `NULL`, `block_no` (compared with -1), `size` and the position `last`. -/
structure File where
  fs_is_null : Bool
  block_no : Int
  size : Nat
  last : Nat
deriving DecidableEq

namespace File

/-- Local variables and fields that the loop of `Write` changes (lines 135-159). -/
structure WriteState where
  buf : Nat → Nat
  last : Nat
  size : Nat
  i : Nat

/-- The loop of `Write` (lines 136-159); the first argument is the loop variable `n`, which
counts down to 0.  The `break` leaves the loop before `i++`. -/
def Write_loop (_buf : Nat → Nat) : Nat → WriteState → WriteState
  | 0, s => s
  | n + 1, s =>
    let buf := write_word s.buf s.last (u8 (_buf s.i))
    let last := s.last + 1
    let size := if last > s.size then s.size + 1 else s.size
    if last ≥ 512 ∧ n + 1 > 0 then { buf := buf, last := last, size := size, i := s.i }
    else Write_loop _buf n { buf := buf, last := last, size := size, i := s.i + 1 }

/-- The function `File::Write` (lines 112-166): the value returned, the file and the disk
afterwards.  The parameter `_n` is an `unsigned int` that the loop copies into an `int`: from
`2^31` on the copy is negative and the loop does not run. -/
def Write (f : File) (disk : Int → Nat → Nat) (_n : Nat) (_buf : Nat → Nat) :
    Nat × File × (Int → Nat → Nat) :=
  if f.fs_is_null = true ∨ f.block_no = -1 then (0, f, disk)
  else if f.last ≥ 512 then (0, f, disk)
  else
    let buf := disk f.block_no
    let n := if _n < 2147483648 then _n else 0
    let r := Write_loop _buf n { buf := buf, last := f.last, size := f.size, i := 0 }
    (r.i, { f with last := r.last, size := r.size },
      fun b => if b = f.block_no then r.buf else disk b)

end File

namespace File

/-- The function `File::Reset` (lines 168-172). -/
def Reset (f : File) : File := { f with last := 0 }

/-- The function `File::EoF` (lines 174-179). -/
def EoF (f : File) : Bool := decide (f.last ≥ f.size)

/-- Local variables and fields that the loop of `Read` changes (lines 87-108), with the
caller's buffer `_buf`. -/
structure ReadState where
  _buf : Nat → Nat
  last : Nat
  i : Nat

/-- The loop of `Read` (lines 88-108) over the block `buf` of a file of the given size; the
first argument is the loop variable `n`, which counts down to 0.  At the end of the file
(`EoF()`) the function returns `i` at once. -/
def Read_loop (buf : Nat → Nat) (size : Nat) : Nat → ReadState → ReadState
  | 0, s => s
  | n + 1, s =>
    if s.last ≥ size then s
    else Read_loop buf size n
      { _buf := write_word s._buf s.i (buf s.last), last := s.last + 1, i := s.i + 1 }

/-- The function `File::Read` (lines 64-110): the value returned, the file afterwards and the
caller's buffer afterwards.  The parameter `_n` is copied into an `int` as in `Write`. -/
def Read (f : File) (disk : Int → Nat → Nat) (_n : Nat) (_buf : Nat → Nat) :
    Nat × File × (Nat → Nat) :=
  if f.fs_is_null = true ∨ f.block_no = -1 then (0, f, _buf)
  else if f.last ≥ 512 then (0, f, _buf)
  else
    let buf := disk f.block_no
    let n := if _n < 2147483648 then _n else 0
    let r := Read_loop buf f.size n { _buf := _buf, last := f.last, i := 0 }
    (r.i, { f with last := r.last }, r._buf)

/-- The indices at which the loop of `Write` stores into the 512-byte array `buf`, in order:
one store `buf[last]` in every iteration, from the position `last` on. -/
def Write_indices : Nat → Nat → List Nat
  | 0, _ => []
  | n + 1, last =>
    last :: (if last + 1 ≥ 512 ∧ n + 1 > 0 then [] else Write_indices n (last + 1))

/-- The indices at which the loop of `Read` reads the 512-byte array `buf`, in order: one read
`buf[last]` in every iteration that does not return. -/
def Read_indices (size : Nat) : Nat → Nat → List Nat
  | 0, _ => []
  | n + 1, last => if last ≥ size then [] else last :: Read_indices size n (last + 1)

end File

/-!
# vanilla-os: the ready queue and `Scheduler::terminate` (`mp5/queue.H`, `mp5/scheduler.C`, `mp6/scheduler.C`)

The linked list of a `Queue` is the list of the values of its nodes, from `head` on; `tail`
points to the last node whenever `qsize` is not 0.  A `NULL` result of `dequeue` is `none`, and
a call `rm->ThreadId()` through such a pointer ends the function with `none`.
-/

/-- Modelled from the spec: the class `Thread` is declared in `thread.H`, which is not among
the sources.  The schedulers use only `ThreadId()`; `tag` stands for the rest of the object,
so that two threads can be told apart. -/
structure Thread where
  ThreadId : Int
  tag : Nat
deriving DecidableEq

/-- The class `Queue<T>` (`queue.H`, lines 23-73): the counter `qsize` and the chain of
nodes. -/
structure Queue (T : Type) where
  qsize : Int
  nodes : List T
deriving DecidableEq

namespace Queue

/-- The constructor `Queue()` (lines 31-35). -/
def construct (T : Type) : Queue T := { qsize := 0, nodes := [] }

/-- The function `size` (lines 37-40). -/
def size {T : Type} (q : Queue T) : Int := q.qsize

/-- The function `empty` (lines 42-45). -/
def empty {T : Type} (q : Queue T) : Bool := decide (q.qsize = 0)

/-- The function `enqueue` (lines 47-58): on an empty queue the new node becomes `head` and
`tail`, otherwise it is linked behind `tail`. -/
def enqueue {T : Type} (q : Queue T) (val : T) : Queue T :=
  if q.empty = true then { qsize := q.qsize + 1, nodes := [val] }
  else { qsize := q.qsize + 1, nodes := q.nodes ++ [val] }

/-- The function `dequeue` (lines 60-72): the value returned (`none` is `NULL`) and the queue
afterwards. -/
def dequeue {T : Type} (q : Queue T) : Option T × Queue T :=
  if q.empty = true then (none, q)
  else
    match q.nodes with
    | [] => (none, q)
    | rm :: next => (some rm, { qsize := q.qsize - 1, nodes := next })

end Queue

/-- Modelled from the spec: the class `Scheduler` is declared in `scheduler.H`, which is not
among the sources.  The field is the one that `terminate` uses. -/
structure Scheduler where
  ready_queue : Queue Thread
deriving DecidableEq

namespace mp6

/-- The loop of `Scheduler::terminate` of mp6 (lines 121-126); the first argument is the loop
variable `i`, which counts down to 0. -/
def terminate_loop (_thread : Thread) : Nat → Queue Thread → Option (Queue Thread)
  | 0, ready_queue => some ready_queue
  | i + 1, ready_queue =>
    match ready_queue.dequeue with
    | (none, _) => none
    | (some rm, q) =>
      if rm.ThreadId ≠ _thread.ThreadId then terminate_loop _thread i (q.enqueue rm)
      else terminate_loop _thread i q

/-- The function `Scheduler::terminate` of mp6 (lines 115-132). -/
def Scheduler.terminate (this : Scheduler) (_thread : Thread) : Option Scheduler :=
  if this.ready_queue.size ≠ 0 then
    (terminate_loop _thread this.ready_queue.size.toNat this.ready_queue).map
      (fun q => { ready_queue := q })
  else some this

end mp6

namespace mp5

/-- The loop of `Scheduler::terminate` of mp5 (lines 77-82), which runs for
`i = size, ..., 0`; the first argument counts the iterations left, `rm` is the thread
dequeued last. -/
def terminate_loop (_thread : Thread) :
    Nat → Option Thread → Queue Thread → Option (Queue Thread)
  | 0, _, ready_queue => some ready_queue
  | _ + 1, none, _ => none
  | n + 1, some rm, ready_queue =>
    let q := if rm.ThreadId ≠ _thread.ThreadId then ready_queue.enqueue rm else ready_queue
    terminate_loop _thread n q.dequeue.1 q.dequeue.2

/-- The function `Scheduler::terminate` of mp5 (lines 73-83). -/
def Scheduler.terminate (this : Scheduler) (_thread : Thread) : Option Scheduler :=
  if this.ready_queue.size = 0 then some this
  else
    let d := this.ready_queue.dequeue
    (terminate_loop _thread (d.2.size + 1).toNat d.1 d.2).map (fun q => { ready_queue := q })

end mp5

/-! ## Vocabulary of the statements -/

namespace ContFramePool

/-- Shape of a pool object: what the constructor's assertions and its first loop establish and
every operation keeps. -/
def Valid (p : ContFramePool) : Prop :=
  p.n_frames % 8 = 0 ∧ p.n_frames ≤ FRAME_SIZE * 8 ∧ p.bitmap.length * 4 = p.n_frames ∧
    ∀ b ∈ p.bitmap, b < 256

instance Valid.decidable (p : ContFramePool) : Decidable (Valid p) := by
  unfold Valid; infer_instance

/-- Invariant of the constructor's marking loop when it is about to look at the frame with
index `K`: the frames before `K` are marked `00`, the others are still `11`. -/
def InitInv (B n K : Nat) (s : InitState) : Prop :=
  s.cur_frame_no = B + K ∧ s.n_free_frames = n - K ∧ s.bitmap.length * 4 = n ∧
    (∀ b ∈ s.bitmap, b < 256) ∧ ∀ x, x < n → status s.bitmap x = if x < K then 0 else 3

end ContFramePool

namespace ContFramePool

/-- Number of frames that the constructor marks `00`: the frames from `base_frame_no` up to
`info_frame_end_no = info_frame_no + n_info_frames - 1` (after the defaults for
`_info_frame_no = 0`), as far as the pool reaches. -/
def init_marked (B n info ninfo : Nat) : Nat :=
  min n ((if info = 0 then B else info) + (if info = 0 then 1 else ninfo) - 1 + 1 - B)

end ContFramePool

namespace ContFramePool

/-- No run of `n` FREE frames lies entirely among the frames with index below `K`. -/
def NoRunBefore (bm : List Nat) (n K : Nat) : Prop :=
  ∀ f, f + n ≤ K → ∃ x, f ≤ x ∧ x < f + n ∧ status bm x ≠ 3

/-- Invariant of the search loop of `get_frames` when it is about to look at the frame with
index `K`: `free_frame_count` is the length of the FREE run that ends just before `K`, the
three `start` variables describe its first frame, and no run of `n` has been passed. -/
def SearchInv (bm : List Nat) (B n K : Nat) (s : Search) : Prop :=
  s.cur_frame_no = B + K ∧ s.free_frame_count < n ∧ s.free_frame_count ≤ K ∧
    (∀ x, K - s.free_frame_count ≤ x → x < K → status bm x = 3) ∧
    (s.free_frame_count < K → status bm (K - s.free_frame_count - 1) ≠ 3) ∧
    (0 < s.free_frame_count →
      s.free_frame_start_no = B + (K - s.free_frame_count) ∧
      s.bitmap_start_i = (K - s.free_frame_count) / 4 ∧
      s.bitmap_start_offset = 7 - 2 * ((K - s.free_frame_count) % 4)) ∧
    NoRunBefore bm n K

/-- The search has stopped on the leftmost run of `n` FREE frames, which starts at index `F`. -/
def SearchFound (bm : List Nat) (B n N F : Nat) (s : Search) : Prop :=
  s.free_frame_count = n ∧ F + n ≤ N ∧ s.free_frame_start_no = B + F ∧
    s.bitmap_start_i = F / 4 ∧ s.bitmap_start_offset = 7 - 2 * (F % 4) ∧
    (∀ x, F ≤ x → x < F + n → status bm x = 3) ∧ NoRunBefore bm n (F + n - 1)

end ContFramePool

namespace ContFramePool

/-- Frames `f .. f+n-1` belong to the pool and are all FREE. -/
def FreeRun (p : ContFramePool) (f n : Nat) : Prop :=
  p.base_frame_no ≤ f ∧ f + n ≤ p.base_frame_no + p.n_frames ∧
    ∀ x, f ≤ x → x < f + n → p.frame_status x = FREE

/-- Number of indices below `N` at which `g` is FREE. -/
def cnt (g : Nat → Nat) (N : Nat) : Nat :=
  ((List.range N).filter (fun k => g k = FREE)).length

end ContFramePool

namespace ContFramePool

/-- The frame with index `k0` is HEAD-OF-SEQUENCE and is followed by exactly `k` ALLOCATED
frames: the next frame, if the pool has one, is not ALLOCATED. -/
def RunAt (bm : List Nat) (N k0 k : Nat) : Prop :=
  k0 + k < N ∧ status bm k0 = 2 ∧ (∀ x, k0 < x → x ≤ k0 + k → status bm x = 0) ∧
    (k0 + k + 1 < N → status bm (k0 + k + 1) ≠ 0)

/-- Invariant of the loop of `release_frames` when it is about to look at the frame with index
`K`: the frames of the run before `K` have been set FREE and counted. -/
def ReleaseInv (bm0 : List Nat) (B n0 k0 K : Nat) (s : ReleaseState) : Prop :=
  s.cur_frame_no = B + K ∧ s.is_released = false ∧ s.bitmap.length = bm0.length ∧
    (∀ b ∈ s.bitmap, b < 256) ∧
    s.n_free_frames % 4294967296 = (n0 + (K - k0)) % 4294967296 ∧
    (k0 < K → s.n_free_frames < 4294967296) ∧
    ∀ x, status s.bitmap x = if k0 ≤ x ∧ x < K then 3 else status bm0 x

/-- State of the loop of `release_frames` once the run of `k + 1` frames at `k0` is freed. -/
def ReleasePost (bm0 : List Nat) (n0 k0 k : Nat) (s : ReleaseState) : Prop :=
  s.bitmap.length = bm0.length ∧ (∀ b ∈ s.bitmap, b < 256) ∧
    s.n_free_frames % 4294967296 = (n0 + (k + 1)) % 4294967296 ∧
    s.n_free_frames < 4294967296 ∧
    ∀ x, status s.bitmap x = if k0 ≤ x ∧ x ≤ k0 + k then 3 else status bm0 x

end ContFramePool

namespace ContFramePool

/-- A pool of 16 frames at frame 512, as it is after construction with its own info frame,
`get_frames(2)`, `get_frames(1)` and `release_frames(513)`: frame 512 is ALLOCATED, frame 515
is HEAD-OF-SEQUENCE, the other frames are FREE. -/
def pool16 : ContFramePool :=
  { base_frame_no := 512, n_frames := 16, n_free_frames := 14, info_frame_no := 512,
    n_info_frames := 1, bitmap := [0x3E, 0xFF, 0xFF, 0xFF] }

/-- The pool `pool16` after `get_frames(3)`: frames 516..518 form a run. -/
def pool16_run : ContFramePool :=
  { base_frame_no := 512, n_frames := 16, n_free_frames := 11, info_frame_no := 512,
    n_info_frames := 1, bitmap := [0x3E, 0x83, 0xFF, 0xFF] }

end ContFramePool

namespace ContFramePool

/-- The pool states that arise from a constructor call that returns, followed by any number of
`get_frames` calls (with a request of at least one frame) and of `release_frames` calls that
return, the pool being the only one in the pool list. -/
inductive Reachable : ContFramePool → Prop
  | construct (B n info ninfo : Nat) (p : ContFramePool) :
      construct B n info ninfo = some p → Reachable p
  | get_frames (p : ContFramePool) (n : Nat) :
      Reachable p → 1 ≤ n → Reachable (p.get_frames n).2
  | release_frames (p : ContFramePool) (f : Nat) (q : ContFramePool) :
      Reachable p → release_frames [p] f = some [q] → Reachable q

/-- Every ALLOCATED frame other than the pool's first frame comes right after a
HEAD-OF-SEQUENCE or ALLOCATED frame. -/
def Closed (bm : List Nat) (N : Nat) : Prop :=
  ∀ x, 0 < x → x < N → status bm x = 0 → status bm (x - 1) = 0 ∨ status bm (x - 1) = 2

end ContFramePool

namespace ContFramePool

/-- The results of a sequence of `get_frames` calls on one pool, with no release in between:
for each call that succeeds, the returned frame number and the requested length. -/
def get_frames_seq : ContFramePool → List Nat → List (Nat × Nat)
  | _, [] => []
  | p, n :: ns =>
    if p.get_frames_succeeds n then
      ((p.get_frames n).1, n) :: get_frames_seq (p.get_frames n).2 ns
    else get_frames_seq (p.get_frames n).2 ns

/-- Number of frames of the pool that lie in the range
`info_frame_no .. info_frame_no + n_info_frames - 1` of the frames that hold its bitmap. -/
def info_frames_in_pool (p : ContFramePool) : Nat :=
  ((List.range p.n_frames).filter (fun k =>
    p.info_frame_no ≤ p.base_frame_no + k ∧
      p.base_frame_no + k < p.info_frame_no + p.n_info_frames)).length

/-- The pool of 16 frames at frame 512 right after construction with its own info frame. -/
def pool16_new : ContFramePool :=
  { base_frame_no := 512, n_frames := 16, n_free_frames := 15, info_frame_no := 512,
    n_info_frames := 1, bitmap := [0x3F, 0xFF, 0xFF, 0xFF] }

/-- The pool of 8 frames at frame 8 right after construction with its own info frame. -/
def pool8_new : ContFramePool :=
  { base_frame_no := 8, n_frames := 8, n_free_frames := 7, info_frame_no := 8,
    n_info_frames := 1, bitmap := [0x3F, 0xFF] }

end ContFramePool

namespace ContFramePool

/-- The pool of frames 16..23 whose info frame is frame 4 (outside the pool), after
`get_frames(2)`: frame 16 is HEAD-OF-SEQUENCE, frame 17 ALLOCATED, the others FREE. -/
def pool8_hi : ContFramePool :=
  { base_frame_no := 16, n_frames := 8, n_free_frames := 6, info_frame_no := 4,
    n_info_frames := 1, bitmap := [0x8F, 0xFF] }

/-- The pool `pool8_hi` with its run at frame 16 released. -/
def pool8_hi_released : ContFramePool :=
  { base_frame_no := 16, n_frames := 8, n_free_frames := 8, info_frame_no := 4,
    n_info_frames := 1, bitmap := [0xFF, 0xFF] }

end ContFramePool

/-- A call of `allocate` or `release` on a `VMPool`. -/
inductive VMCall where
  | allocate (_size : Nat)
  | release (_start_address : Nat)
deriving DecidableEq

namespace VMPool

/-- The object after a sequence of calls, by the assignments of the two functions alone: a
`release` call assigns no field and no word of the array.  What the `free_page` calls of
`release` do to the memory behind the array is in `run`. -/
def after_calls : VMPool → List VMCall → VMPool
  | p, [] => p
  | p, VMCall.allocate s :: cs => after_calls (p.allocate s).2 cs
  | p, VMCall.release _ :: cs => after_calls p cs

/-- The values returned by the `allocate` calls of a sequence of calls, in order. -/
def returned : VMPool → List VMCall → List Nat
  | _, [] => []
  | p, VMCall.allocate s :: cs => (p.allocate s).1 :: returned (p.allocate s).2 cs
  | p, VMCall.release _ :: cs => returned p cs

/-- A freshly constructed pool of 256 pages at address `0x10000000`, on zeroed memory. -/
def fresh_pool : VMPool := construct 0x10000000 0x100000 (fun _ => 0)

/-- A freshly constructed pool of 4096 pages (16 MiB) at address `0x10000000`. -/
def fresh_pool_16m : VMPool := construct 0x10000000 0x1000000 (fun _ => 0)

/-- A freshly constructed pool of three pages at address `0x10000000`. -/
def fresh_pool_3 : VMPool := construct 0x10000000 (3 * PAGE_SIZE) (fun _ => 0)

end VMPool

namespace Paging

/-- The pool of frames 1024..1039 whose info frame lies outside it: all 16 frames are FREE. -/
def process16 : ContFramePool :=
  { base_frame_no := 1024, n_frames := 16, n_free_frames := 16, info_frame_no := 520,
    n_info_frames := 1, bitmap := [0xFF, 0xFF, 0xFF, 0xFF] }

/-- The pool of frames 512..527 after construction and two calls `get_frames(1)`: frame 512 is
ALLOCATED, frames 513 and 514 are heads of one-frame runs. -/
def kernel16 : ContFramePool :=
  { base_frame_no := 512, n_frames := 16, n_free_frames := 13, info_frame_no := 512,
    n_info_frames := 1, bitmap := [0x2B, 0xFF, 0xFF, 0xFF] }

/-- A machine with the process pool `process16` and the kernel pool `kernel16`, with CR3 on a
directory in frame 513 whose only entries are entry 0 (the table in frame 514) and the
self-mapping in entry 1023; the rest of the memory is zero. -/
def machine : Paging :=
  { memory := write_word (write_word (fun _ => 0) 0x201000 0x202003) (0x201000 + 4 * 1023) 0x201003
    poolListHead := [process16, kernel16]
    kernel_mem_pool := 1
    process_mem_pool := 0
    shared_size := 0x400000
    cr3 := 0x201000 }

/-- A page table object for the directory in frame 513, with no registered pool. -/
def table513 : PageTable :=
  { page_directory := 0x201000, vm_pool_no := -1,
    registered_vm_pools := fun _ => VMPool.fresh_pool }

end Paging

namespace Paging

/-- Entry 1023 of the directory at `page_directory` holds the address of the directory itself
with the present and write bits. -/
def SelfMapped (memory : Nat → Nat) (page_directory : Nat) : Prop :=
  memory (page_directory + 4 * 1023) = page_directory ||| PTE_PRESENT ||| PTE_WRITE

instance SelfMapped.decidable (memory : Nat → Nat) (page_directory : Nat) :
    Decidable (SelfMapped memory page_directory) := by
  unfold SelfMapped; infer_instance

end Paging

namespace Paging

/-- The present and the write bit of a directory or table entry are both set. -/
def present_write (entry : Nat) : Prop :=
  entry &&& PTE_PRESENT ≠ 0 ∧ entry &&& PTE_WRITE ≠ 0

instance present_write.decidable (entry : Nat) : Decidable (present_write entry) := by
  unfold present_write; infer_instance

/-- The directory entry of the address `addr`: the word with index `(addr >> 22) & 0x3FF` of
the directory at `page_directory`. -/
def directory_entry (memory : Nat → Nat) (page_directory addr : Nat) : Nat :=
  memory (page_directory + 4 * ((addr >>> PD_SHIFT) &&& 0x3FF))

/-- The table entry of the address `addr`: the word with index `(addr >> 12) & 0x3FF` of the
table that the directory entry of `addr` points to. -/
def table_entry (memory : Nat → Nat) (page_directory addr : Nat) : Nat :=
  memory ((directory_entry memory page_directory addr &&& 0xFFFFF000)
    + 4 * ((addr >>> PT_SHIFT) &&& 0x3FF))

end Paging

namespace Paging

/-- The pool of frames 1024..1039 with no FREE frame left: one run of 16 frames. -/
def process16_full : ContFramePool :=
  { base_frame_no := 1024, n_frames := 16, n_free_frames := 0, info_frame_no := 520,
    n_info_frames := 1, bitmap := [0x80, 0x00, 0x00, 0x00] }

/-- The pool of frames 512..527 in which also frame 515 is the head of a one-frame run. -/
def kernel16_three : ContFramePool :=
  { base_frame_no := 512, n_frames := 16, n_free_frames := 12, info_frame_no := 512,
    n_info_frames := 1, bitmap := [0x2A, 0xFF, 0xFF, 0xFF] }

/-- A machine whose process pool is exhausted; the directory in frame 513 has entry 0 (the
table in frame 514), entry 64 (the table in frame 515, all of whose entries are zero) and the
self-mapping. -/
def machine_full : Paging :=
  { memory := write_word (write_word (write_word (fun _ => 0) 0x201000 0x202003)
      (0x201000 + 4 * 64) 0x203003) (0x201000 + 4 * 1023) 0x201003
    poolListHead := [process16_full, kernel16_three]
    kernel_mem_pool := 1
    process_mem_pool := 0
    shared_size := 0x400000
    cr3 := 0x201000 }

/-- A page table object for the directory in frame 513 with one registered pool, the region
of 256 pages at `0x10000000`. -/
def table513_registered : PageTable :=
  { page_directory := 0x201000, vm_pool_no := 0,
    registered_vm_pools := fun _ => VMPool.fresh_pool }

end Paging

namespace PageTable

/-- The calls `register_pool(v)` for the pools `v` of a list, in order, on one page table whose
array has the length `capacity`.  The sequence is followed up to the first store behind the
array. -/
def register_all (capacity : Nat) : PageTable → List VMPool → Registered
  | this, [] => Registered.stored this
  | this, v :: vs =>
    match register_pool capacity this v with
    | Registered.stored t => register_all capacity t vs
    | Registered.out_of_bounds i w => Registered.out_of_bounds i w

end PageTable

namespace File

/-- A file on block 3 whose position is at byte 511, one byte before the end of the block. -/
def file511 : File := { fs_is_null := false, block_no := 3, size := 511, last := 511 }

/-- A file on block 3 whose position is at byte 510. -/
def file510 : File := { fs_is_null := false, block_no := 3, size := 510, last := 510 }

end File

namespace Paging

/-- A machine before any page table is constructed: the memory and `shared_size` are given, the
process pool is `process16` and the kernel pool is the newly constructed pool of frames
512..527, whose next two frames are 513 and 514. -/
def machine_new (shared_size : Nat) (memory : Nat → Nat) : Paging :=
  { memory := memory
    poolListHead := [process16, ContFramePool.pool16_new]
    kernel_mem_pool := 1
    process_mem_pool := 0
    shared_size := shared_size
    cr3 := 0 }

end Paging

namespace Paging

/-- The pool of frames 1024..1039 after two calls `get_frames(1)`: frames 1024 and 1025 are
heads of one-frame runs. -/
def process16_two : ContFramePool :=
  { base_frame_no := 1024, n_frames := 16, n_free_frames := 14, info_frame_no := 520,
    n_info_frames := 1, bitmap := [0xAF, 0xFF, 0xFF, 0xFF] }

/-- The machine `machine` after the fault at `0x10000000`: directory entry 64 is the table in
frame 1024, whose entry 0 maps the page to frame 1025. -/
def machine_mapped : Paging :=
  { memory := write_word (write_word (write_word (write_word (fun _ => 0) 0x201000 0x202003)
      (0x201000 + 4 * 1023) 0x201003) (0x201000 + 4 * 64) 0x400003) 0x400000 0x401003
    poolListHead := [process16_two, kernel16]
    kernel_mem_pool := 1
    process_mem_pool := 0
    shared_size := 0x400000
    cr3 := 0x201000 }

end Paging

namespace Paging

/-- A memory in which word 5 of frame 513 holds `0x201003`: read as a directory entry, a
present entry that points to frame 513 itself. -/
def stale_directory : Nat → Nat := write_word (fun _ => 0) (0x201000 + 4 * 5) 0x201003

end Paging

namespace Paging

/-- One call of `handle_fault` or of `free_page` that returns, for an address whose directory
index is not 1023. -/
inductive Step : Paging → Paging → Prop where
  | handle_fault (s s' : Paging) (t : PageTable) (addr : Nat) (d : List Diagnostic) :
      (addr >>> PD_SHIFT) &&& 0x3FF ≠ 1023 →
      PageTable.handle_fault s t addr = some (s', d) → Step s s'
  | free_page (s s' : Paging) (a : Nat) :
      (a >>> PD_SHIFT) &&& 0x3FF ≠ 1023 →
      PageTable.free_page s a = some s' → Step s s'

/-- The machine states reached from `s0` by any number of such calls. -/
inductive Steps (s0 : Paging) : Paging → Prop where
  | refl : Steps s0 s0
  | step (s s' : Paging) : Steps s0 s → Step s s' → Steps s0 s'

/-- Invariant of the calls of `handle_fault` and `free_page` below the window of the
self-mapping: the directory in CR3 is self-mapped, no other present entry of it points to the
directory itself, the directory is not frame 0 and is outside the range `B .. B + N - 1` of the
process pool, which is valid. -/
def Safe (B N : Nat) (s : Paging) : Prop :=
  s.cr3 % 4096 = 0 ∧ 0 < s.cr3 ∧ s.cr3 < 4294967296 ∧ SelfMapped s.memory s.cr3 ∧
    (∀ i, i < 1023 → s.memory (s.cr3 + 4 * i) % 2 = 1 →
      s.memory (s.cr3 + 4 * i) % 4294967296 / 4096 * 4096 ≠ s.cr3) ∧
    B + N ≤ 1048576 ∧ (s.cr3 / PAGE_SIZE < B ∨ B + N ≤ s.cr3 / PAGE_SIZE) ∧
    ∃ P, s.poolListHead[s.process_mem_pool]? = some P ∧ P.Valid ∧
      P.base_frame_no = B ∧ P.n_frames = N

end Paging

namespace Paging

/-- The machine after a page fault at `addr`: the state that `handle_fault` leaves, or the
state as it was when the handler does not return. -/
def after_fault (s : Paging) (t : PageTable) (addr : Nat) : Paging :=
  match PageTable.handle_fault s t addr with
  | some r => r.1
  | none => s

end Paging

namespace Queue

/-- The queue that holds the given values, first in first: the state after the constructor and
one `enqueue` for each of them. -/
def of_list {T : Type} (l : List T) : Queue T := { qsize := l.length, nodes := l }

end Queue

/-- Three threads with different identifiers. -/
def thread1 : Thread := { ThreadId := 1, tag := 0 }
/-- The thread with identifier 2. -/
def thread2 : Thread := { ThreadId := 2, tag := 0 }
/-- The thread with identifier 3. -/
def thread3 : Thread := { ThreadId := 3, tag := 0 }

namespace ContFramePool

/-- The pool state is well-formed: every ALLOCATED frame of the pool has a frame of the pool
immediately before it, and that frame is HEAD-OF-SEQUENCE or ALLOCATED. -/
def WellFormed (p : ContFramePool) : Prop :=
  ∀ x, p.base_frame_no ≤ x → x < p.base_frame_no + p.n_frames → p.frame_status x = ALLOCATED →
    p.base_frame_no < x ∧
      (p.frame_status (x - 1) = HEAD_OF_SEQUENCE ∨ p.frame_status (x - 1) = ALLOCATED)

end ContFramePool

namespace VMPool

/-- A memory in which the first two words of the list hold a stale pair of addresses. -/
def stale_memory : Nat → Nat :=
  write_word (write_word (fun _ => 0) 0 0x10002000) 1 0x10004000

/-- A freshly constructed pool of 256 pages at address `0x10000000`, on `stale_memory`. -/
def fresh_pool_stale : VMPool := construct 0x10000000 0x100000 stale_memory

end VMPool

namespace File

/-- An empty file on block 3. -/
def empty_file : File := { fs_is_null := false, block_no := 3, size := 0, last := 0 }

end File

namespace VMPool

end VMPool

namespace VMPool

end VMPool

namespace VMPool

end VMPool
/-! ## Bytes -/

theorem cur_bits_drop : ∀ j < 4, cur_bits.drop j = (7 - 2 * j) :: cur_bits.drop (j + 1) := by
  decide

theorem cur_bits_drop_four : cur_bits.drop 4 = [] := by decide

theorem mask_shift (j : Nat) : (0xC0 >>> (2 * j)) >>> 2 = 0xC0 >>> (2 * (j + 1)) := by
  rw [← Nat.shiftRight_add]; rfl

set_option maxRecDepth 100000 in
theorem byte_free_iff : ∀ b < 256, ∀ j < 4,
    (b &&& (0xC0 >>> (2 * j)) = 0xC0 >>> (2 * j) ↔ stat b j = 3) := by decide

set_option maxRecDepth 100000 in
theorem byte_xor_stat : ∀ b < 256, ∀ j < 4, ∀ j2 < 4,
    stat (b ^^^ (0xC0 >>> (2 * j))) j2 = if j2 = j then stat b j ^^^ 3 else stat b j2 := by
  decide

set_option maxRecDepth 100000 in
theorem byte_xor_lt : ∀ b < 256, ∀ j < 4, b ^^^ (0xC0 >>> (2 * j)) < 256 := by decide

set_option maxRecDepth 100000 in
theorem byte_head_stat : ∀ b < 256, ∀ j < 4, ∀ j2 < 4,
    stat (u8 (u8 (b ||| (1 <<< (7 - 2 * j))) &&& not32 (1 <<< (7 - 2 * j - 1)))) j2
      = if j2 = j then 2 else stat b j2 := by decide

set_option maxRecDepth 100000 in
theorem byte_is_head_iff : ∀ b < 256, ∀ j < 4,
    (((b &&& (1 <<< (7 - 2 * j))) != 0) = true ∧ ((b &&& (1 <<< (7 - 2 * j - 1))) == 0) = true
      ↔ stat b j = 2) := by decide

set_option maxRecDepth 100000 in
theorem byte_is_allocated_iff : ∀ b < 256, ∀ j < 4,
    (((b &&& (1 <<< (7 - 2 * j))) == 0) = true ∧ ((b &&& (1 <<< (7 - 2 * j - 1))) == 0) = true
      ↔ stat b j = 0) := by decide

set_option maxRecDepth 100000 in
theorem byte_free_stat : ∀ b < 256, ∀ j < 4, ∀ j2 < 4,
    stat (u8 (b ||| (0x3 <<< (7 - 2 * j - 1)))) j2 = if j2 = j then 3 else stat b j2 := by
  decide

set_option maxRecDepth 100000 in
theorem byte_eq_stats : ∀ b < 256,
    b = stat b 0 * 64 + stat b 1 * 16 + stat b 2 * 4 + stat b 3 := by decide

theorem u8_lt (x : Nat) : u8 x < 256 := Nat.mod_lt _ (by decide)

theorem status_set (bm : List Nat) (i v x : Nat) (hi : i < bm.length) :
    status (bm.set i v) x = if x / 4 = i then stat v (x % 4) else status bm x := by
  unfold status
  by_cases h : x / 4 = i
  · subst h
    simp [List.getD_eq_getElem?_getD, List.getElem?_set, hi]
  · have h2 : ¬ i = x / 4 := fun e => h e.symm
    simp [List.getD_eq_getElem?_getD, List.getElem?_set, h, h2]

theorem mem_set_lt (bm : List Nat) (i v : Nat) (hv : v < 256) (h : ∀ b ∈ bm, b < 256) :
    ∀ b ∈ bm.set i v, b < 256 := by
  intro b hb
  rcases List.mem_or_eq_of_mem_set hb with h1 | h1
  · exact h b h1
  · exact h1 ▸ hv

theorem getD_lt (bm : List Nat) (i : Nat) (h : ∀ b ∈ bm, b < 256) : bm.getD i 0 < 256 := by
  rw [List.getD_eq_getElem?_getD]
  cases hx : bm[i]? with
  | none => simp
  | some v =>
    simp
    exact h v (List.getElem?_mem hx)

/-! ## Constructor -/

namespace ContFramePool

theorem init_bits_inv (E B n M i : Nat) (hM : M = E + 1 - B) (hi : 4 * i + 4 ≤ n)
    (hn : n < 4294967296) :
    ∀ m j s, j + m = 4 → InitInv B n (4 * i + j) s → 4 * i + j ≤ M →
      InitInv B n (min (4 * i + 4) M)
        (init_bits E i (cur_bits.drop j) (0xC0 >>> (2 * j)) s) := by
  intro m
  induction m with
  | zero =>
    intro j s hj hinv hle
    have : j = 4 := by omega
    subst this
    rw [cur_bits_drop_four]
    simp only [init_bits]
    rw [Nat.min_eq_left hle]
    exact hinv
  | succ m ih =>
    intro j s hj hinv hle
    have hj4 : j < 4 := by omega
    rw [cur_bits_drop j hj4]
    simp only [init_bits]
    obtain ⟨hcur, hfree, hlen, hbytes, hst⟩ := hinv
    split
    · rename_i hgt
      have : min (4 * i + 4) M = 4 * i + j := by omega
      rw [this]
      exact ⟨hcur, hfree, hlen, hbytes, hst⟩
    · rename_i hgt
      rw [mask_shift]
      have hilen : i < s.bitmap.length := by omega
      refine ih (j + 1) _ (by omega) ?_ (by omega)
      refine ⟨?_, ?_, ?_, ?_, ?_⟩
      · simp only [hcur]; omega
      · simp only [hfree, sub32]; omega
      · simp only [List.length_set]; exact hlen
      · exact mem_set_lt _ _ _ (byte_xor_lt _ (getD_lt _ _ hbytes) j hj4) hbytes
      · intro x hx
        simp only [status_set _ _ _ _ hilen]
        have hK := hst (4 * i + j) (by omega)
        simp only [status] at hK
        have e1 : (4 * i + j) / 4 = i := by omega
        have e2 : (4 * i + j) % 4 = j := by omega
        rw [e1, e2] at hK
        simp only [lt_irrefl, if_false] at hK
        by_cases hxi : x / 4 = i
        · simp only [hxi, if_true]
          rw [byte_xor_stat _ (getD_lt _ _ hbytes) j hj4 _ (Nat.mod_lt _ (by decide))]
          by_cases hxj : x % 4 = j
          · have : x = 4 * i + j := by omega
            subst this
            simp only [hxj, if_true, hK]
            have : 4 * i + j < 4 * i + (j + 1) := by omega
            simp only [this, if_true]
            decide
          · simp only [hxj, if_false]
            have := hst x hx
            simp only [status, hxi] at this
            rw [this]
            have : (x < 4 * i + j ↔ x < 4 * i + (j + 1)) := by omega
            simp only [this]
        · simp only [hxi, if_false]
          rw [hst x hx]
          have : (x < 4 * i + j ↔ x < 4 * i + (j + 1)) := by omega
          simp only [this]

end ContFramePool

namespace ContFramePool

theorem init_bytes_inv (E B n M : Nat) (hM : M = E + 1 - B) (hn : n < 4294967296) :
    ∀ m i s, 4 * (i + m) = n → InitInv B n (4 * i) s → 4 * i ≤ M →
      InitInv B n (min n M) (init_bytes E (List.range' i m) s) := by
  intro m
  induction m with
  | zero =>
    intro i s hi hinv hle
    simp only [List.range'_zero, init_bytes]
    have : min n M = 4 * i := by omega
    rw [this]; exact hinv
  | succ m ih =>
    intro i s hi hinv hle
    rw [List.range'_succ]
    simp only [init_bytes]
    have h1 := init_bits_inv E B n M i hM (by omega) hn 4 0 s rfl hinv hle
    simp only [List.drop_zero, Nat.mul_zero, Nat.shiftRight_zero, Nat.add_zero] at h1
    split
    · rename_i hgt
      have hc := h1.1
      have : min n M = min (4 * i + 4) M := by omega
      rw [this]; exact h1
    · rename_i hgt
      have hc := h1.1
      have e : min (4 * i + 4) M = 4 * (i + 1) := by omega
      rw [e] at h1
      exact ih (i + 1) _ (by omega) h1 (by omega)

theorem stat_ff : ∀ j < 4, stat 0xFF j = 3 := by decide

theorem status_replicate (L x : Nat) (hx : x / 4 < L) : status (List.replicate L 0xFF) x = 3 := by
  unfold status
  rw [List.getD_eq_getElem?_getD, List.getElem?_replicate]
  simp only [hx, if_true, Option.getD_some]
  exact stat_ff _ (Nat.mod_lt _ (by decide))

theorem byte_indices_length (n : Nat) (h : n % 8 = 0) : (byte_indices n 0).length * 4 = n := by
  simp only [byte_indices, List.length_range']
  omega

/-- Number of frames that the constructor marks: those from `base_frame_no` up to
`info_frame_end_no`, as far as the pool reaches. -/
theorem construct_spec (B n info ninfo : Nat) (p : ContFramePool)
    (h : construct B n info ninfo = some p) :
    p.base_frame_no = B ∧ p.n_frames = n ∧ Valid p ∧
      p.n_free_frames = n - init_marked B n info ninfo ∧
      ∀ x, x < n → status p.bitmap x = if x < init_marked B n info ninfo then 0 else 3 := by
  unfold construct at h
  split at h
  · exact absurd h (by simp)
  rename_i h1
  split at h
  · exact absurd h (by simp)
  rename_i h2
  simp only [not_not] at h1 h2
  simp only [Option.some.injEq] at h
  have hF : FRAME_SIZE * 8 = 32768 := by decide
  have hlen := byte_indices_length n h2
  have hinit : InitInv B n (4 * 0)
      { bitmap := List.replicate (byte_indices n 0).length 0xFF, n_free_frames := n,
        cur_frame_no := B } := by
    refine ⟨rfl, rfl, ?_, ?_, ?_⟩
    · simp only [List.length_replicate]; exact hlen
    · intro b hb
      rw [List.eq_of_mem_replicate hb]; decide
    · intro x hx
      simp only [Nat.mul_zero, Nat.not_lt_zero, if_false]
      exact status_replicate _ _ (by omega)
  have hb : byte_indices n 0 = List.range' 0 (n / 4) := by
    simp only [byte_indices]; congr 1; omega
  have key := init_bytes_inv
    ((if info = 0 then B else info) + (if info = 0 then 1 else ninfo) - 1) B n
    ((if info = 0 then B else info) + (if info = 0 then 1 else ninfo) - 1 + 1 - B) rfl
    (by omega) (n / 4) 0 _ (by omega) hinit (by omega)
  rw [← hb] at key
  obtain ⟨_, k2, k3, k4, k5⟩ := key
  subst h
  refine ⟨rfl, rfl, ⟨h2, h1, k3, k4⟩, ?_, ?_⟩
  · exact k2
  · exact k5

end ContFramePool

/-! ## The search of get_frames -/

namespace ContFramePool

theorem status_at (bm : List Nat) (i j : Nat) (hj : j < 4) :
    status bm (4 * i + j) = stat (bm.getD i 0) j := by
  unfold status
  have e1 : (4 * i + j) / 4 = i := by omega
  have e2 : (4 * i + j) % 4 = j := by omega
  rw [e1, e2]

theorem get_frames_bits_inv (bm : List Nat) (B n N i : Nat) (hn : 1 ≤ n) (hi : 4 * i + 4 ≤ N)
    (hbytes : ∀ b ∈ bm, b < 256) :
    ∀ m j s, j + m = 4 → SearchInv bm B n (4 * i + j) s →
      (∃ F, SearchFound bm B n N F
          (get_frames_bits (bm.getD i 0) n i (cur_bits.drop j) (0xC0 >>> (2 * j)) s)) ∨
        SearchInv bm B n (4 * i + 4)
          (get_frames_bits (bm.getD i 0) n i (cur_bits.drop j) (0xC0 >>> (2 * j)) s) := by
  intro m
  induction m with
  | zero =>
    intro j s hj hinv
    have : j = 4 := by omega
    subst this
    rw [cur_bits_drop_four]
    simp only [get_frames_bits]
    exact Or.inr hinv
  | succ m ih =>
    intro j s hj hinv
    have hj4 : j < 4 := by omega
    rw [cur_bits_drop j hj4]
    obtain ⟨hcur, hlt, hle, hrun, hmax, hstart, hno⟩ := hinv
    have hst := status_at bm i j hj4
    have hfree := byte_free_iff _ (getD_lt bm i hbytes) j hj4
    rw [← hst] at hfree
    by_cases hf : status bm (4 * i + j) = 3
    · have hf2 := hfree.mpr hf
      simp only [get_frames_bits, hf2, if_true]
      by_cases hc : s.free_frame_count + 1 = n
      · rw [if_pos hc]
        left
        refine ⟨4 * i + j - s.free_frame_count, hc, by omega, ?_, ?_, ?_, ?_, ?_⟩
        · by_cases h0 : s.free_frame_count = 0
          · simp only [h0, if_true, hcur]; omega
          · simp only [h0, if_false]; exact (hstart (by omega)).1
        · by_cases h0 : s.free_frame_count = 0
          · simp only [h0, if_true]; omega
          · simp only [h0, if_false]; exact (hstart (by omega)).2.1
        · by_cases h0 : s.free_frame_count = 0
          · simp only [h0, if_true]
            have : (4 * i + j - 0) % 4 = j := by omega
            rw [this]
          · simp only [h0, if_false]; exact (hstart (by omega)).2.2
        · intro x hx1 hx2
          by_cases hxK : x = 4 * i + j
          · rw [hxK]; exact hf
          · exact hrun x hx1 (by omega)
        · have : 4 * i + j - s.free_frame_count + n - 1 = 4 * i + j := by omega
          rw [this]; exact hno
      · rw [if_neg hc]
        rw [mask_shift]
        refine ih (j + 1) _ (by omega) ?_
        refine ⟨?_, ?_, ?_, ?_, ?_, ?_, ?_⟩
        · simp only [hcur]; omega
        · simp only; omega
        · simp only; omega
        · intro x hx1 hx2
          simp only at hx1
          by_cases hxK : x = 4 * i + j
          · rw [hxK]; exact hf
          · exact hrun x (by omega) (by omega)
        · intro hlt2
          simp only at hlt2 ⊢
          have := hmax (by omega)
          have e : 4 * i + (j + 1) - (s.free_frame_count + 1) - 1
              = 4 * i + j - s.free_frame_count - 1 := by omega
          rw [e]; exact this
        · intro _
          simp only
          have e : 4 * i + (j + 1) - (s.free_frame_count + 1)
              = 4 * i + j - s.free_frame_count := by omega
          rw [e]
          by_cases h0 : s.free_frame_count = 0
          · simp only [h0, if_true, hcur]
            refine ⟨by omega, by omega, ?_⟩
            have : (4 * i + j - 0) % 4 = j := by omega
            rw [this]
          · simp only [h0, if_false]; exact hstart (by omega)
        · intro f hfn
          by_cases hfK : f + n ≤ 4 * i + j
          · exact hno f hfK
          · have hlt3 : s.free_frame_count < 4 * i + j := by omega
            exact ⟨4 * i + j - s.free_frame_count - 1, by omega, by omega, hmax hlt3⟩
    · have hf2 : ¬ (bm.getD i 0 &&& 0xC0 >>> (2 * j) = 0xC0 >>> (2 * j)) :=
        fun h => hf (hfree.mp h)
      simp only [get_frames_bits, hf2, if_false]
      have hn0 : ¬ (0 = n) := by omega
      simp only [hn0, if_false]
      rw [mask_shift]
      refine ih (j + 1) _ (by omega) ?_
      refine ⟨?_, ?_, ?_, ?_, ?_, ?_, ?_⟩
      · simp only [hcur]; omega
      · simp only; omega
      · simp only; omega
      · intro x hx1 hx2
        simp only at hx1
        omega
      · intro _
        simp only
        have e : 4 * i + (j + 1) - 0 - 1 = 4 * i + j := by omega
        rw [e]; exact hf
      · intro h0
        simp only at h0
        omega
      · intro f hfn
        by_cases hfK : f + n ≤ 4 * i + j
        · exact hno f hfK
        · exact ⟨4 * i + j, by omega, by omega, hf⟩

end ContFramePool

namespace ContFramePool

theorem get_frames_bytes_inv (bm : List Nat) (B n N : Nat) (hn : 1 ≤ n)
    (hbytes : ∀ b ∈ bm, b < 256) :
    ∀ m i s, 4 * (i + m) = N → SearchInv bm B n (4 * i) s →
      (∃ F, SearchFound bm B n N F (get_frames_bytes bm n (List.range' i m) s)) ∨
        SearchInv bm B n N (get_frames_bytes bm n (List.range' i m) s) := by
  intro m
  induction m with
  | zero =>
    intro i s hi hinv
    simp only [List.range'_zero, get_frames_bytes]
    right
    have : N = 4 * i := by omega
    rw [this]; exact hinv
  | succ m ih =>
    intro i s hi hinv
    rw [List.range'_succ]
    simp only [get_frames_bytes]
    have h1 := get_frames_bits_inv bm B n N i hn (by omega) hbytes 4 0 s rfl hinv
    simp only [List.drop_zero, Nat.mul_zero, Nat.shiftRight_zero, Nat.add_zero] at h1
    split
    · rename_i heq
      rcases h1 with h1 | h1
      · exact Or.inl h1
      · have := h1.2.1
        omega
    · rename_i hne
      rcases h1 with ⟨F, h1⟩ | h1
      · exact absurd h1.1 hne
      · exact ih (i + 1) _ (by omega) h1

theorem get_frames_search_spec (p : ContFramePool) (n : Nat) (hv : Valid p) (hn : 1 ≤ n) :
    (∃ F, SearchFound p.bitmap p.base_frame_no n p.n_frames F (get_frames_search p n)) ∨
      SearchInv p.bitmap p.base_frame_no n p.n_frames (get_frames_search p n) := by
  obtain ⟨h8, _, hlen, hbytes⟩ := hv
  unfold get_frames_search
  have hb : byte_indices p.n_frames 0 = List.range' 0 (p.n_frames / 4) := by
    simp only [byte_indices]; congr 1; omega
  rw [hb]
  refine get_frames_bytes_inv p.bitmap p.base_frame_no n p.n_frames hn hbytes (p.n_frames / 4) 0 _
    (by omega) ?_
  refine ⟨rfl, by simp only; omega, by simp only; omega, ?_, ?_, ?_, ?_⟩
  · intro x _ hx; omega
  · intro h; simp only at h; omega
  · intro h; simp only at h; omega
  · intro f hf; omega

theorem cnt_succ (g : Nat → Nat) (N : Nat) :
    cnt g (N + 1) = cnt g N + if g N = FREE then 1 else 0 := by
  unfold cnt
  rw [List.range_succ, List.filter_append, List.length_append]
  by_cases h : g N = FREE
  · simp [h]
  · simp [h]

theorem cnt_le (g : Nat → Nat) (N : Nat) : cnt g N ≤ N := by
  induction N with
  | zero => simp [cnt]
  | succ N ih =>
    rw [cnt_succ]
    split <;> omega

/-- Changing the statuses on `[a, a+m)` from FREE to something else removes `m` from the
count. -/
theorem cnt_interval (g g2 : Nat → Nat) (a m : Nat)
    (hout : ∀ x, ¬ (a ≤ x ∧ x < a + m) → g2 x = g x)
    (hin : ∀ x, a ≤ x → x < a + m → g x = FREE ∧ g2 x ≠ FREE) :
    ∀ N, cnt g2 N + (min (a + m) N - min a N) = cnt g N := by
  intro N
  induction N with
  | zero => simp [cnt]
  | succ N ih =>
    rw [cnt_succ, cnt_succ]
    by_cases hx : a ≤ N ∧ N < a + m
    · obtain ⟨h1, h2⟩ := hin N hx.1 hx.2
      simp only [h1, h2, if_true, if_false]
      omega
    · rw [hout N hx]
      have : min (a + m) (N + 1) - min a (N + 1) = min (a + m) N - min a N := by omega
      omega

theorem count_free_eq (p : ContFramePool) : p.count_free = cnt (status p.bitmap) p.n_frames := rfl

/-- A run of `n` FREE frames inside the pool bounds the count of FREE frames from below. -/
theorem cnt_ge_of_run (g : Nat → Nat) (a m N : Nat) (hN : a + m ≤ N)
    (hin : ∀ x, a ≤ x → x < a + m → g x = FREE) : m ≤ cnt g N := by
  have h := cnt_interval g (fun x => if a ≤ x ∧ x < a + m then 0 else g x) a m
    (fun x hx => by simp only [hx, if_false])
    (fun x h1 h2 => ⟨hin x h1 h2, by simp only [h1, h2, and_self, if_true]; decide⟩) N
  omega

end ContFramePool

namespace ContFramePool

theorem get_frames_fst (p : ContFramePool) (n : Nat) :
    (get_frames p n).1 =
      if p.n_free_frames ≤ 0 then 0
      else if (get_frames_search p n).free_frame_count ≠ n then 0
      else (get_frames_search p n).free_frame_start_no := by
  simp only [get_frames]
  split_ifs <;> rfl

theorem freeRun_index (p : ContFramePool) (f n : Nat) (h : FreeRun p f n) :
    (f - p.base_frame_no) + n ≤ p.n_frames ∧
      ∀ y, f - p.base_frame_no ≤ y → y < f - p.base_frame_no + n → status p.bitmap y = 3 := by
  obtain ⟨h1, h2, h3⟩ := h
  refine ⟨by omega, ?_⟩
  intro y hy1 hy2
  have := h3 (p.base_frame_no + y) (by omega) (by omega)
  simp only [frame_status, FREE] at this
  have e : p.base_frame_no + y - p.base_frame_no = y := by omega
  rw [e] at this; exact this

theorem freeRun_of_found (p : ContFramePool) (n F : Nat) (s : Search)
    (h : SearchFound p.bitmap p.base_frame_no n p.n_frames F s) :
    FreeRun p (p.base_frame_no + F) n := by
  obtain ⟨_, h2, _, _, _, h6, _⟩ := h
  refine ⟨by omega, by omega, ?_⟩
  intro x hx1 hx2
  simp only [frame_status, FREE]
  exact h6 _ (by omega) (by omega)

end ContFramePool

/-- C1: `get_frames` is first-fit.  In a pool whose counter `n_free_frames` equals the number of
FREE frames, for a request `n ≥ 1`: if some run of `n` FREE frames of the pool exists, the call
returns the first frame of the leftmost one; if none exists, it returns 0. -/
theorem ContFramePool.get_frames_first_fit (p : ContFramePool) (n : Nat) (hv : p.Valid)
    (hc : p.n_free_frames = p.count_free) (hn : 1 ≤ n) :
    ((∃ f, p.FreeRun f n) →
        p.FreeRun (p.get_frames n).1 n ∧ ∀ f, p.FreeRun f n → (p.get_frames n).1 ≤ f) ∧
      ((¬ ∃ f, p.FreeRun f n) → (p.get_frames n).1 = 0) := by
  have hs := get_frames_search_spec p n hv hn
  rw [get_frames_fst]
  constructor
  · rintro ⟨f, hf⟩
    obtain ⟨hf1, hf2⟩ := freeRun_index p f n hf
    have hcnt := cnt_ge_of_run (status p.bitmap) (f - p.base_frame_no) n p.n_frames hf1 hf2
    rw [← count_free_eq, ← hc] at hcnt
    have hpos : ¬ p.n_free_frames ≤ 0 := by omega
    rw [if_neg hpos]
    rcases hs with ⟨F, hF⟩ | hI
    · have hcount : ¬ (get_frames_search p n).free_frame_count ≠ n := by
        simp only [ne_eq, not_not]; exact hF.1
      rw [if_neg hcount, hF.2.2.1]
      refine ⟨freeRun_of_found p n F _ hF, ?_⟩
      intro g hg
      obtain ⟨hg1, hg2⟩ := freeRun_index p g n hg
      by_contra hlt
      obtain ⟨x, hx1, hx2, hx3⟩ := hF.2.2.2.2.2.2 (g - p.base_frame_no)
        (by have := hg.1; omega)
      exact hx3 (hg2 x hx1 hx2)
    · obtain ⟨x, hx1, hx2, hx3⟩ := hI.2.2.2.2.2.2 (f - p.base_frame_no) hf1
      exact absurd (hf2 x hx1 hx2) hx3
  · intro hno
    split
    · rfl
    · rcases hs with ⟨F, hF⟩ | hI
      · exact absurd ⟨_, freeRun_of_found p n F _ hF⟩ hno
      · have hne : (get_frames_search p n).free_frame_count ≠ n := by
          have := hI.2.1; omega
        rw [if_pos hne]

/-- Witness for C1: `get_frames(3)` on `pool16`, whose leftmost FREE run (513..514) is too
short; the call returns 516. -/
theorem ContFramePool.get_frames_first_fit_witness :
    ContFramePool.pool16.Valid ∧
      ContFramePool.pool16.n_free_frames = ContFramePool.pool16.count_free ∧ 1 ≤ 3 ∧
      (((∃ f, ContFramePool.pool16.FreeRun f 3) →
        ContFramePool.pool16.FreeRun (ContFramePool.pool16.get_frames 3).1 3 ∧
          ∀ f, ContFramePool.pool16.FreeRun f 3 → (ContFramePool.pool16.get_frames 3).1 ≤ f) ∧
        ((¬ ∃ f, ContFramePool.pool16.FreeRun f 3) →
          (ContFramePool.pool16.get_frames 3).1 = 0)) ∧
      (ContFramePool.pool16.get_frames 3).1 = 516 :=
  ⟨by decide, by decide, by decide,
    ContFramePool.get_frames_first_fit _ 3 (by decide) (by decide) (by decide), by decide⟩

/-! ## The marking of get_frames -/

namespace ContFramePool

theorem index_split (x k : Nat) : (x / 4 = k / 4 ∧ x % 4 = k % 4) ↔ x = k := by omega

/-- Effect on the statuses of `bitmap[k/4] ^= mask` for the mask of frame `k`. -/
theorem status_xor_frame (bm : List Nat) (k x : Nat) (hk : k / 4 < bm.length)
    (hbytes : ∀ b ∈ bm, b < 256) :
    status (bm.set (k / 4) (bm.getD (k / 4) 0 ^^^ (0xC0 >>> (2 * (k % 4))))) x
      = if x = k then status bm k ^^^ 3 else status bm x := by
  rw [status_set _ _ _ _ hk]
  have hj : k % 4 < 4 := Nat.mod_lt _ (by decide)
  by_cases hxi : x / 4 = k / 4
  · rw [if_pos hxi, byte_xor_stat _ (getD_lt _ _ hbytes) _ hj _ (Nat.mod_lt _ (by decide))]
    by_cases hxj : x % 4 = k % 4
    · have : x = k := (index_split x k).mp ⟨hxi, hxj⟩
      rw [if_pos hxj, if_pos this]; rfl
    · have : ¬ x = k := fun e => hxj (by rw [e])
      rw [if_neg hxj, if_neg this]
      simp only [status, hxi]
  · have : ¬ x = k := fun e => hxi (by rw [e])
    rw [if_neg hxi, if_neg this]

/-- Effect on the statuses of the two assignments that mark frame `k` HEAD-OF-SEQUENCE. -/
theorem status_head_frame (bm : List Nat) (k x : Nat) (hk : k / 4 < bm.length)
    (hbytes : ∀ b ∈ bm, b < 256) :
    status
        ((bm.set (k / 4) (u8 (bm.getD (k / 4) 0 ||| (1 <<< (7 - 2 * (k % 4)))))).set (k / 4)
          (u8 ((bm.set (k / 4) (u8 (bm.getD (k / 4) 0 ||| (1 <<< (7 - 2 * (k % 4)))))).getD
            (k / 4) 0 &&& not32 (1 <<< (7 - 2 * (k % 4) - 1))))) x
      = if x = k then 2 else status bm x := by
  have hk2 : k / 4 < (bm.set (k / 4) (u8 (bm.getD (k / 4) 0 ||| (1 <<< (7 - 2 * (k % 4)))))).length := by
    rw [List.length_set]; exact hk
  rw [status_set _ _ _ _ hk2]
  have hj : k % 4 < 4 := Nat.mod_lt _ (by decide)
  have hget : (bm.set (k / 4) (u8 (bm.getD (k / 4) 0 ||| (1 <<< (7 - 2 * (k % 4)))))).getD (k / 4) 0
      = u8 (bm.getD (k / 4) 0 ||| (1 <<< (7 - 2 * (k % 4)))) := by
    simp [List.getD_eq_getElem?_getD, List.getElem?_set, hk]
  rw [hget]
  by_cases hxi : x / 4 = k / 4
  · rw [if_pos hxi, byte_head_stat _ (getD_lt _ _ hbytes) _ hj _ (Nat.mod_lt _ (by decide))]
    by_cases hxj : x % 4 = k % 4
    · have : x = k := (index_split x k).mp ⟨hxi, hxj⟩
      rw [if_pos hxj, if_pos this]
    · have : ¬ x = k := fun e => hxj (by rw [e])
      rw [if_neg hxj, if_neg this]
      simp only [status, hxi]
  · have : ¬ x = k := fun e => hxi (by rw [e])
    rw [if_neg hxi, if_neg this, status_set _ _ _ _ hk, if_neg hxi]

theorem mark_next_mask : ∀ j < 4,
    (if (0xC0 >>> (2 * j)) >>> 2 = 0 then 0xC0 else (0xC0 >>> (2 * j)) >>> 2)
      = 0xC0 >>> (2 * ((j + 1) % 4)) := by decide

theorem mark_wrap_iff : ∀ j < 4, ((0xC0 >>> (2 * j)) >>> 2 = 0 ↔ j = 3) := by decide

theorem mark_first_mask : ∀ j < 4, u8 (0x3 <<< (7 - 2 * j - 1)) = 0xC0 >>> (2 * j) := by decide

theorem get_frames_mark_spec :
    ∀ c m bm, m + c < 4 * bm.length → (∀ b ∈ bm, b < 256) →
      (get_frames_mark c (0xC0 >>> (2 * (m % 4))) (m / 4) bm).length = bm.length ∧
      (∀ b ∈ get_frames_mark c (0xC0 >>> (2 * (m % 4))) (m / 4) bm, b < 256) ∧
      ∀ x, status (get_frames_mark c (0xC0 >>> (2 * (m % 4))) (m / 4) bm) x
        = if m < x ∧ x ≤ m + c then status bm x ^^^ 3 else status bm x := by
  intro c
  induction c with
  | zero =>
    intro m bm _ hbytes
    simp only [get_frames_mark]
    refine ⟨trivial, hbytes, ?_⟩
    intro x
    have : ¬ (m < x ∧ x ≤ m + 0) := by omega
    rw [if_neg this]
  | succ c ih =>
    intro m bm hlen hbytes
    have hj : m % 4 < 4 := Nat.mod_lt _ (by decide)
    simp only [get_frames_mark]
    rw [mark_next_mask _ hj]
    have hi : (if (0xC0 >>> (2 * (m % 4))) >>> 2 = 0 then m / 4 + 1 else m / 4) = (m + 1) / 4 := by
      have := mark_wrap_iff _ hj
      by_cases h3 : m % 4 = 3
      · rw [if_pos (this.mpr h3)]; omega
      · rw [if_neg (fun h => h3 (this.mp h))]; omega
    rw [hi]
    have e : (m % 4 + 1) % 4 = (m + 1) % 4 := by omega
    rw [e]
    have hk : (m + 1) / 4 < bm.length := by omega
    have hbytes2 : ∀ b ∈ bm.set ((m + 1) / 4)
        (bm.getD ((m + 1) / 4) 0 ^^^ (0xC0 >>> (2 * ((m + 1) % 4)))), b < 256 :=
      mem_set_lt _ _ _ (byte_xor_lt _ (getD_lt _ _ hbytes) _ (Nat.mod_lt _ (by decide))) hbytes
    obtain ⟨r1, r2, r3⟩ := ih (m + 1) _ (by rw [List.length_set]; omega) hbytes2
    refine ⟨by rw [r1, List.length_set], r2, ?_⟩
    intro x
    rw [r3 x, status_xor_frame bm (m + 1) x hk hbytes]
    by_cases hx : x = m + 1
    · subst hx
      have h1 : ¬ (m + 1 < m + 1 ∧ m + 1 ≤ m + 1 + c) := by omega
      have h2 : m < m + 1 ∧ m + 1 ≤ m + (c + 1) := by omega
      rw [if_neg h1, if_pos h2, if_pos rfl]
    · by_cases hin : m + 1 < x ∧ x ≤ m + 1 + c
      · have h2 : m < x ∧ x ≤ m + (c + 1) := by omega
        rw [if_pos hin, if_pos h2, if_neg hx]
      · have h2 : ¬ (m < x ∧ x ≤ m + (c + 1)) := by omega
        rw [if_neg hin, if_neg h2, if_neg hx]

end ContFramePool

namespace ContFramePool

theorem get_frames_fail (p : ContFramePool) (n : Nat) (h : get_frames_succeeds p n = false) :
    get_frames p n = (0, p) := by
  simp only [get_frames_succeeds, Bool.and_eq_false_iff, decide_eq_false_iff_not] at h
  simp only [get_frames]
  rcases h with h | h
  · rw [if_pos (by omega)]
  · split_ifs
    · rfl
    · rfl

/-- What a successful `get_frames` does, in terms of frame indices: `F` is the index of the
first frame of the leftmost run of `n` FREE frames. -/
theorem get_frames_ok (p : ContFramePool) (n : Nat) (hv : Valid p) (hn : 1 ≤ n)
    (h : get_frames_succeeds p n = true) :
    ∃ F, F + n ≤ p.n_frames ∧ (∀ x, F ≤ x → x < F + n → status p.bitmap x = 3) ∧
      NoRunBefore p.bitmap n (F + n - 1) ∧
      (get_frames p n).1 = p.base_frame_no + F ∧
      (get_frames p n).2.base_frame_no = p.base_frame_no ∧
      (get_frames p n).2.n_frames = p.n_frames ∧
      (get_frames p n).2.info_frame_no = p.info_frame_no ∧
      (get_frames p n).2.n_info_frames = p.n_info_frames ∧
      (get_frames p n).2.n_free_frames = sub32 p.n_free_frames n ∧
      (get_frames p n).2.bitmap.length = p.bitmap.length ∧
      (∀ b ∈ (get_frames p n).2.bitmap, b < 256) ∧
      ∀ x, status (get_frames p n).2.bitmap x
        = if x = F then 2 else if F < x ∧ x < F + n then 0 else status p.bitmap x := by
  simp only [get_frames_succeeds, Bool.and_eq_true, decide_eq_true_eq] at h
  obtain ⟨hpos, hcount⟩ := h
  rcases get_frames_search_spec p n hv hn with ⟨F, hF⟩ | hI
  swap
  · have := hI.2.1; omega
  obtain ⟨_, hFN, hstart, hsi, hso, hrun, hno⟩ := hF
  obtain ⟨h8, _, hlen, hbytes⟩ := hv
  have hk : F / 4 < p.bitmap.length := by omega
  have hbytes2 : ∀ b ∈ (p.bitmap.set (F / 4)
      (u8 (p.bitmap.getD (F / 4) 0 ||| (1 <<< (7 - 2 * (F % 4)))))).set (F / 4)
        (u8 ((p.bitmap.set (F / 4) (u8 (p.bitmap.getD (F / 4) 0 ||| (1 <<< (7 - 2 * (F % 4)))))).getD
          (F / 4) 0 &&& not32 (1 <<< (7 - 2 * (F % 4) - 1)))), b < 256 :=
    mem_set_lt _ _ _ (u8_lt _) (mem_set_lt _ _ _ (u8_lt _) hbytes)
  have hmark := get_frames_mark_spec (n - 1) F _
    (by rw [List.length_set, List.length_set]; omega) hbytes2
  have hget : get_frames p n = ((get_frames_search p n).free_frame_start_no,
      { p with
        bitmap := get_frames_mark (n - 1) (0xC0 >>> (2 * (F % 4))) (F / 4)
          ((p.bitmap.set (F / 4)
            (u8 (p.bitmap.getD (F / 4) 0 ||| (1 <<< (7 - 2 * (F % 4)))))).set (F / 4)
            (u8 ((p.bitmap.set (F / 4)
              (u8 (p.bitmap.getD (F / 4) 0 ||| (1 <<< (7 - 2 * (F % 4)))))).getD
              (F / 4) 0 &&& not32 (1 <<< (7 - 2 * (F % 4) - 1)))))
        n_free_frames := sub32 p.n_free_frames n }) := by
    simp only [get_frames]
    rw [if_neg (by omega), if_neg (by simp only [ne_eq, not_not]; exact hcount)]
    rw [hsi, hso, hcount, mark_first_mask _ (Nat.mod_lt _ (by decide))]
  rw [hget]
  obtain ⟨m1, m2, m3⟩ := hmark
  refine ⟨F, hFN, hrun, hno, hstart, rfl, rfl, rfl, rfl, rfl, ?_, m2, ?_⟩
  · simp only [m1, List.length_set]
  · intro x
    simp only [m3 x, status_head_frame p.bitmap F x hk hbytes]
    by_cases hx : x = F
    · subst hx
      have : ¬ (x < x ∧ x ≤ x + (n - 1)) := by omega
      rw [if_neg this, if_pos rfl, if_pos rfl]
    · rw [if_neg hx]
      by_cases hin : F < x ∧ x < F + n
      · have h2 : F < x ∧ x ≤ F + (n - 1) := by omega
        rw [if_pos h2, if_pos hin, if_neg hx, hrun x (by omega) hin.2]
        rfl
      · have h2 : ¬ (F < x ∧ x ≤ F + (n - 1)) := by omega
        rw [if_neg h2, if_neg hin, if_neg hx]

theorem get_frames_valid (p : ContFramePool) (n : Nat) (hv : Valid p) (hn : 1 ≤ n) :
    Valid (get_frames p n).2 := by
  cases h : get_frames_succeeds p n with
  | false => rw [get_frames_fail p n h]; exact hv
  | true =>
    obtain ⟨F, _, _, _, _, _, h2, _, _, _, h3, h4, _⟩ := get_frames_ok p n hv hn h
    obtain ⟨h8, hF, hlen, _⟩ := hv
    exact ⟨by rw [h2]; exact h8, by rw [h2]; exact hF, by rw [h2, h3]; exact hlen, h4⟩

theorem sub32_of_le (a b : Nat) (h1 : b ≤ a) (h2 : a < 4294967296) : sub32 a b = a - b := by
  unfold sub32; omega

end ContFramePool

/-- C2: effect of `get_frames(n)`, `n ≥ 1`, on a pool whose counter equals the number of FREE
frames.  When the call succeeds with result `f`: frame `f` is HEAD-OF-SEQUENCE, frames
`f+1 .. f+n-1` are ALLOCATED, the status of every other frame of the pool is unchanged and
`n_free_frames` has decreased by exactly `n`.  When it fails, it returns 0 and the pool (bitmap
and `n_free_frames`) is unchanged.  Unless frame number 0 is itself a FREE frame of the pool, a
returned 0 always is such a failure. -/
theorem ContFramePool.get_frames_effect (p : ContFramePool) (n : Nat) (hv : p.Valid)
    (hc : p.n_free_frames = p.count_free) (hn : 1 ≤ n) :
    (p.get_frames_succeeds n = true →
        p.base_frame_no ≤ (p.get_frames n).1 ∧
        (p.get_frames n).1 + n ≤ p.base_frame_no + p.n_frames ∧
        (p.get_frames n).2.frame_status (p.get_frames n).1 = HEAD_OF_SEQUENCE ∧
        (∀ x, (p.get_frames n).1 < x → x < (p.get_frames n).1 + n →
          (p.get_frames n).2.frame_status x = ALLOCATED) ∧
        (∀ x, p.base_frame_no ≤ x → x < p.base_frame_no + p.n_frames →
          ¬ ((p.get_frames n).1 ≤ x ∧ x < (p.get_frames n).1 + n) →
          (p.get_frames n).2.frame_status x = p.frame_status x) ∧
        (p.get_frames n).2.n_free_frames + n = p.n_free_frames) ∧
      (p.get_frames_succeeds n = false →
        (p.get_frames n).1 = 0 ∧ (p.get_frames n).2 = p) ∧
      (p.base_frame_no ≠ 0 ∨ p.frame_status 0 ≠ FREE →
        (p.get_frames n).1 = 0 → (p.get_frames n).2 = p) := by
  refine ⟨?_, ?_, ?_⟩
  · intro h
    obtain ⟨F, hFN, hrun, _, hret, hb, _, _, _, hfree, _, _, hst⟩ :=
      ContFramePool.get_frames_ok p n hv hn h
    have hcnt := ContFramePool.cnt_ge_of_run (status p.bitmap) F n p.n_frames hFN hrun
    rw [← ContFramePool.count_free_eq, ← hc] at hcnt
    have hle := ContFramePool.cnt_le (status p.bitmap) p.n_frames
    rw [← ContFramePool.count_free_eq, ← hc] at hle
    have hF : FRAME_SIZE * 8 = 32768 := by decide
    have hN := hv.2.1
    rw [hret]
    refine ⟨by omega, by omega, ?_, ?_, ?_, ?_⟩
    · simp only [ContFramePool.frame_status, hb, HEAD_OF_SEQUENCE]
      rw [hst]
      have : p.base_frame_no + F - p.base_frame_no = F := by omega
      rw [if_pos this]
    · intro x hx1 hx2
      simp only [ContFramePool.frame_status, hb, ALLOCATED]
      rw [hst]
      have h1 : ¬ (x - p.base_frame_no = F) := by omega
      have h2 : F < x - p.base_frame_no ∧ x - p.base_frame_no < F + n := by omega
      rw [if_neg h1, if_pos h2]
    · intro x hx1 hx2 hx3
      simp only [ContFramePool.frame_status, hb]
      rw [hst]
      have h1 : ¬ (x - p.base_frame_no = F) := by omega
      have h2 : ¬ (F < x - p.base_frame_no ∧ x - p.base_frame_no < F + n) := by omega
      rw [if_neg h1, if_neg h2]
    · rw [hfree, ContFramePool.sub32_of_le _ _ hcnt (by omega)]
      omega
  · intro h
    rw [ContFramePool.get_frames_fail p n h]
    exact ⟨rfl, rfl⟩
  · intro h0 hret0
    cases h : p.get_frames_succeeds n with
    | false => rw [ContFramePool.get_frames_fail p n h]
    | true =>
      obtain ⟨F, _, hrun, _, hret, _⟩ := ContFramePool.get_frames_ok p n hv hn h
      rw [hret] at hret0
      have hF : F = 0 := by omega
      have hB : p.base_frame_no = 0 := by omega
      have h3 := hrun 0 (by omega) (by omega)
      rcases h0 with h0 | h0
      · exact absurd hB h0
      · exfalso
        apply h0
        simp only [ContFramePool.frame_status, hB, FREE]
        exact h3

/-! ## release_frames -/

namespace ContFramePool

/-- Effect on the statuses of `bitmap[k/4] |= (0x3 << (cur_bit-1))` for frame `k`. -/
theorem status_free_frame (bm : List Nat) (i j x : Nat) (hj : j < 4) (hk : i < bm.length)
    (hbytes : ∀ b ∈ bm, b < 256) :
    status (bm.set i (u8 (bm.getD i 0 ||| (0x3 <<< (7 - 2 * j - 1))))) x
      = if x = 4 * i + j then 3 else status bm x := by
  rw [status_set _ _ _ _ hk]
  by_cases hxi : x / 4 = i
  · rw [if_pos hxi, byte_free_stat _ (getD_lt _ _ hbytes) _ hj _ (Nat.mod_lt _ (by decide))]
    by_cases hxj : x % 4 = j
    · have : x = 4 * i + j := by omega
      rw [if_pos hxj, if_pos this]
    · have : ¬ x = 4 * i + j := by omega
      rw [if_neg hxj, if_neg this]
      simp only [status, hxi]
  · have : ¬ x = 4 * i + j := by omega
    rw [if_neg hxi, if_neg this]

theorem release_frames_bits_inv (bm0 : List Nat) (B n0 N k0 k i : Nat)
    (hrun : RunAt bm0 N k0 k) (hi : 4 * i + 4 ≤ N) (hlen : bm0.length * 4 = N) :
    ∀ m j s, j + m = 4 → ReleaseInv bm0 B n0 k0 (4 * i + j) s → 4 * i + j ≤ k0 + k + 1 →
      ∃ r, release_frames_bits (B + k0) i (cur_bits.drop j) s = some r ∧
        ((r.is_released = true ∧ ReleasePost bm0 n0 k0 k r) ∨
          (ReleaseInv bm0 B n0 k0 (4 * i + 4) r ∧ 4 * i + 4 ≤ k0 + k + 1)) := by
  intro m
  induction m with
  | zero =>
    intro j s hj hinv hle
    have : j = 4 := by omega
    subst this
    rw [cur_bits_drop_four]
    exact ⟨s, rfl, Or.inr ⟨hinv, hle⟩⟩
  | succ m ih =>
    intro j s hj hinv hle
    have hj4 : j < 4 := by omega
    rw [cur_bits_drop j hj4]
    obtain ⟨hcur, hrel, hl, hbytes, hfree, hfree2, hst⟩ := hinv
    obtain ⟨hr1, hr2, hr3, hr4⟩ := hrun
    have hil : i < s.bitmap.length := by omega
    have hsK : status s.bitmap (4 * i + j) = status bm0 (4 * i + j) := by
      rw [hst]
      have : ¬ (k0 ≤ 4 * i + j ∧ 4 * i + j < 4 * i + j) := by omega
      rw [if_neg this]
    rw [status_at _ _ _ hj4] at hsK
    have hstep : ∀ (hK : k0 ≤ 4 * i + j), 4 * i + j ≤ k0 + k →
        ReleaseInv bm0 B n0 k0 (4 * i + (j + 1))
          { bitmap := s.bitmap.set i (u8 (s.bitmap.getD i 0 ||| (0x3 <<< (7 - 2 * j - 1))))
            n_free_frames := add32 s.n_free_frames 1
            cur_frame_no := s.cur_frame_no + 1
            is_released := s.is_released } := by
      intro hK hK2
      refine ⟨?_, hrel, ?_, ?_, ?_, ?_, ?_⟩
      · simp only [hcur]; omega
      · simp only [List.length_set]; exact hl
      · exact mem_set_lt _ _ _ (u8_lt _) hbytes
      · simp only [add32]; omega
      · intro _; simp only [add32]; omega
      · intro x
        simp only [status_free_frame _ _ _ _ hj4 hil hbytes, hst x]
        by_cases hx : x = 4 * i + j
        · have : k0 ≤ x ∧ x < 4 * i + (j + 1) := by omega
          rw [if_pos hx, if_pos this]
        · rw [if_neg hx]
          by_cases hin : k0 ≤ x ∧ x < 4 * i + j
          · have : k0 ≤ x ∧ x < 4 * i + (j + 1) := by omega
            rw [if_pos hin, if_pos this]
          · have : ¬ (k0 ≤ x ∧ x < 4 * i + (j + 1)) := by omega
            rw [if_neg hin, if_neg this]
    simp only [release_frames_bits]
    by_cases hK : s.cur_frame_no = B + k0
    · -- the head of the run
      have hKk : 4 * i + j = k0 := by omega
      rw [if_pos hK]
      have hhead := (byte_is_head_iff _ (getD_lt _ _ hbytes) j hj4).mpr
        (by rw [hsK, hKk]; exact hr2)
      have hcond : ¬ ((!(s.bitmap.getD i 0 &&& 1 <<< (7 - 2 * j) != 0) ||
          !(s.bitmap.getD i 0 &&& 1 <<< (7 - 2 * j - 1) == 0)) = true) := by
        rw [hhead.1, hhead.2]; decide
      rw [if_neg hcond]
      exact ih (j + 1) _ (by omega) (hstep (by omega) (by omega)) (by omega)
    · rw [if_neg hK]
      by_cases hgt : s.cur_frame_no > B + k0
      · rw [if_pos hgt]
        by_cases hend : 4 * i + j = k0 + k + 1
        · -- the frame after the run: not ALLOCATED
          have hne : stat (s.bitmap.getD i 0) j ≠ 0 := by
            rw [hsK, hend]; exact hr4 (by omega)
          have hcond : ((!(s.bitmap.getD i 0 &&& 1 <<< (7 - 2 * j) == 0) ||
              !(s.bitmap.getD i 0 &&& 1 <<< (7 - 2 * j - 1) == 0)) = true) := by
            by_contra hc
            apply hne
            apply (byte_is_allocated_iff _ (getD_lt _ _ hbytes) j hj4).mp
            revert hc
            cases (s.bitmap.getD i 0 &&& 1 <<< (7 - 2 * j) == 0) <;>
              cases (s.bitmap.getD i 0 &&& 1 <<< (7 - 2 * j - 1) == 0) <;> simp
          rw [if_pos hcond]
          refine ⟨_, rfl, Or.inl ⟨rfl, hl, hbytes, ?_, ?_, ?_⟩⟩
          · simp only; rw [hfree]; congr 1; omega
          · exact hfree2 (by omega)
          · intro x
            simp only [hst x]
            by_cases hin : k0 ≤ x ∧ x < 4 * i + j
            · have : k0 ≤ x ∧ x ≤ k0 + k := by omega
              rw [if_pos hin, if_pos this]
            · have : ¬ (k0 ≤ x ∧ x ≤ k0 + k) := by omega
              rw [if_neg hin, if_neg this]
        · -- a frame of the run: ALLOCATED
          have hal := (byte_is_allocated_iff _ (getD_lt _ _ hbytes) j hj4).mpr
            (by rw [hsK]; exact hr3 _ (by omega) (by omega))
          have hcond : ¬ ((!(s.bitmap.getD i 0 &&& 1 <<< (7 - 2 * j) == 0) ||
              !(s.bitmap.getD i 0 &&& 1 <<< (7 - 2 * j - 1) == 0)) = true) := by
            rw [hal.1, hal.2]; decide
          rw [if_neg hcond]
          exact ih (j + 1) _ (by omega) (hstep (by omega) (by omega)) (by omega)
      · -- a frame before the head, in the same byte
        rw [if_neg hgt]
        refine ih (j + 1) _ (by omega) ?_ (by omega)
        refine ⟨?_, hrel, hl, hbytes, ?_, ?_, ?_⟩
        · simp only [hcur]; omega
        · simp only; rw [hfree]; congr 1; omega
        · intro h; omega
        · intro x
          simp only [hst x]
          have h1 : ¬ (k0 ≤ x ∧ x < 4 * i + j) := by omega
          have h2 : ¬ (k0 ≤ x ∧ x < 4 * i + (j + 1)) := by omega
          rw [if_neg h1, if_neg h2]

end ContFramePool

namespace ContFramePool

theorem release_frames_bytes_inv (bm0 : List Nat) (B n0 N k0 k : Nat)
    (hrun : RunAt bm0 N k0 k) (hlen : bm0.length * 4 = N) :
    ∀ m i s, 4 * (i + m) = N → ReleaseInv bm0 B n0 k0 (4 * i) s → 4 * i ≤ k0 + k + 1 →
      ∃ r, release_frames_bytes (B + k0) (List.range' i m) s = some r ∧
        ReleasePost bm0 n0 k0 k r := by
  intro m
  induction m with
  | zero =>
    intro i s hi hinv hle
    simp only [List.range'_zero, release_frames_bytes]
    refine ⟨s, rfl, ?_⟩
    obtain ⟨_, _, hl, hb, hf, hf2, hst⟩ := hinv
    have hr1 := hrun.1
    have hN : 4 * i = k0 + k + 1 := by omega
    refine ⟨hl, hb, ?_, hf2 (by omega), ?_⟩
    · rw [hf]; congr 1; omega
    · intro x
      rw [hst x]
      by_cases hin : k0 ≤ x ∧ x < 4 * i
      · have : k0 ≤ x ∧ x ≤ k0 + k := by omega
        rw [if_pos hin, if_pos this]
      · have : ¬ (k0 ≤ x ∧ x ≤ k0 + k) := by omega
        rw [if_neg hin, if_neg this]
  | succ m ih =>
    intro i s hi hinv hle
    rw [List.range'_succ]
    simp only [release_frames_bytes]
    obtain ⟨r, hr, hcase⟩ := release_frames_bits_inv bm0 B n0 N k0 k i hrun (by omega) hlen
      4 0 s rfl hinv hle
    simp only [List.drop_zero] at hr
    rw [hr]
    rcases hcase with ⟨hrel, hpost⟩ | ⟨hinv2, hle2⟩
    · simp only [hrel, if_true]
      exact ⟨r, rfl, hpost⟩
    · have hrel := hinv2.2.1
      simp only [hrel, Bool.false_eq_true, if_false]
      exact ih (i + 1) r (by omega) hinv2 (by omega)

/-- What `release_frames` does to the pool it has found, when the frame is the head of a run of
`k + 1` frames. -/
theorem release_frames_in_run (p : ContFramePool) (f k : Nat) (hv : Valid p)
    (hf : p.base_frame_no ≤ f) (hrun : RunAt p.bitmap p.n_frames (f - p.base_frame_no) k) :
    ∃ q, release_frames_in p f = some q ∧
      q.base_frame_no = p.base_frame_no ∧ q.n_frames = p.n_frames ∧
      q.info_frame_no = p.info_frame_no ∧ q.n_info_frames = p.n_info_frames ∧
      q.bitmap.length = p.bitmap.length ∧ (∀ b ∈ q.bitmap, b < 256) ∧
      q.n_free_frames % 4294967296 = (p.n_free_frames + (k + 1)) % 4294967296 ∧
      q.n_free_frames < 4294967296 ∧
      ∀ x, status q.bitmap x
        = if f - p.base_frame_no ≤ x ∧ x ≤ f - p.base_frame_no + k then 3
          else status p.bitmap x := by
  obtain ⟨h8, _, hlen, hbytes⟩ := hv
  have hr1 := hrun.1
  have hb : byte_indices p.n_frames ((f - p.base_frame_no) / 4)
      = List.range' ((f - p.base_frame_no) / 4) (p.n_frames / 4 - (f - p.base_frame_no) / 4) := by
    simp only [byte_indices]; congr 1; omega
  have hfe : f = p.base_frame_no + (f - p.base_frame_no) := by omega
  obtain ⟨r, hr, hpost⟩ := release_frames_bytes_inv p.bitmap p.base_frame_no p.n_free_frames
    p.n_frames (f - p.base_frame_no) k hrun hlen
    (p.n_frames / 4 - (f - p.base_frame_no) / 4) ((f - p.base_frame_no) / 4)
    { bitmap := p.bitmap, n_free_frames := p.n_free_frames,
      cur_frame_no := p.base_frame_no + (f - p.base_frame_no) / 4 * 4, is_released := false }
    (by omega)
    ⟨by simp only; omega, rfl, rfl, hbytes, by simp only; congr 1; omega, by intro h; omega,
      by
        intro x
        have : ¬ (f - p.base_frame_no ≤ x ∧ x < 4 * ((f - p.base_frame_no) / 4)) := by omega
        rw [if_neg this]⟩
    (by omega)
  rw [← hfe] at hr
  simp only [release_frames_in]
  rw [hb, hr]
  obtain ⟨p1, p2, p3, p4, p5⟩ := hpost
  exact ⟨_, rfl, rfl, rfl, rfl, rfl, p1, p2, p3, p4, p5⟩

/-- Inner loop of `release_frames` when the frame to release is not HEAD-OF-SEQUENCE: the
assertion fails. -/
theorem release_frames_bits_not_head (B k0 i : Nat) (bm : List Nat) (hi : k0 / 4 = i)
    (hbytes : ∀ b ∈ bm, b < 256) (hne : status bm k0 ≠ 2) :
    ∀ m j s, j + m = 4 → j ≤ k0 % 4 → s.bitmap = bm → s.cur_frame_no = B + (4 * i + j) →
      release_frames_bits (B + k0) i (cur_bits.drop j) s = none := by
  intro m
  induction m with
  | zero =>
    intro j s hj hjk _ _
    omega
  | succ m ih =>
    intro j s hj hjk hbm hcur
    have hj4 : j < 4 := by omega
    rw [cur_bits_drop j hj4]
    simp only [release_frames_bits]
    by_cases hK : s.cur_frame_no = B + k0
    · have hKk : 4 * i + j = k0 := by omega
      rw [if_pos hK]
      have hst : stat (s.bitmap.getD i 0) j ≠ 2 := by
        rw [hbm, ← status_at _ _ _ hj4, hKk]; exact hne
      have hcond : ((!(s.bitmap.getD i 0 &&& 1 <<< (7 - 2 * j) != 0) ||
          !(s.bitmap.getD i 0 &&& 1 <<< (7 - 2 * j - 1) == 0)) = true) := by
        by_contra hc
        apply hst
        apply (byte_is_head_iff _ (getD_lt _ _ (hbm ▸ hbytes)) j hj4).mp
        revert hc
        cases (s.bitmap.getD i 0 &&& 1 <<< (7 - 2 * j) != 0) <;>
          cases (s.bitmap.getD i 0 &&& 1 <<< (7 - 2 * j - 1) == 0) <;> simp
      rw [if_pos hcond]
    · rw [if_neg hK]
      have hgt : ¬ s.cur_frame_no > B + k0 := by omega
      rw [if_neg hgt]
      exact ih (j + 1) _ (by omega) (by omega) hbm (by simp only [hcur]; omega)

theorem release_frames_in_not_head (p : ContFramePool) (f : Nat) (hv : Valid p)
    (hf1 : p.base_frame_no ≤ f) (hf2 : f < p.base_frame_no + p.n_frames)
    (hne : status p.bitmap (f - p.base_frame_no) ≠ 2) : release_frames_in p f = none := by
  obtain ⟨h8, _, hlen, hbytes⟩ := hv
  have hb : byte_indices p.n_frames ((f - p.base_frame_no) / 4)
      = (f - p.base_frame_no) / 4 ::
        List.range' ((f - p.base_frame_no) / 4 + 1)
          (p.n_frames / 4 - (f - p.base_frame_no) / 4 - 1) := by
    simp only [byte_indices]
    rw [← List.range'_succ]; congr 1; omega
  have hfe : f = p.base_frame_no + (f - p.base_frame_no) := by omega
  have h := release_frames_bits_not_head p.base_frame_no (f - p.base_frame_no)
    ((f - p.base_frame_no) / 4) p.bitmap rfl hbytes hne 4 0
    { bitmap := p.bitmap, n_free_frames := p.n_free_frames,
      cur_frame_no := p.base_frame_no + (f - p.base_frame_no) / 4 * 4, is_released := false }
    rfl (by omega) rfl (by simp only; omega)
  rw [← hfe] at h
  simp only [List.drop_zero] at h
  simp only [release_frames_in]
  rw [hb]
  simp only [release_frames_bytes, h]

/-- Every HEAD-OF-SEQUENCE frame of the pool is followed by a definite number of ALLOCATED
frames. -/
theorem runAt_exists (bm : List Nat) (N k0 : Nat) (hk0 : k0 < N) (hhead : status bm k0 = 2) :
    ∃ k, RunAt bm N k0 k := by
  have key : ∀ d k, k0 + k + d + 1 = N → (∀ x, k0 < x → x ≤ k0 + k → status bm x = 0) →
      ∃ k2, RunAt bm N k0 k2 := by
    intro d
    induction d with
    | zero =>
      intro k hk hal
      exact ⟨k, by omega, hhead, hal, fun h => by omega⟩
    | succ d ih =>
      intro k hk hal
      by_cases hnext : status bm (k0 + k + 1) = 0
      · refine ih (k + 1) (by omega) ?_
        intro x hx1 hx2
        by_cases hx : x = k0 + k + 1
        · rw [hx]; exact hnext
        · exact hal x hx1 (by omega)
      · exact ⟨k, by omega, hhead, hal, fun _ => hnext⟩
  exact key (N - k0 - 1) 0 (by omega) (fun x h1 h2 => by omega)

end ContFramePool

/-- Witness for C2: `get_frames(3)` on `pool16` (it succeeds and returns 516). -/
theorem ContFramePool.get_frames_effect_witness :
    ContFramePool.pool16.Valid ∧
      ContFramePool.pool16.n_free_frames = ContFramePool.pool16.count_free ∧ 1 ≤ 3 ∧
      ContFramePool.pool16.get_frames_succeeds 3 = true ∧
      (ContFramePool.pool16.get_frames 3).1 = 516 ∧
      ((ContFramePool.pool16.get_frames 3).2.frame_status 516 = HEAD_OF_SEQUENCE ∧
        (∀ x, 516 < x → x < 516 + 3 →
          (ContFramePool.pool16.get_frames 3).2.frame_status x = ALLOCATED) ∧
        (∀ x, 512 ≤ x → x < 512 + 16 → ¬ (516 ≤ x ∧ x < 516 + 3) →
          (ContFramePool.pool16.get_frames 3).2.frame_status x
            = ContFramePool.pool16.frame_status x) ∧
        (ContFramePool.pool16.get_frames 3).2.n_free_frames + 3
          = ContFramePool.pool16.n_free_frames) :=
  ⟨by decide, by decide, by decide, by decide, by decide,
    ((ContFramePool.get_frames_effect ContFramePool.pool16 3 (by decide) (by decide)
      (by decide)).1 (by decide)).2.2⟩

namespace ContFramePool

theorem release_frames_skip (pre l : List ContFramePool) (f : Nat)
    (hpre : ∀ c ∈ pre, f < c.base_frame_no ∨ f > c.base_frame_no + c.n_frames) :
    release_frames (pre ++ l) f = (release_frames l f).map (fun r => pre ++ r) := by
  induction pre with
  | nil => simp
  | cons c pre ih =>
    have hc := hpre c (List.mem_cons_self _ _)
    have ih2 := ih (fun d hd => hpre d (List.mem_cons_of_mem _ hd))
    rw [List.cons_append]
    simp only [release_frames, if_pos hc]
    rw [ih2, Option.map_map]
    rfl

theorem release_frames_found (p : ContFramePool) (post : List ContFramePool) (f : Nat)
    (hf1 : p.base_frame_no ≤ f) (hf2 : f ≤ p.base_frame_no + p.n_frames) :
    release_frames (p :: post) f = (release_frames_in p f).map (fun c => c :: post) := by
  have : ¬ (f < p.base_frame_no ∨ f > p.base_frame_no + p.n_frames) := by omega
  simp only [release_frames, if_neg this]

theorem runAt_of_frames (p : ContFramePool) (f k : Nat)
    (hf1 : p.base_frame_no ≤ f) (hf2 : f + k < p.base_frame_no + p.n_frames)
    (hhead : p.frame_status f = HEAD_OF_SEQUENCE)
    (hrun : ∀ x, f < x → x ≤ f + k → p.frame_status x = ALLOCATED)
    (hend : f + k + 1 < p.base_frame_no + p.n_frames →
      p.frame_status (f + k + 1) ≠ ALLOCATED) :
    RunAt p.bitmap p.n_frames (f - p.base_frame_no) k := by
  refine ⟨by omega, hhead, ?_, ?_⟩
  · intro x hx1 hx2
    have := hrun (p.base_frame_no + x) (by omega) (by omega)
    simp only [frame_status, ALLOCATED] at this
    have e : p.base_frame_no + x - p.base_frame_no = x := by omega
    rw [e] at this; exact this
  · intro h
    have := hend (by omega)
    simp only [frame_status, ALLOCATED] at this
    have e : f + k + 1 - p.base_frame_no = f - p.base_frame_no + k + 1 := by omega
    rw [e] at this; exact this

end ContFramePool

/-- C4: `release_frames` on a valid head frees exactly its run.  Pool `p` is the pool that the
lookup of `release_frames(f)` stops at (the pools before it in the list are skipped); its
counter does not exceed its size.  If frame `f` of `p` is HEAD-OF-SEQUENCE and is followed by
exactly `k` ALLOCATED frames (the next frame, if the pool has one, is not ALLOCATED), then the
call returns normally, afterwards frames `f .. f+k` are FREE, every other frame of the pool has
its old status, `n_free_frames` has grown by exactly `k+1`, and no other pool has changed. -/
theorem ContFramePool.release_frames_frees_run (pre post : List ContFramePool)
    (p : ContFramePool) (f k : Nat) (hv : p.Valid) (hfree : p.n_free_frames ≤ p.n_frames)
    (hpre : ∀ c ∈ pre, f < c.base_frame_no ∨ f > c.base_frame_no + c.n_frames)
    (hf1 : p.base_frame_no ≤ f) (hf2 : f + k < p.base_frame_no + p.n_frames)
    (hhead : p.frame_status f = HEAD_OF_SEQUENCE)
    (hrun : ∀ x, f < x → x ≤ f + k → p.frame_status x = ALLOCATED)
    (hend : f + k + 1 < p.base_frame_no + p.n_frames →
      p.frame_status (f + k + 1) ≠ ALLOCATED) :
    ∃ q, ContFramePool.release_frames (pre ++ p :: post) f = some (pre ++ q :: post) ∧
      q.base_frame_no = p.base_frame_no ∧ q.n_frames = p.n_frames ∧
      (∀ x, f ≤ x → x ≤ f + k → q.frame_status x = FREE) ∧
      (∀ x, p.base_frame_no ≤ x → x < p.base_frame_no + p.n_frames →
        ¬ (f ≤ x ∧ x ≤ f + k) → q.frame_status x = p.frame_status x) ∧
      q.n_free_frames = p.n_free_frames + (k + 1) := by
  have hR := ContFramePool.runAt_of_frames p f k hf1 hf2 hhead hrun hend
  obtain ⟨q, hq, hb, hn, _, _, _, _, hfr, hlt, hst⟩ :=
    ContFramePool.release_frames_in_run p f k hv hf1 hR
  refine ⟨q, ?_, hb, hn, ?_, ?_, ?_⟩
  · rw [ContFramePool.release_frames_skip pre _ f hpre,
      ContFramePool.release_frames_found p post f hf1 (by omega), hq]
    rfl
  · intro x hx1 hx2
    simp only [ContFramePool.frame_status, hb, FREE]
    rw [hst]
    have : f - p.base_frame_no ≤ x - p.base_frame_no ∧
        x - p.base_frame_no ≤ f - p.base_frame_no + k := by omega
    rw [if_pos this]
  · intro x hx1 hx2 hx3
    simp only [ContFramePool.frame_status, hb]
    rw [hst]
    have : ¬ (f - p.base_frame_no ≤ x - p.base_frame_no ∧
        x - p.base_frame_no ≤ f - p.base_frame_no + k) := by omega
    rw [if_neg this]
  · have hF : FRAME_SIZE * 8 = 32768 := by decide
    have hN := hv.2.1
    omega

/-- Witness for C4: releasing the run 516..518 of `pool16_run` (a head followed by two
ALLOCATED frames), with no other pool in the list. -/
theorem ContFramePool.release_frames_frees_run_witness :
    ContFramePool.pool16_run.Valid ∧
      ContFramePool.pool16_run.n_free_frames ≤ ContFramePool.pool16_run.n_frames ∧
      ContFramePool.pool16_run.frame_status 516 = HEAD_OF_SEQUENCE ∧
      ∃ q, ContFramePool.release_frames ([] ++ ContFramePool.pool16_run :: []) 516
          = some ([] ++ q :: []) ∧
        q.base_frame_no = ContFramePool.pool16_run.base_frame_no ∧
        q.n_frames = ContFramePool.pool16_run.n_frames ∧
        (∀ x, 516 ≤ x → x ≤ 516 + 2 → q.frame_status x = FREE) ∧
        (∀ x, ContFramePool.pool16_run.base_frame_no ≤ x →
          x < ContFramePool.pool16_run.base_frame_no + ContFramePool.pool16_run.n_frames →
          ¬ (516 ≤ x ∧ x ≤ 516 + 2) →
          q.frame_status x = ContFramePool.pool16_run.frame_status x) ∧
        q.n_free_frames = ContFramePool.pool16_run.n_free_frames + (2 + 1) :=
  ⟨by decide, by decide, by decide,
    ContFramePool.release_frames_frees_run [] [] ContFramePool.pool16_run 516 2 (by decide)
      (by decide) (by simp) (by decide) (by decide) (by decide)
      (by
        intro x h1 h2
        have : x = 517 ∨ x = 518 := by omega
        rcases this with h | h <;> subst h <;> decide)
      (by intro _; decide)⟩

/-! ## Conservation -/

namespace ContFramePool

theorem cnt_interval_lt (g g2 : Nat → Nat) (a m : Nat) :
    ∀ N, (∀ x, x < N → ¬ (a ≤ x ∧ x < a + m) → g2 x = g x) →
      (∀ x, x < N → a ≤ x → x < a + m → g x = FREE ∧ g2 x ≠ FREE) →
      cnt g2 N + (min (a + m) N - min a N) = cnt g N := by
  intro N
  induction N with
  | zero => intro _ _; simp [cnt]
  | succ N ih =>
    intro hout hin
    have ih2 := ih (fun x hx => hout x (by omega)) (fun x hx => hin x (by omega))
    rw [cnt_succ, cnt_succ]
    by_cases hx : a ≤ N ∧ N < a + m
    · obtain ⟨h1, h2⟩ := hin N (by omega) hx.1 hx.2
      simp only [h1, h2, if_true, if_false]
      omega
    · rw [hout N (by omega) hx]
      have : min (a + m) (N + 1) - min a (N + 1) = min (a + m) N - min a N := by omega
      omega

theorem cnt_all_free (N : Nat) : cnt (fun _ => FREE) N = N := by
  induction N with
  | zero => simp [cnt]
  | succ N ih => rw [cnt_succ, ih]; simp

theorem construct_conserved (B n info ninfo : Nat) (p : ContFramePool)
    (h : construct B n info ninfo = some p) :
    Valid p ∧ p.n_free_frames = p.count_free := by
  obtain ⟨_, hn, hv, hfree, hst⟩ := construct_spec B n info ninfo p h
  refine ⟨hv, ?_⟩
  rw [count_free_eq, hn, hfree]
  have hM : init_marked B n info ninfo ≤ n := by
    unfold init_marked; omega
  have key := cnt_interval_lt (fun _ => FREE) (status p.bitmap) 0 (init_marked B n info ninfo) n
    (fun x hx hnot => by
      rw [hst x hx]
      have : ¬ x < init_marked B n info ninfo := by omega
      rw [if_neg this]; rfl)
    (fun x hx h1 h2 => by
      refine ⟨rfl, ?_⟩
      rw [hst x hx]
      have : x < init_marked B n info ninfo := by omega
      rw [if_pos this]; decide)
  rw [cnt_all_free] at key
  omega

theorem get_frames_conserved (p : ContFramePool) (n : Nat) (hv : Valid p)
    (hc : p.n_free_frames = p.count_free) (hn : 1 ≤ n) :
    (get_frames p n).2.n_free_frames = (get_frames p n).2.count_free := by
  cases h : get_frames_succeeds p n with
  | false => rw [get_frames_fail p n h]; exact hc
  | true =>
    obtain ⟨F, hFN, hrun, _, _, _, hN, _, _, hfree, _, _, hst⟩ := get_frames_ok p n hv hn h
    have hcnt := cnt_ge_of_run (status p.bitmap) F n p.n_frames hFN hrun
    have hle := cnt_le (status p.bitmap) p.n_frames
    have hF : FRAME_SIZE * 8 = 32768 := by decide
    have hN2 := hv.2.1
    rw [count_free_eq] at hc
    rw [count_free_eq, hfree, hN, sub32_of_le _ _ (by omega) (by omega)]
    have key := cnt_interval_lt (status p.bitmap) (status (get_frames p n).2.bitmap) F n
      p.n_frames
      (fun x _ hnot => by
        rw [hst x]
        have h1 : ¬ x = F := by omega
        have h2 : ¬ (F < x ∧ x < F + n) := by omega
        rw [if_neg h1, if_neg h2])
      (fun x _ h1 h2 => by
        refine ⟨hrun x h1 h2, ?_⟩
        rw [hst x]
        by_cases hx : x = F
        · rw [if_pos hx]; decide
        · have : F < x ∧ x < F + n := by omega
          rw [if_neg hx, if_pos this]; decide)
    omega

/-- The two ways in which the body of `release_frames` returns: the frame is one past the end
of the pool and nothing happens, or it is the head of a run, which is freed. -/
theorem release_frames_in_cases (p q : ContFramePool) (f : Nat) (hv : Valid p)
    (hf1 : p.base_frame_no ≤ f) (hf2 : f ≤ p.base_frame_no + p.n_frames)
    (h : release_frames_in p f = some q) :
    (f = p.base_frame_no + p.n_frames ∧ q = p) ∨
      (f < p.base_frame_no + p.n_frames ∧ ∃ k, RunAt p.bitmap p.n_frames (f - p.base_frame_no) k ∧
        q.base_frame_no = p.base_frame_no ∧ q.n_frames = p.n_frames ∧
        q.info_frame_no = p.info_frame_no ∧ q.n_info_frames = p.n_info_frames ∧
        q.bitmap.length = p.bitmap.length ∧ (∀ b ∈ q.bitmap, b < 256) ∧
        q.n_free_frames % 4294967296 = (p.n_free_frames + (k + 1)) % 4294967296 ∧
        q.n_free_frames < 4294967296 ∧
        ∀ x, status q.bitmap x
          = if f - p.base_frame_no ≤ x ∧ x ≤ f - p.base_frame_no + k then 3
            else status p.bitmap x) := by
  by_cases hend : f = p.base_frame_no + p.n_frames
  · left
    refine ⟨hend, ?_⟩
    have h8 := hv.1
    have hb : byte_indices p.n_frames ((f - p.base_frame_no) / 4) = [] := by
      simp only [byte_indices]
      have : (p.n_frames * 2 + 7) / 8 - (f - p.base_frame_no) / 4 = 0 := by omega
      rw [this]; rfl
    simp only [release_frames_in, hb, release_frames_bytes, Option.some.injEq] at h
    rw [← h]
  · right
    refine ⟨by omega, ?_⟩
    by_cases hhead : status p.bitmap (f - p.base_frame_no) = 2
    · obtain ⟨k, hk⟩ := runAt_exists p.bitmap p.n_frames (f - p.base_frame_no) (by omega) hhead
      obtain ⟨q2, hq2, rest⟩ := release_frames_in_run p f k hv hf1 hk
      rw [hq2] at h
      simp only [Option.some.injEq] at h
      subst h
      exact ⟨k, hk, rest⟩
    · rw [release_frames_in_not_head p f hv hf1 (by omega) hhead] at h
      exact absurd h (by simp)

theorem release_frames_single (p q : ContFramePool) (f : Nat)
    (h : release_frames [p] f = some [q]) :
    p.base_frame_no ≤ f ∧ f ≤ p.base_frame_no + p.n_frames ∧ release_frames_in p f = some q := by
  by_cases hskip : f < p.base_frame_no ∨ f > p.base_frame_no + p.n_frames
  · simp only [release_frames, if_pos hskip, Option.map_none'] at h
    exact absurd h (by simp)
  · simp only [release_frames, if_neg hskip] at h
    refine ⟨by omega, by omega, ?_⟩
    cases hr : release_frames_in p f with
    | none => rw [hr] at h; exact absurd h (by simp)
    | some c =>
      rw [hr] at h
      simp only [Option.map_some', Option.some.injEq, List.cons.injEq, and_true] at h
      rw [h]

theorem release_frames_conserved (p q : ContFramePool) (f : Nat) (hv : Valid p)
    (hc : p.n_free_frames = p.count_free) (h : release_frames [p] f = some [q]) :
    Valid q ∧ q.n_free_frames = q.count_free := by
  obtain ⟨hf1, hf2, hin⟩ := release_frames_single p q f h
  rcases release_frames_in_cases p q f hv hf1 hf2 hin with ⟨_, hq⟩ | ⟨hlt, k, hk, _, hN, _, _, hlen, hbytes, hfree, hfl, hst⟩
  · rw [hq]; exact ⟨hv, hc⟩
  · obtain ⟨h8, hF, hl, _⟩ := hv
    refine ⟨⟨by rw [hN]; exact h8, by rw [hN]; exact hF, by rw [hN, hlen]; exact hl, hbytes⟩, ?_⟩
    obtain ⟨hk1, hk2, hk3, _⟩ := hk
    have key := cnt_interval_lt (status q.bitmap) (status p.bitmap) (f - p.base_frame_no) (k + 1)
      p.n_frames
      (fun x _ hnot => by
        rw [hst x]
        have : ¬ (f - p.base_frame_no ≤ x ∧ x ≤ f - p.base_frame_no + k) := by omega
        rw [if_neg this])
      (fun x _ h1 h2 => by
        constructor
        · rw [hst x]
          have : f - p.base_frame_no ≤ x ∧ x ≤ f - p.base_frame_no + k := by omega
          rw [if_pos this]; rfl
        · by_cases hx : x = f - p.base_frame_no
          · rw [hx, hk2]; decide
          · rw [hk3 x (by omega) (by omega)]; decide)
    have hle := cnt_le (status q.bitmap) p.n_frames
    have hF2 : FRAME_SIZE * 8 = 32768 := by decide
    rw [count_free_eq] at hc
    rw [count_free_eq, hN]
    omega

theorem reachable_conserved (p : ContFramePool) (h : Reachable p) :
    Valid p ∧ p.n_free_frames = p.count_free := by
  induction h with
  | construct B n info ninfo p h => exact construct_conserved B n info ninfo p h
  | get_frames p n _ hn ih =>
    exact ⟨get_frames_valid p n ih.1 hn, get_frames_conserved p n ih.1 ih.2 hn⟩
  | release_frames p f q _ h ih => exact release_frames_conserved p q f ih.1 ih.2 h

end ContFramePool

/-- C6: conservation.  After a constructor call and any sequence of `get_frames` (requests of at
least one frame) and `release_frames` calls on the pool, `n_free_frames` equals the number of
frames whose status is FREE. -/
theorem ContFramePool.conservation (p : ContFramePool) (h : p.Reachable) :
    p.n_free_frames = p.count_free :=
  (ContFramePool.reachable_conserved p h).2

namespace ContFramePool

theorem pool16_reachable : Reachable pool16 := by
  have h0 : Reachable
      { base_frame_no := 512, n_frames := 16, n_free_frames := 15, info_frame_no := 512,
        n_info_frames := 1, bitmap := [0x3F, 0xFF, 0xFF, 0xFF] } :=
    Reachable.construct 512 16 0 0 _ (by decide)
  have h1 := Reachable.get_frames _ 2 h0 (by decide)
  have h2 := Reachable.get_frames _ 1 h1 (by decide)
  exact Reachable.release_frames _ 513 _ h2 (by decide)

end ContFramePool

/-- Witness for C6: `pool16` is reached by construction, two allocations and a release. -/
theorem ContFramePool.conservation_witness :
    ContFramePool.pool16.Reachable ∧
      ContFramePool.pool16.n_free_frames = ContFramePool.pool16.count_free :=
  ⟨ContFramePool.pool16_reachable,
    ContFramePool.conservation ContFramePool.pool16 ContFramePool.pool16_reachable⟩

/-! ## Round trip -/

namespace ContFramePool

theorem bitmap_ext (bm1 bm2 : List Nat) (hlen : bm1.length = bm2.length)
    (h1 : ∀ b ∈ bm1, b < 256) (h2 : ∀ b ∈ bm2, b < 256)
    (hst : ∀ x, status bm1 x = status bm2 x) : bm1 = bm2 := by
  apply List.ext_getElem hlen
  intro i hi1 hi2
  have e1 : bm1.getD i 0 = bm1[i] := by
    simp [List.getD_eq_getElem?_getD, hi1]
  have e2 : bm2.getD i 0 = bm2[i] := by
    simp [List.getD_eq_getElem?_getD, hi2]
  have b1 := byte_eq_stats _ (h1 _ (List.getElem_mem hi1))
  have b2 := byte_eq_stats _ (h2 _ (List.getElem_mem hi2))
  have s0 := hst (4 * i + 0)
  have s1 := hst (4 * i + 1)
  have s2 := hst (4 * i + 2)
  have s3 := hst (4 * i + 3)
  rw [status_at _ _ _ (by decide), status_at _ _ _ (by decide), e1, e2] at s0 s1 s2 s3
  rw [b1, b2, s0, s1, s2, s3]

theorem construct_closed (B n info ninfo : Nat) (p : ContFramePool)
    (h : construct B n info ninfo = some p) : Closed p.bitmap p.n_frames := by
  obtain ⟨_, hn, _, _, hst⟩ := construct_spec B n info ninfo p h
  intro x hx0 hxN hx
  rw [hn] at hxN
  left
  rw [hst x hxN] at hx
  rw [hst (x - 1) (by omega)]
  by_cases hM : x < init_marked B n info ninfo
  · have : x - 1 < init_marked B n info ninfo := by omega
    rw [if_pos this]
  · rw [if_neg hM] at hx
    exact absurd hx (by decide)

theorem get_frames_closed (p : ContFramePool) (n : Nat) (hv : Valid p) (hn : 1 ≤ n)
    (hcl : Closed p.bitmap p.n_frames) :
    Closed (get_frames p n).2.bitmap (get_frames p n).2.n_frames := by
  cases h : get_frames_succeeds p n with
  | false => rw [get_frames_fail p n h]; exact hcl
  | true =>
    obtain ⟨F, hFN, hrun, _, _, _, hN, _, _, _, _, _, hst⟩ := get_frames_ok p n hv hn h
    intro x hx0 hxN hx
    rw [hN] at hxN
    rw [hst x] at hx
    rw [hst (x - 1)]
    by_cases hxF : x = F
    · rw [if_pos hxF] at hx
      exact absurd hx (by decide)
    · rw [if_neg hxF] at hx
      by_cases hin : F < x ∧ x < F + n
      · by_cases hp : x - 1 = F
        · right; rw [if_pos hp]
        · left
          have : F < x - 1 ∧ x - 1 < F + n := by omega
          rw [if_neg hp, if_pos this]
      · rw [if_neg hin] at hx
        have hprev := hcl x hx0 hxN hx
        have h1 : ¬ (x - 1 = F) := by
          intro e
          have := hrun (x - 1) (by omega) (by omega)
          rw [this] at hprev
          rcases hprev with h | h <;> exact absurd h (by decide)
        have h2 : ¬ (F < x - 1 ∧ x - 1 < F + n) := by
          intro e
          have := hrun (x - 1) (by omega) (by omega)
          rw [this] at hprev
          rcases hprev with h | h <;> exact absurd h (by decide)
        rw [if_neg h1, if_neg h2]
        exact hprev

theorem release_frames_closed (p q : ContFramePool) (f : Nat) (hv : Valid p)
    (hcl : Closed p.bitmap p.n_frames) (h : release_frames [p] f = some [q]) :
    Closed q.bitmap q.n_frames := by
  obtain ⟨hf1, hf2, hin⟩ := release_frames_single p q f h
  rcases release_frames_in_cases p q f hv hf1 hf2 hin with ⟨_, hq⟩ | ⟨hlt, k, hk, _, hN, _, _, _, _, _, _, hst⟩
  · rw [hq]; exact hcl
  · obtain ⟨hk1, hk2, hk3, hk4⟩ := hk
    intro x hx0 hxN hx
    rw [hN] at hxN
    rw [hst x] at hx
    rw [hst (x - 1)]
    by_cases hx1 : f - p.base_frame_no ≤ x ∧ x ≤ f - p.base_frame_no + k
    · rw [if_pos hx1] at hx
      exact absurd hx (by decide)
    · rw [if_neg hx1] at hx
      have hprev := hcl x hx0 hxN hx
      have h1 : ¬ (f - p.base_frame_no ≤ x - 1 ∧ x - 1 ≤ f - p.base_frame_no + k) := by
        intro e
        have hxe : x = f - p.base_frame_no + k + 1 := by omega
        have := hk4 (by omega)
        rw [← hxe] at this
        exact this hx
      rw [if_neg h1]
      exact hprev

theorem reachable_closed (p : ContFramePool) (h : Reachable p) : Closed p.bitmap p.n_frames := by
  induction h with
  | construct B n info ninfo p h => exact construct_closed B n info ninfo p h
  | get_frames p n hr hn ih =>
    exact get_frames_closed p n (reachable_conserved p hr).1 hn ih
  | release_frames p f q hr h ih =>
    exact release_frames_closed p q f (reachable_conserved p hr).1 ih h

end ContFramePool

/-- Releasing the run that a successful `get_frames` has just made gives the pool back, when
the pool is well shaped, its counter is exact and its ALLOCATED frames are attached to runs. -/
theorem ContFramePool.release_after_get_frames (p : ContFramePool) (n : Nat)
    (hv : p.Valid) (hc : p.n_free_frames = p.count_free)
    (hcl : ContFramePool.Closed p.bitmap p.n_frames) (hn : 1 ≤ n)
    (hs : p.get_frames_succeeds n = true) :
    ContFramePool.release_frames [(p.get_frames n).2] (p.get_frames n).1 = some [p] := by
  have hv2 := ContFramePool.get_frames_valid p n hv hn
  obtain ⟨F, hFN, hrun, _, hret, hb, hN, hi1, hi2, hfree, hlen, hbytes, hst⟩ :=
    ContFramePool.get_frames_ok p n hv hn hs
  have hcnt := ContFramePool.cnt_ge_of_run (status p.bitmap) F n p.n_frames hFN hrun
  have hle := ContFramePool.cnt_le (status p.bitmap) p.n_frames
  rw [ContFramePool.count_free_eq] at hc
  have hF : FRAME_SIZE * 8 = 32768 := by decide
  have hN2 := hv.2.1
  have hidx : (p.get_frames n).1 - (p.get_frames n).2.base_frame_no = F := by
    rw [hret, hb]; omega
  have hR : ContFramePool.RunAt (p.get_frames n).2.bitmap (p.get_frames n).2.n_frames
      ((p.get_frames n).1 - (p.get_frames n).2.base_frame_no) (n - 1) := by
    rw [hidx, hN]
    refine ⟨by omega, ?_, ?_, ?_⟩
    · rw [hst, if_pos rfl]
    · intro x hx1 hx2
      have h1 : ¬ x = F := by omega
      have h2 : F < x ∧ x < F + n := by omega
      rw [hst, if_neg h1, if_pos h2]
    · intro hx
      have h1 : ¬ (F + (n - 1) + 1 = F) := by omega
      have h2 : ¬ (F < F + (n - 1) + 1 ∧ F + (n - 1) + 1 < F + n) := by omega
      rw [hst, if_neg h1, if_neg h2]
      intro h0
      have hprev := hcl (F + (n - 1) + 1) (by omega) (by omega) h0
      have hlast := hrun (F + (n - 1) + 1 - 1) (by omega) (by omega)
      rw [hlast] at hprev
      rcases hprev with h | h <;> exact absurd h (by decide)
  obtain ⟨q, hq, qb, qN, qi1, qi2, qlen, qbytes, qfree, qlt, qst⟩ :=
    ContFramePool.release_frames_in_run (p.get_frames n).2 (p.get_frames n).1 (n - 1) hv2
      (by rw [hret, hb]; omega) hR
  rw [ContFramePool.release_frames_found _ [] _ (by rw [hret, hb]; omega)
    (by rw [hret, hb, hN]; omega), hq]
  simp only [Option.map_some', Option.some.injEq, List.cons.injEq, and_true]
  have hbm : q.bitmap = p.bitmap := by
    apply ContFramePool.bitmap_ext _ _ (by rw [qlen, hlen]) qbytes hv.2.2.2
    intro x
    rw [qst x, hidx, hst x]
    by_cases hin : F ≤ x ∧ x ≤ F + (n - 1)
    · rw [if_pos hin, hrun x hin.1 (by omega)]
    · have h1 : ¬ x = F := by omega
      have h2 : ¬ (F < x ∧ x < F + n) := by omega
      rw [if_neg hin, if_neg h1, if_neg h2]
  have hfr : q.n_free_frames = p.n_free_frames := by
    rw [hfree, ContFramePool.sub32_of_le _ _ (by omega) (by omega)] at qfree
    omega
  cases q
  cases p
  simp only at hbm hfr qb qN qi1 qi2 hb hN hi1 hi2
  simp only [ContFramePool.mk.injEq]
  exact ⟨by rw [qb, hb], by rw [qN, hN], hfr, by rw [qi1, hi1], by rw [qi2, hi2], hbm⟩

/-- C3: allocate/release round trip on a single registered pool.  For a pool state reached
from construction by `get_frames` and `release_frames`, and a request `n ≥ 1` for which
`get_frames(n)` succeeds with result `f`, the call `release_frames(f)` right afterwards returns
and leaves the pool as it was before the `get_frames` call (bitmap, `n_free_frames` and the
other fields). -/
theorem ContFramePool.get_release_round_trip (p : ContFramePool) (n : Nat)
    (hr : p.Reachable) (hn : 1 ≤ n) (hs : p.get_frames_succeeds n = true) :
    ContFramePool.release_frames [(p.get_frames n).2] (p.get_frames n).1 = some [p] := by
  exact ContFramePool.release_after_get_frames p n (ContFramePool.reachable_conserved p hr).1
    (ContFramePool.reachable_conserved p hr).2 (ContFramePool.reachable_closed p hr) hn hs

/-- Witness for C3: `get_frames(3)` on `pool16` followed by `release_frames(516)`. -/
theorem ContFramePool.get_release_round_trip_witness :
    ContFramePool.pool16.Reachable ∧ 1 ≤ 3 ∧
      ContFramePool.pool16.get_frames_succeeds 3 = true ∧
      ContFramePool.release_frames [(ContFramePool.pool16.get_frames 3).2]
        (ContFramePool.pool16.get_frames 3).1 = some [ContFramePool.pool16] :=
  ⟨ContFramePool.pool16_reachable, by decide, by decide,
    ContFramePool.get_release_round_trip ContFramePool.pool16 3
      ContFramePool.pool16_reachable (by decide) (by decide)⟩

/-! ## Disjointness -/

namespace ContFramePool

theorem get_frames_seq_free (ns : List Nat) :
    ∀ p : ContFramePool, Valid p → (∀ n ∈ ns, 1 ≤ n) →
      (∀ r ∈ get_frames_seq p ns, 1 ≤ r.2 ∧ FreeRun p r.1 r.2) ∧
        (get_frames_seq p ns).Pairwise (fun a b => a.1 + a.2 ≤ b.1 ∨ b.1 + b.2 ≤ a.1) := by
  induction ns with
  | nil =>
    intro p _ _
    simp [get_frames_seq]
  | cons n ns ih =>
    intro p hv hns
    have hn : 1 ≤ n := hns n (List.mem_cons_self _ _)
    have hns2 : ∀ m ∈ ns, 1 ≤ m := fun m hm => hns m (List.mem_cons_of_mem _ hm)
    obtain ⟨ih1, ih2⟩ := ih (get_frames p n).2 (get_frames_valid p n hv hn) hns2
    cases h : get_frames_succeeds p n with
    | false =>
      have hq := get_frames_fail p n h
      simp only [get_frames_seq, h, Bool.false_eq_true, if_false]
      rw [hq] at ih1 ih2 ⊢
      exact ⟨ih1, ih2⟩
    | true =>
      obtain ⟨F, hFN, hrun, _, hret, hb, hN, _, _, _, _, _, hst⟩ := get_frames_ok p n hv hn h
      simp only [get_frames_seq, h, if_true]
      have hback : ∀ r ∈ get_frames_seq (get_frames p n).2 ns,
          FreeRun p r.1 r.2 ∧ ((get_frames p n).1 + n ≤ r.1 ∨ r.1 + r.2 ≤ (get_frames p n).1) := by
        intro r hr
        obtain ⟨hr1, hr2, hr3, hr4⟩ := ih1 r hr
        rw [hb] at hr2 hr3
        rw [hN] at hr3
        have hout : ∀ x, r.1 ≤ x → x < r.1 + r.2 →
            ¬ (F ≤ x - p.base_frame_no ∧ x - p.base_frame_no < F + n) := by
          intro x hx1 hx2 hin
          have := hr4 x hx1 hx2
          simp only [frame_status, hb, FREE] at this
          rw [hst] at this
          by_cases hxF : x - p.base_frame_no = F
          · rw [if_pos hxF] at this; exact absurd this (by decide)
          · have h2 : F < x - p.base_frame_no ∧ x - p.base_frame_no < F + n := by omega
            rw [if_neg hxF, if_pos h2] at this; exact absurd this (by decide)
        refine ⟨⟨hr2, hr3, ?_⟩, ?_⟩
        · intro x hx1 hx2
          have := hr4 x hx1 hx2
          simp only [frame_status, hb] at this ⊢
          rw [hst] at this
          have hno := hout x hx1 hx2
          have h1 : ¬ (x - p.base_frame_no = F) := by omega
          have h2 : ¬ (F < x - p.base_frame_no ∧ x - p.base_frame_no < F + n) := by omega
          rw [if_neg h1, if_neg h2] at this
          exact this
        · rw [hret]
          by_cases hlt : r.1 < p.base_frame_no + F
          · right
            by_contra hc
            exact hout (p.base_frame_no + F) (by omega) (by omega) (by omega)
          · left
            have := hout r.1 (by omega) (by omega)
            omega
      constructor
      · intro r hr
        rcases List.mem_cons.mp hr with e | hr
        · rw [e]
          refine ⟨hn, ?_⟩
          rw [hret]
          refine ⟨by omega, by omega, ?_⟩
          intro x hx1 hx2
          simp only [frame_status, FREE]
          exact hrun _ (by omega) (by omega)
        · exact ⟨(ih1 r hr).1, (hback r hr).1⟩
      · rw [List.pairwise_cons]
        exact ⟨fun r hr => (hback r hr).2, ih2⟩

end ContFramePool

/-- C7: disjointness.  For a sequence of `get_frames` calls on one pool, with requests of at
least one frame and no release in between, the frame ranges `[f, f + n)` returned by the calls
that succeed all lie inside the pool's range and are pairwise disjoint. -/
theorem ContFramePool.get_frames_disjoint (p : ContFramePool) (ns : List Nat) (hv : p.Valid)
    (hns : ∀ n ∈ ns, 1 ≤ n) :
    (∀ r ∈ p.get_frames_seq ns,
        p.base_frame_no ≤ r.1 ∧ r.1 + r.2 ≤ p.base_frame_no + p.n_frames) ∧
      (p.get_frames_seq ns).Pairwise (fun a b => a.1 + a.2 ≤ b.1 ∨ b.1 + b.2 ≤ a.1) := by
  obtain ⟨h1, h2⟩ := ContFramePool.get_frames_seq_free ns p hv hns
  exact ⟨fun r hr => ⟨(h1 r hr).2.1, (h1 r hr).2.2.1⟩, h2⟩

/-- Witness for C7: the requests 3, 1, 100, 2 on `pool16`; the third one fails. -/
theorem ContFramePool.get_frames_disjoint_witness :
    ContFramePool.pool16.Valid ∧ (∀ n ∈ [3, 1, 100, 2], 1 ≤ n) ∧
      ContFramePool.pool16.get_frames_seq [3, 1, 100, 2] = [(516, 3), (513, 1), (519, 2)] ∧
      ((∀ r ∈ ContFramePool.pool16.get_frames_seq [3, 1, 100, 2],
          ContFramePool.pool16.base_frame_no ≤ r.1 ∧
            r.1 + r.2 ≤ ContFramePool.pool16.base_frame_no + ContFramePool.pool16.n_frames) ∧
        (ContFramePool.pool16.get_frames_seq [3, 1, 100, 2]).Pairwise
          (fun a b => a.1 + a.2 ≤ b.1 ∨ b.1 + b.2 ≤ a.1)) :=
  ⟨by decide, by decide, by decide,
    ContFramePool.get_frames_disjoint ContFramePool.pool16 [3, 1, 100, 2] (by decide)
      (by decide)⟩

/-! ## The lookup of release_frames, mark_inaccessible and the constructor -/

namespace ContFramePool

theorem pool16_new_constructed : construct 512 16 0 0 = some pool16_new := by decide

theorem pool8_new_constructed : construct 8 8 0 0 = some pool8_new := by decide

/-- The lookup of `release_frames` accepts the frame number one past the end of a pool, and the
loop over the bitmap then has nothing to do: the call returns and the pool is unchanged. -/
theorem release_frames_past_end (p : ContFramePool) (post : List ContFramePool) (hv : Valid p) :
    release_frames (p :: post) (p.base_frame_no + p.n_frames) = some (p :: post) := by
  rw [release_frames_found p post _ (by omega) (by omega)]
  have h8 := hv.1
  have hb : byte_indices p.n_frames ((p.base_frame_no + p.n_frames - p.base_frame_no) / 4)
      = [] := by
    simp only [byte_indices]
    have : (p.n_frames * 2 + 7) / 8 - (p.base_frame_no + p.n_frames - p.base_frame_no) / 4
        = 0 := by omega
    rw [this]; rfl
  simp only [release_frames_in, hb, release_frames_bytes, Option.map_some']

end ContFramePool

/-- C5 (code defect): with the single pool of frames 8..15, `release_frames(16)` returns
normally and changes nothing, although frame 16 lies in no pool's range (and so is not a
HEAD-OF-SEQUENCE frame of a pool that contains it). -/
theorem ContFramePool.release_frames_non_head_returns :
    ContFramePool.construct 8 8 0 0 = some ContFramePool.pool8_new ∧
      ¬ (ContFramePool.pool8_new.base_frame_no ≤ 16 ∧
        16 < ContFramePool.pool8_new.base_frame_no + ContFramePool.pool8_new.n_frames) ∧
      ContFramePool.release_frames [ContFramePool.pool8_new] 16
        = some [ContFramePool.pool8_new] := by
  refine ⟨by decide, by decide, by decide⟩

/-- C8 (code defect): on the freshly constructed pool of frames 512..527,
`mark_inaccessible(516, 1)` leaves frame 516 FREE and marks frame 519 INACCESSIBLE instead
(the shifts use the byte index `i`, not `cur_bit`); the counter is decremented. -/
theorem ContFramePool.mark_inaccessible_wrong_frame :
    ContFramePool.construct 512 16 0 0 = some ContFramePool.pool16_new ∧
      ContFramePool.pool16_new.frame_status 516 = FREE ∧
      ContFramePool.pool16_new.frame_status 519 = FREE ∧
      (ContFramePool.pool16_new.mark_inaccessible 516 1).map (fun q => q.frame_status 516)
        = some FREE ∧
      (ContFramePool.pool16_new.mark_inaccessible 516 1).map (fun q => q.frame_status 519)
        = some INACCESSIBLE ∧
      (ContFramePool.pool16_new.mark_inaccessible 516 1).map (fun q => q.n_free_frames)
        = some 14 := by
  refine ⟨by decide, by decide, by decide, by decide, by decide, by decide⟩

/-- C9 (counterexample): after `ContFramePool(512, 16, 0, 0)` the frame that holds the bitmap,
frame 512, is ALLOCATED, not HEAD-OF-SEQUENCE. -/
theorem ContFramePool.construct_info_frame_not_head :
    (ContFramePool.construct 512 16 0 0).map (fun p => p.frame_status 512) = some ALLOCATED ∧
      ALLOCATED ≠ HEAD_OF_SEQUENCE := by
  refine ⟨by decide, by decide⟩

namespace ContFramePool

theorem filter_lt_length (B M : Nat) (P : Nat → Prop) [DecidablePred P]
    (hP : ∀ k, P k ↔ B + k < M) :
    ∀ N, ((List.range N).filter (fun k => P k)).length = min N (M - B) := by
  intro N
  induction N with
  | zero => simp
  | succ N ih =>
    rw [List.range_succ, List.filter_append, List.length_append, ih]
    by_cases h : P N
    · have h2 := (hP N).mp h
      simp only [List.filter_cons, h, decide_True, if_true, List.filter_nil, List.length_cons,
        List.length_nil]
      omega
    · have h2 : ¬ B + N < M := fun e => h ((hP N).mpr e)
      simp only [List.filter_cons, h, decide_False, Bool.false_eq_true, if_false,
        List.filter_nil, List.length_nil]
      omega

end ContFramePool

/-- C9 (amended): post-state of the constructor when `info_frame_no` is 0 or does not exceed
`base_frame_no`.  The frames of the pool that hold its bitmap (the pool's first frame, exactly
one, when `info_frame_no` is 0; otherwise those of the frames
`info_frame_no .. info_frame_no + n_info_frames - 1` that lie in the pool's range) are all
marked ALLOCATED; every other frame of the pool is FREE; and `n_free_frames` equals `n_frames`
minus the number of those bitmap frames. -/
theorem ContFramePool.construct_post (B n info ninfo : Nat) (p : ContFramePool)
    (h : ContFramePool.construct B n info ninfo = some p) (hinfo : info = 0 ∨ info ≤ B) :
    p.base_frame_no = B ∧ p.n_frames = n ∧
      (info = 0 → p.info_frame_no = B ∧ p.n_info_frames = 1) ∧
      (info ≠ 0 → p.info_frame_no = info ∧ p.n_info_frames = ninfo) ∧
      (∀ x, B ≤ x → x < B + n →
        p.frame_status x =
          if p.info_frame_no ≤ x ∧ x < p.info_frame_no + p.n_info_frames then ALLOCATED
          else FREE) ∧
      p.n_free_frames = n - p.info_frames_in_pool := by
  obtain ⟨hb, hn, _, hfree, hst⟩ := ContFramePool.construct_spec B n info ninfo p h
  have hfields : p.info_frame_no = (if info = 0 then B else info) ∧
      p.n_info_frames = (if info = 0 then 1 else ninfo) := by
    unfold ContFramePool.construct at h
    split at h
    · exact absurd h (by simp)
    split at h
    · exact absurd h (by simp)
    simp only [Option.some.injEq] at h
    subst h
    exact ⟨rfl, rfl⟩
  obtain ⟨hi1, hi2⟩ := hfields
  have hle : p.info_frame_no ≤ B := by
    rw [hi1]; split <;> omega
  have hM : ContFramePool.init_marked B n info ninfo
      = min n (p.info_frame_no + p.n_info_frames - B) := by
    unfold ContFramePool.init_marked
    rw [← hi1, ← hi2]
    have : 1 ≤ p.info_frame_no + p.n_info_frames := by
      rw [hi1, hi2]; split <;> omega
    omega
  refine ⟨hb, hn, ?_, ?_, ?_, ?_⟩
  · intro h0; rw [hi1, hi2, if_pos h0, if_pos h0]; exact ⟨rfl, rfl⟩
  · intro h0; rw [hi1, hi2, if_neg h0, if_neg h0]; exact ⟨rfl, rfl⟩
  · intro x hx1 hx2
    simp only [ContFramePool.frame_status, hb, ALLOCATED, FREE]
    rw [hst _ (by omega), hM]
    by_cases hin : p.info_frame_no ≤ x ∧ x < p.info_frame_no + p.n_info_frames
    · have : x - B < min n (p.info_frame_no + p.n_info_frames - B) := by omega
      rw [if_pos hin, if_pos this]
    · have : ¬ x - B < min n (p.info_frame_no + p.n_info_frames - B) := by omega
      rw [if_neg hin, if_neg this]
  · rw [hfree, hM]
    unfold ContFramePool.info_frames_in_pool
    rw [ContFramePool.filter_lt_length p.base_frame_no (p.info_frame_no + p.n_info_frames)
      (fun k => p.info_frame_no ≤ p.base_frame_no + k ∧
        p.base_frame_no + k < p.info_frame_no + p.n_info_frames)
      (fun k => by rw [hb]; constructor <;> intro hh <;> omega) p.n_frames, hn, hb]

/-- Witness for C9 (amended): `ContFramePool(512, 16, 0, 0)`. -/
theorem ContFramePool.construct_post_witness :
    ContFramePool.construct 512 16 0 0 = some ContFramePool.pool16_new ∧
      ContFramePool.pool16_new.base_frame_no = 512 ∧ ContFramePool.pool16_new.n_frames = 16 ∧
      ((0 : Nat) = 0 → ContFramePool.pool16_new.info_frame_no = 512 ∧
        ContFramePool.pool16_new.n_info_frames = 1) ∧
      ((0 : Nat) ≠ 0 → ContFramePool.pool16_new.info_frame_no = 0 ∧
        ContFramePool.pool16_new.n_info_frames = 0) ∧
      (∀ x, 512 ≤ x → x < 512 + 16 →
        ContFramePool.pool16_new.frame_status x =
          if ContFramePool.pool16_new.info_frame_no ≤ x ∧
              x < ContFramePool.pool16_new.info_frame_no + ContFramePool.pool16_new.n_info_frames
          then ALLOCATED else FREE) ∧
      ContFramePool.pool16_new.n_free_frames = 16 - ContFramePool.pool16_new.info_frames_in_pool :=
  ⟨by decide,
    ContFramePool.construct_post 512 16 0 0 ContFramePool.pool16_new (by decide) (by decide)⟩

/-- C10 (code defect): the constructor accepts `n_frames = 16392`, a multiple of 8 whose
2-bit-per-frame bitmap takes 4098 bytes, more than one frame of 4096 bytes
(`needed_info_frames(16392) = 2`). -/
theorem ContFramePool.construct_accepts_large_bitmap :
    (ContFramePool.construct 512 16392 0 0).isSome = true ∧
      (ContFramePool.construct 512 16392 0 0).map (fun p => p.bitmap.length) = some 4098 ∧
      FRAME_SIZE < 4098 ∧ ContFramePool.needed_info_frames 16392 = 2 := by
  refine ⟨by decide, ?_, by decide, by decide⟩
  cases h : ContFramePool.construct 512 16392 0 0 with
  | none =>
    have : (ContFramePool.construct 512 16392 0 0).isSome = true := by decide
    rw [h] at this
    exact absurd this (by decide)
  | some p =>
    obtain ⟨_, hn, hv, _, _⟩ := ContFramePool.construct_spec 512 16392 0 0 p h
    have := hv.2.2.1
    simp only [Option.map_some', Option.some.injEq]
    omega

/-! ## needed_info_frames, scenario A and the pool lookup -/

/-- C11: `needed_info_frames(n)` is the ceiling of `2*n` bits over the `8*4096` bits of a frame,
that is of `n / 16384`: it is the least `k` with `n ≤ 16384 * k`; in particular it is 0 for
`n = 0`, 1 for `1 ≤ n ≤ 16384` and 2 for `n = 16385`. -/
theorem ContFramePool.needed_info_frames_ceil (n : Nat) :
    ContFramePool.needed_info_frames n = (2 * n + (8 * FRAME_SIZE - 1)) / (8 * FRAME_SIZE) ∧
      ContFramePool.needed_info_frames n = (n + 16383) / 16384 ∧
      n ≤ 16384 * ContFramePool.needed_info_frames n ∧
      (∀ k, n ≤ 16384 * k → ContFramePool.needed_info_frames n ≤ k) ∧
      (n = 0 → ContFramePool.needed_info_frames n = 0) ∧
      (1 ≤ n → n ≤ 16384 → ContFramePool.needed_info_frames n = 1) ∧
      ContFramePool.needed_info_frames 16385 = 2 := by
  have hF : FRAME_SIZE = 4096 := rfl
  have hK : 4 * 4 * (0x1 <<< 10) = 16384 := by decide
  have key : ContFramePool.needed_info_frames n = (n + 16383) / 16384 := by
    unfold ContFramePool.needed_info_frames
    rw [hK]
    split <;> omega
  refine ⟨?_, key, ?_, ?_, ?_, ?_, by decide⟩
  · rw [key, hF]; omega
  · rw [key]; omega
  · intro k hk; rw [key]; omega
  · intro h0; rw [key]; omega
  · intro h1 h2; rw [key]; omega

namespace ContFramePool

theorem construct_returns (B n info ninfo : Nat) (h1 : n ≤ FRAME_SIZE * 8) (h2 : n % 8 = 0) :
    ∃ p, construct B n info ninfo = some p := by
  unfold construct
  rw [if_neg (by simp only [not_not]; exact h1), if_neg (by simp only [not_not]; exact h2)]
  exact ⟨_, rfl⟩

/-- Scenario A on the code: a pool of 512 frames that keeps its bitmap in its own first frame.
`get_frames(10)` returns the frame after the base frame; releasing that frame gives the pool
back; releasing the base frame fails the assertion. -/
theorem scenario_a_aux (B ninfo : Nat) (p : ContFramePool)
    (h : construct B 512 0 ninfo = some p) :
    p.n_free_frames = 511 ∧ (p.get_frames 10).1 = B + 1 ∧
      (p.get_frames 10).2.n_free_frames = 501 ∧
      release_frames [(p.get_frames 10).2] (B + 1) = some [p] ∧
      release_frames [(p.get_frames 10).2] B = none := by
  obtain ⟨hb, hN, hv, hfree, hst⟩ := construct_spec B 512 0 ninfo p h
  obtain ⟨_, hc⟩ := construct_conserved B 512 0 ninfo p h
  have hcl := construct_closed B 512 0 ninfo p h
  have hM : init_marked B 512 0 ninfo = 1 := by
    unfold init_marked
    simp only [if_true]
    omega
  rw [hM] at hfree hst
  have hfree2 : p.n_free_frames = 511 := by omega
  have hs : p.get_frames_succeeds 10 = true := by
    unfold get_frames_succeeds
    rcases get_frames_search_spec p 10 hv (by omega) with ⟨F, hF⟩ | hI
    · simp only [hF.1, hfree2, decide_True, Bool.and_self]
      decide
    · exfalso
      obtain ⟨x, hx1, hx2, hx3⟩ := hI.2.2.2.2.2.2 1 (by omega)
      rw [hst x (by omega), if_neg (by omega)] at hx3
      exact hx3 rfl
  obtain ⟨F, hFN, hrun, hno, hret, hb2, hN2, _, _, hfr, _, _, hst2⟩ :=
    get_frames_ok p 10 hv (by omega) hs
  have hF1 : F = 1 := by
    have h0 : F ≠ 0 := by
      intro h0
      have := hrun 0 (by omega) (by omega)
      rw [hst 0 (by omega), if_pos (by omega)] at this
      exact absurd this (by decide)
    by_contra hne
    obtain ⟨x, hx1, hx2, hx3⟩ := hno 1 (by omega)
    rw [hst x (by omega), if_neg (by omega)] at hx3
    exact hx3 rfl
  have hrt := release_after_get_frames p 10 hv hc hcl (by omega) hs
  rw [hret, hb, hF1] at hrt
  refine ⟨hfree2, by rw [hret, hb, hF1], ?_, hrt, ?_⟩
  · rw [hfr, hfree2]; decide
  · have hv2 := get_frames_valid p 10 hv (by omega)
    rw [release_frames_found _ [] B (by rw [hb2, hb]) (by rw [hb2, hb]; omega),
      release_frames_in_not_head _ B hv2 (by rw [hb2, hb]) (by rw [hb2, hb, hN2, hN]; omega)
        (by
          rw [hb2, hb, hst2, Nat.sub_self, if_neg (by omega), if_neg (by omega),
            hst 0 (by omega), if_pos (by omega)]
          decide)]
    rfl

end ContFramePool

/-- C12 (counterexample): for the pool of frames 512..1023 with its bitmap in frame 512,
`get_frames(10)` returns 513, not the base frame number 512, and `release_frames(512)`
afterwards fails the assertion instead of returning. -/
theorem ContFramePool.scenario_a_not_base :
    (ContFramePool.construct 512 512 0 0).map (fun p => (p.get_frames 10).1) = some 513 ∧
      (ContFramePool.construct 512 512 0 0).bind
        (fun p => ContFramePool.release_frames [(p.get_frames 10).2] 512) = none := by
  obtain ⟨p, hp⟩ := ContFramePool.construct_returns 512 512 0 0 (by decide) (by decide)
  obtain ⟨_, h2, _, _, h5⟩ := ContFramePool.scenario_a_aux 512 0 p hp
  rw [hp]
  exact ⟨by rw [Option.map_some', h2], by rw [Option.some_bind, h5]⟩

/-- C12 (amended): scenario A.  A freshly constructed pool of 512 frames that keeps its bitmap
in its own first frame has `n_free_frames = 511`; `get_frames(10)` returns the frame after the
pool's base frame and leaves `n_free_frames = 501`; a subsequent `release_frames` on the
returned frame number returns normally and restores the pool, with `n_free_frames = 511`. -/
theorem ContFramePool.scenario_a (B ninfo : Nat) :
    ∃ p, ContFramePool.construct B 512 0 ninfo = some p ∧ p.n_free_frames = 511 ∧
      (p.get_frames 10).1 = B + 1 ∧ (p.get_frames 10).2.n_free_frames = 501 ∧
      ContFramePool.release_frames [(p.get_frames 10).2] (p.get_frames 10).1 = some [p] := by
  obtain ⟨p, hp⟩ := ContFramePool.construct_returns B 512 0 ninfo (by decide) (by decide)
  obtain ⟨h1, h2, h3, h4, _⟩ := ContFramePool.scenario_a_aux B ninfo p hp
  exact ⟨p, hp, h1, h2, h3, by rw [h2]; exact h4⟩

/-- C13 (code defect): two pools with adjacent ranges, frames 8..15 and frames 16..23, the
second one holding a run whose head is its base frame 16.  With the second pool first in the
list `release_frames(16)` frees the run; with the first pool first, the lookup stops at the
first pool (16 is not greater than 8 + 8) and the call returns with nothing freed. -/
theorem ContFramePool.release_frames_order_matters :
    ContFramePool.construct 8 8 0 0 = some ContFramePool.pool8_new ∧
      (ContFramePool.construct 16 8 4 1).map (fun p => p.get_frames 2)
        = some (16, ContFramePool.pool8_hi) ∧
      ContFramePool.pool8_hi.frame_status 16 = HEAD_OF_SEQUENCE ∧
      ContFramePool.release_frames [ContFramePool.pool8_hi, ContFramePool.pool8_new] 16
        = some [ContFramePool.pool8_hi_released, ContFramePool.pool8_new] ∧
      ContFramePool.release_frames [ContFramePool.pool8_new, ContFramePool.pool8_hi] 16
        = some [ContFramePool.pool8_new, ContFramePool.pool8_hi] := by
  refine ⟨by decide, by decide, by decide, by decide, by decide⟩

/-! ## The virtual memory pool -/

/-- C14 (code defect): on a fresh pool, `allocate(1)` succeeds and records the interval
`(0x10001001, 0x10001001)` of length 0, not one page, and `allocate(4096)` records an interval
of two pages: line 76 tests `num_pages % page_size`, not `_size % page_size`. -/
theorem VMPool.allocate_rounding_wrong :
    VMPool.fresh_pool.allocate_succeeds 1 = true ∧
      (VMPool.fresh_pool.allocate 1).2.vm_mem_pool 0 = 0x10001001 ∧
      (VMPool.fresh_pool.allocate 1).2.vm_mem_pool 1 = 0x10001001 ∧
      VMPool.fresh_pool.allocate_succeeds 4096 = true ∧
      (VMPool.fresh_pool.allocate 4096).2.vm_mem_pool 0 = 0x10001001 ∧
      (VMPool.fresh_pool.allocate 4096).2.vm_mem_pool 1 = 0x10001001 + 2 * PAGE_SIZE := by
  refine ⟨by decide, by decide, by decide, by decide, by decide, by decide⟩

/-- C15 (code defect): the first `allocate` on the fresh pool at the page-aligned address
`0x10000000` succeeds and returns `base_address + PAGE_SIZE + 1`, one byte past the page
boundary `base_address + PAGE_SIZE`. -/
theorem VMPool.allocate_first_unaligned :
    VMPool.fresh_pool.base_address % PAGE_SIZE = 0 ∧
      VMPool.fresh_pool.allocate_succeeds 4096 = true ∧
      (VMPool.fresh_pool.allocate 4096).1 = VMPool.fresh_pool.base_address + PAGE_SIZE + 1 ∧
      (VMPool.fresh_pool.allocate 4096).1 % PAGE_SIZE = 1 := by
  refine ⟨by decide, by decide, by decide, by decide⟩

/-- C16 (counterexample): on the fresh pool of three pages the first call
`allocate(PAGE_SIZE)` already returns the failure sentinel 0. -/
theorem VMPool.scenario_c_first_fails :
    VMPool.fresh_pool_3.size = 3 * PAGE_SIZE ∧
      (VMPool.fresh_pool_3.allocate PAGE_SIZE).1 = 0 ∧
      VMPool.fresh_pool_3.allocate_succeeds PAGE_SIZE = false := by
  refine ⟨by decide, by decide, by decide⟩

namespace VMPool

theorem allocate_fail (p : VMPool) (s : Nat) (h : p.allocate_succeeds s = false) :
    p.allocate s = (0, p) := by
  simp only [allocate_succeeds, decide_eq_false_iff_not] at h
  simp only [allocate, if_neg h]

theorem allocate_ok (p : VMPool) (s : Nat) (h : p.allocate_succeeds s = true) :
    p.allocate s = (allocate_cur_addr p,
      { p with
        vm_mem_pool :=
          write_word (write_word p.vm_mem_pool (p.vm_mem_pool_cur + 1).toNat (allocate_cur_addr p))
            (p.vm_mem_pool_cur + 1 + 1).toNat (allocate_next_addr p s)
        vm_mem_pool_cur := p.vm_mem_pool_cur + 1 + 1 }) := by
  simp only [allocate_succeeds, decide_eq_true_eq] at h
  simp only [allocate, if_pos h]

/-- On a fresh pool of three pages whose end does not wrap, `allocate(PAGE_SIZE)` fails. -/
theorem scenario_c_fails (base : Nat) (mem : Nat → Nat) (hb : base + 3 * PAGE_SIZE < 4294967296) :
    (construct base (3 * PAGE_SIZE) mem).allocate_succeeds PAGE_SIZE = false := by
  have hP : PAGE_SIZE = 4096 := rfl
  simp only [allocate_succeeds, allocate_next_addr, allocate_cur_addr, allocate_num_pages,
    construct, decide_eq_false_iff_not, u32, hP]
  norm_num
  omega

end VMPool

/-- C16 (amended): scenario C.  On a freshly constructed pool whose size is `3 * PAGE_SIZE`
(and whose end address does not wrap), the four calls `allocate(PAGE_SIZE)` do not all succeed:
the third and the fourth call return the failure sentinel 0. -/
theorem VMPool.scenario_c (base : Nat) (mem : Nat → Nat)
    (hb : base + 3 * PAGE_SIZE < 4294967296) :
    ∃ r1 r2, (VMPool.construct base (3 * PAGE_SIZE) mem).returned
        [VMCall.allocate PAGE_SIZE, VMCall.allocate PAGE_SIZE, VMCall.allocate PAGE_SIZE,
          VMCall.allocate PAGE_SIZE] = [r1, r2, 0, 0] := by
  have h := VMPool.allocate_fail _ _ (VMPool.scenario_c_fails base mem hb)
  refine ⟨0, 0, ?_⟩
  simp only [VMPool.returned, h]

/-- Witness for C16 (amended): the pool of three pages at `0x10000000`. -/
theorem VMPool.scenario_c_witness :
    0x10000000 + 3 * PAGE_SIZE < 4294967296 ∧
      ∃ r1 r2, (VMPool.construct 0x10000000 (3 * PAGE_SIZE) (fun _ => 0)).returned
        [VMCall.allocate PAGE_SIZE, VMCall.allocate PAGE_SIZE, VMCall.allocate PAGE_SIZE,
          VMCall.allocate PAGE_SIZE] = [r1, r2, 0, 0] :=
  ⟨by decide, VMPool.scenario_c 0x10000000 (fun _ => 0) (by decide)⟩

/-- C17 (code defect): on the fresh pool `[0x10000000, 0x11000000)`, whose end does not wrap,
`allocate(0xFFFFE000)` succeeds: `cur_addr + num_pages * page_size` wraps around to
`0x10000001`, which passes the test of line 87, and the pair recorded is
`(0x10001001, 0x10000001)`, whose end lies below its start. -/
theorem VMPool.allocate_wraps :
    VMPool.fresh_pool_16m.base_address + VMPool.fresh_pool_16m.size < 4294967296 ∧
      VMPool.fresh_pool_16m.allocate_succeeds 0xFFFFE000 = true ∧
      (VMPool.fresh_pool_16m.allocate 0xFFFFE000).1 = 0x10001001 ∧
      (VMPool.fresh_pool_16m.allocate 0xFFFFE000).2.vm_mem_pool 0 = 0x10001001 ∧
      (VMPool.fresh_pool_16m.allocate 0xFFFFE000).2.vm_mem_pool 1 = 0x10000001 ∧
      ¬ ((VMPool.fresh_pool_16m.allocate 0xFFFFE000).2.vm_mem_pool 0
        ≤ (VMPool.fresh_pool_16m.allocate 0xFFFFE000).2.vm_mem_pool 1) := by
  refine ⟨by decide, by decide, by decide, by decide, by decide, by decide⟩

namespace VMPool

end VMPool

/-- C19 (code defect): after `allocate(4096)` on the fresh pool the list holds the interval
`(0x10001001, 0x10003001)` of two pages; `release(0x10001001)` calls `free_page` once, for the
first page only, and then `load`: the loop test `count < (end - start) / page_size` is taken
with the `start` that the body has already advanced. -/
theorem VMPool.release_frees_half :
    (VMPool.fresh_pool.allocate 4096).2.vm_mem_pool 0 = 0x10001001 ∧
      (VMPool.fresh_pool.allocate 4096).2.vm_mem_pool 1 = 0x10001001 + 2 * PAGE_SIZE ∧
      (VMPool.fresh_pool.allocate 4096).2.release 0x10001001
        = [PageTableCall.free_page 0x10001001, PageTableCall.load] ∧
      (VMPool.fresh_pool.allocate 4096).2.release 0x10001001
        ≠ [PageTableCall.free_page 0x10001001, PageTableCall.free_page (0x10001001 + PAGE_SIZE),
            PageTableCall.load] := by
  refine ⟨by decide, by decide, by decide, by decide⟩

namespace VMPool

theorem allocate_base_size (p : VMPool) (s : Nat) :
    (p.allocate s).2.base_address = p.base_address ∧ (p.allocate s).2.size = p.size := by
  cases h : p.allocate_succeeds s with
  | false => rw [allocate_fail p s h]; exact ⟨rfl, rfl⟩
  | true => rw [allocate_ok p s h]; exact ⟨rfl, rfl⟩

theorem after_calls_base_size (cs : List VMCall) :
    ∀ p : VMPool, (p.after_calls cs).base_address = p.base_address ∧
      (p.after_calls cs).size = p.size := by
  induction cs with
  | nil => intro p; exact ⟨rfl, rfl⟩
  | cons c cs ih =>
    intro p
    cases c with
    | allocate s =>
      simp only [after_calls]
      obtain ⟨h1, h2⟩ := ih (p.allocate s).2
      obtain ⟨h3, h4⟩ := allocate_base_size p s
      exact ⟨by rw [h1, h3], by rw [h2, h4]⟩
    | release a => simp only [after_calls]; exact ih p

end VMPool

/-- C20: for a pool whose `base_address + size` does not wrap, `is_legitimate(a)` is true if
and only if `base_address ≤ a < base_address + size`; and the result is the same after any
sequence of `allocate` and `release` calls. -/
theorem VMPool.is_legitimate_iff (p : VMPool) (a : Nat) (cs : List VMCall)
    (h : p.base_address + p.size < 4294967296) :
    (p.is_legitimate a = true ↔ p.base_address ≤ a ∧ a < p.base_address + p.size) ∧
      (p.after_calls cs).is_legitimate a = p.is_legitimate a := by
  constructor
  · simp only [VMPool.is_legitimate, u32, decide_eq_true_eq]
    rw [Nat.mod_eq_of_lt h]
    constructor
    · intro hh; exact ⟨hh.2, hh.1⟩
    · intro hh; exact ⟨hh.2, hh.1⟩
  · obtain ⟨h1, h2⟩ := VMPool.after_calls_base_size cs p
    simp only [VMPool.is_legitimate, h1, h2]

/-- Witness for C20: the fresh pool `[0x10000000, 0x10100000)`, the address `0x10000500`, and
an `allocate` followed by a `release`. -/
theorem VMPool.is_legitimate_iff_witness :
    VMPool.fresh_pool.base_address + VMPool.fresh_pool.size < 4294967296 ∧
      ((VMPool.fresh_pool.is_legitimate 0x10000500 = true ↔
          VMPool.fresh_pool.base_address ≤ 0x10000500 ∧
            0x10000500 < VMPool.fresh_pool.base_address + VMPool.fresh_pool.size) ∧
        (VMPool.fresh_pool.after_calls
            [VMCall.allocate 4096, VMCall.release 0x10001001]).is_legitimate 0x10000500
          = VMPool.fresh_pool.is_legitimate 0x10000500) :=
  ⟨by decide,
    VMPool.is_legitimate_iff VMPool.fresh_pool 0x10000500
      [VMCall.allocate 4096, VMCall.release 0x10001001] (by decide)⟩

/-! ## The loop bounds of release -/

namespace VMPool

/-- The bound given to `release_find` is never the reason why the first loop of `release`
stops: once `cur + 2 * fuel` exceeds the cursor, more iterations change nothing. -/
theorem release_find_bound (p : VMPool) (a : Nat) :
    ∀ (fuel : Nat) (cur : Int), p.vm_mem_pool_cur < cur + 2 * fuel →
      release_find p a (fuel + 1) cur = release_find p a fuel cur := by
  intro fuel
  induction fuel with
  | zero =>
    intro cur h
    simp only [release_find]
    rw [if_neg (by omega)]
  | succ fuel ih =>
    intro cur h
    rw [release_find]
    conv_rhs => rw [release_find]
    by_cases hg : cur ≤ p.vm_mem_pool_cur
    · rw [if_pos hg, if_pos hg]
      by_cases hm : p.vm_mem_pool cur.toNat = a
      · rw [if_pos hm, if_pos hm]
      · rw [if_neg hm, if_neg hm]
        exact ih (cur + 2) (by push_cast at h ⊢; omega)
    · rw [if_neg hg, if_neg hg]

theorem release_find_bound_start (p : VMPool) :
    p.vm_mem_pool_cur < 0 + 2 * (((p.vm_mem_pool_cur + 2) / 2).toNat : Int) := by
  omega

/-- The bound given to `release_pages` is never the reason why the second loop of `release`
stops: the quotient `(end - start) / page_size` goes down by one in every iteration. -/
theorem release_pages_bound (end_ : Nat) :
    ∀ (fuel count start : Nat), sub32 end_ start / PAGE_SIZE ≤ fuel →
      release_pages PAGE_SIZE end_ (fuel + 1) count start
        = release_pages PAGE_SIZE end_ fuel count start := by
  have hP : PAGE_SIZE = 4096 := rfl
  intro fuel
  induction fuel with
  | zero =>
    intro count start h
    simp only [release_pages]
    rw [if_neg (by omega)]
  | succ fuel ih =>
    intro count start h
    rw [release_pages]
    conv_rhs => rw [release_pages]
    by_cases hg : count < sub32 end_ start / PAGE_SIZE
    · rw [if_pos hg, if_pos hg]
      congr 1
      apply ih
      have h1 : 1 ≤ sub32 end_ start / PAGE_SIZE := by omega
      rw [hP] at h h1 ⊢
      unfold sub32 u32 at *
      omega
    · rw [if_neg hg, if_neg hg]

end VMPool
namespace Paging

theorem and_one_mod (x : Nat) : x &&& 1 = x % 2 := Nat.and_one_is_mod x

theorem and_3ff (x : Nat) : x &&& 0x3FF = x % 1024 := by
  have := Nat.and_pow_two_sub_one_eq_mod x 10
  simpa using this

theorem and_fff (x : Nat) : x &&& 0xFFF = x % 4096 := by
  have := Nat.and_pow_two_sub_one_eq_mod x 12
  simpa using this

theorem and_frame (x : Nat) : x &&& 0xFFFFF000 = x % 4294967296 / 4096 * 4096 := by
  apply Nat.eq_of_testBit_eq
  intro i
  have h1 : (0xFFFFF000 : Nat) = (2 ^ 20 - 1) <<< 12 := by decide
  have h2 : x % 4294967296 / 4096 * 4096 = ((x % 2 ^ 32) >>> 12) <<< 12 := by
    rw [Nat.shiftLeft_eq, Nat.shiftRight_eq_div_pow]; norm_num
  rw [Nat.testBit_and, h1, h2, Nat.testBit_shiftLeft, Nat.testBit_shiftLeft,
    Nat.testBit_two_pow_sub_one, Nat.testBit_shiftRight, Nat.testBit_mod_two_pow]
  by_cases hi : 12 ≤ i
  · have e : 12 + (i - 12) = i := by omega
    rw [e]
    by_cases h32 : i < 32
    · have : i - 12 < 20 := by omega
      simp [hi, h32, this]
    · have : ¬ i - 12 < 20 := by omega
      simp [hi, h32, this]
  · simp [hi]

theorem and_not_present (x : Nat) : x &&& not32 PTE_PRESENT = x % 4294967296 / 2 * 2 := by
  apply Nat.eq_of_testBit_eq
  intro i
  have h1 : not32 PTE_PRESENT = (2 ^ 31 - 1) <<< 1 := by decide
  have h2 : x % 4294967296 / 2 * 2 = ((x % 2 ^ 32) >>> 1) <<< 1 := by
    rw [Nat.shiftLeft_eq, Nat.shiftRight_eq_div_pow]; norm_num
  rw [Nat.testBit_and, h1, h2, Nat.testBit_shiftLeft, Nat.testBit_shiftLeft,
    Nat.testBit_two_pow_sub_one, Nat.testBit_shiftRight, Nat.testBit_mod_two_pow]
  by_cases hi : 1 ≤ i
  · have e : 1 + (i - 1) = i := by omega
    rw [e]
    by_cases h32 : i < 32
    · have : i - 1 < 31 := by omega
      simp [hi, h32, this]
    · have : ¬ i - 1 < 31 := by omega
      simp [hi, h32, this]
  · simp [hi]

theorem or_flags (c : Nat) (h : c % 4096 = 0) : c ||| PTE_PRESENT ||| PTE_WRITE = c + 3 := by
  have h3 : c ||| PTE_PRESENT ||| PTE_WRITE = c ||| 3 := by
    rw [Nat.or_assoc]; rfl
  rw [h3]
  have := Nat.mul_add_lt_is_or (show 3 < 2 ^ 12 by decide) (c / 4096)
  have e : 2 ^ 12 * (c / 4096) = c := by omega
  rw [e] at this
  exact this.symm

theorem or_write (c : Nat) (h : c % 4096 = 0) : c ||| PTE_WRITE = c + 2 := by
  have := Nat.mul_add_lt_is_or (show 2 < 2 ^ 12 by decide) (c / 4096)
  have e : 2 ^ 12 * (c / 4096) = c := by omega
  rw [e] at this
  exact this.symm

theorem table_window (pd : Nat) (h : pd < 1024) :
    0xFFC00000 ||| (pd <<< 12) = 0xFFC00000 + pd * 4096 := by
  have := Nat.mul_add_lt_is_or (show pd * 4096 < 2 ^ 22 by omega) 1023
  rw [Nat.shiftLeft_eq]
  exact this.symm

end Paging
namespace Paging

theorem shr22 (x : Nat) : x >>> 22 = x / 4194304 := by
  rw [Nat.shiftRight_eq_div_pow]

theorem shr12 (x : Nat) : x >>> 12 = x / 4096 := by
  rw [Nat.shiftRight_eq_div_pow]

/-- Through the self-mapping, the virtual address `0xFFFFF000 + 4 * i` is word `i` of the
directory. -/
theorem translate_directory (memory : Nat → Nat) (cr3 i : Nat) (hal : cr3 % 4096 = 0)
    (hlt : cr3 < 4294967296) (hs : SelfMapped memory cr3) (hi : i < 1024) :
    translate memory cr3 (0xFFFFF000 + 4 * i) = some (cr3 + 4 * i) := by
  unfold SelfMapped at hs
  rw [or_flags cr3 hal] at hs
  have e1 : (0xFFFFF000 + 4 * i) / 4194304 = 1023 := by omega
  have e2 : (0xFFFFF000 + 4 * i) / 4096 % 1024 = 1023 := by omega
  have e3 : (0xFFFFF000 + 4 * i) % 4096 = 4 * i := by omega
  have e4 : (cr3 + 3) % 2 ≠ 0 := by omega
  have e5 : (cr3 + 3) % 4294967296 / 4096 * 4096 = cr3 := by omega
  simp only [translate, shr22, shr12, and_3ff, and_fff, and_one_mod, and_frame, e1, e2, e3, hs,
    e5, if_neg e4]

/-- Through the self-mapping, the virtual address `(0xFFC00000 | (pd << 12)) + 4 * j` is word
`j` of the frame that directory entry `pd` points to, when that entry is present. -/
theorem translate_table (memory : Nat → Nat) (cr3 pd j : Nat) (hal : cr3 % 4096 = 0)
    (hlt : cr3 < 4294967296) (hs : SelfMapped memory cr3) (hpd : pd < 1024) (hj : j < 1024) :
    translate memory cr3 ((0xFFC00000 ||| (pd <<< 12)) + 4 * j)
      = if memory (cr3 + 4 * pd) % 2 = 0 then none
        else some (memory (cr3 + 4 * pd) % 4294967296 / 4096 * 4096 + 4 * j) := by
  unfold SelfMapped at hs
  rw [or_flags cr3 hal] at hs
  rw [table_window pd hpd]
  have e1 : (0xFFC00000 + pd * 4096 + 4 * j) / 4194304 = 1023 := by omega
  have e2 : (0xFFC00000 + pd * 4096 + 4 * j) / 4096 % 1024 = pd := by omega
  have e3 : (0xFFC00000 + pd * 4096 + 4 * j) % 4096 = 4 * j := by omega
  have e4 : (cr3 + 3) % 2 ≠ 0 := by omega
  have e5 : (cr3 + 3) % 4294967296 / 4096 * 4096 = cr3 := by omega
  simp only [translate, shr22, shr12, and_3ff, and_fff, and_one_mod, and_frame, e1, e2, e3, hs,
    e5, if_neg e4]

end Paging
namespace Paging

theorem write_word_same (m : Nat → Nat) (a v : Nat) : write_word m a v a = v := by
  simp [write_word]

theorem write_word_other (m : Nat → Nat) (a v b : Nat) (h : b ≠ a) :
    write_word m a v b = m b := by
  simp [write_word, h]

theorem write_word_twice (m : Nat → Nat) (a v w : Nat) :
    write_word (write_word m a v) a w = write_word m a w := by
  funext k
  by_cases h : k = a <;> simp [write_word, h]

theorem u32_frame (f : Nat) : u32 (f * PAGE_SIZE) % 4096 = 0 := by
  unfold u32 PAGE_SIZE; omega

theorem u32_frame_lt (f : Nat) : u32 (f * PAGE_SIZE) < 4294967296 := by
  unfold u32; omega

end Paging

namespace PageTable
open Paging

/-- The function `handle_fault` when the directory entry of the fault address is present and
the table entry is neither the self-mapping nor that directory entry: one frame is taken from
the process pool and written, with the two flags, into the table entry. -/
theorem handle_fault_present (s : Paging) (t : PageTable) (addr : Nat)
    (hal : s.cr3 % 4096 = 0) (hlt : s.cr3 < 4294967296) (hs : SelfMapped s.memory s.cr3)
    (hp : s.memory (s.cr3 + 4 * (addr / 4194304 % 1024)) % 2 = 1)
    (h1 : s.memory (s.cr3 + 4 * (addr / 4194304 % 1024)) % 4294967296 / 4096 * 4096
      + 4 * (addr / 4096 % 1024) ≠ s.cr3 + 4 * 1023)
    (h2 : s.memory (s.cr3 + 4 * (addr / 4194304 % 1024)) % 4294967296 / 4096 * 4096
      + 4 * (addr / 4096 % 1024) ≠ s.cr3 + 4 * (addr / 4194304 % 1024)) :
    (handle_fault s t addr).map Prod.fst = some
      { s with
        memory := write_word s.memory
          (s.memory (s.cr3 + 4 * (addr / 4194304 % 1024)) % 4294967296 / 4096 * 4096
            + 4 * (addr / 4096 % 1024))
          (u32 ((Paging.get_frames s.poolListHead s.process_mem_pool 1).1 * PAGE_SIZE) + 3)
        poolListHead := (Paging.get_frames s.poolListHead s.process_mem_pool 1).2 } := by
  have hpd : addr / 4194304 % 1024 < 1024 := Nat.mod_lt _ (by decide)
  have hpt : addr / 4096 % 1024 < 1024 := Nat.mod_lt _ (by decide)
  generalize hPD : addr / 4194304 % 1024 = pd at *
  generalize hPT : addr / 4096 % 1024 = pt at *
  generalize hE : s.memory (s.cr3 + 4 * pd) = e at *
  generalize hD : Paging.get_frames s.poolListHead s.process_mem_pool 1 = g at *
  have t1 := translate_directory s.memory s.cr3 pd hal hlt hs hpd
  have t2 := translate_table s.memory s.cr3 pd pt hal hlt hs hpd hpt
  rw [hE, if_neg (by omega)] at t2
  set a := e % 4294967296 / 4096 * 4096 + 4 * pt with ha
  have hs2 : SelfMapped (write_word s.memory a (u32 (g.1 * PAGE_SIZE))) s.cr3 := by
    unfold SelfMapped
    rw [write_word_other _ _ _ _ (Ne.symm h1)]
    exact hs
  have t3 := translate_table (write_word s.memory a (u32 (g.1 * PAGE_SIZE))) s.cr3 pd pt hal hlt
    hs2 hpd hpt
  rw [write_word_other _ _ _ _ (Ne.symm h2), hE, if_neg (by omega), ← ha] at t3
  have e0 : e &&& 1 ≠ 0 := by rw [and_one_mod]; omega
  simp only [handle_fault, PD_SHIFT, PT_SHIFT, shr22, shr12, and_3ff, hPD, hPT, vread, vwrite,
    t1, t2, t3, Option.map_some', hE, if_neg e0, PAGE_TABLE_SIZE, hD, write_word_same,
    write_word_twice, or_flags _ (u32_frame g.1)]

end PageTable
namespace PageTable
open Paging

/-- The function `handle_fault` when the directory entry of the fault address is not present
and the frame it gets for the table is not the directory: two frames are taken from the process
pool, the first becomes the table of the directory entry, the second is written, with the two
flags, into the table entry. -/
theorem handle_fault_absent (s : Paging) (t : PageTable) (addr : Nat)
    (hal : s.cr3 % 4096 = 0) (hlt : s.cr3 < 4294967296) (hs : SelfMapped s.memory s.cr3)
    (hp : s.memory (s.cr3 + 4 * (addr / 4194304 % 1024)) % 2 = 0)
    (hT : u32 ((Paging.get_frames s.poolListHead s.process_mem_pool 1).1 * PAGE_SIZE) ≠ s.cr3) :
    (handle_fault s t addr).map Prod.fst = some
      { s with
        memory := write_word
          (write_word s.memory (s.cr3 + 4 * (addr / 4194304 % 1024))
            (u32 ((Paging.get_frames s.poolListHead s.process_mem_pool 1).1 * PAGE_SIZE) + 3))
          (u32 ((Paging.get_frames s.poolListHead s.process_mem_pool 1).1 * PAGE_SIZE)
            + 4 * (addr / 4096 % 1024))
          (u32 ((Paging.get_frames
            (Paging.get_frames s.poolListHead s.process_mem_pool 1).2
            s.process_mem_pool 1).1 * PAGE_SIZE) + 3)
        poolListHead := (Paging.get_frames
          (Paging.get_frames s.poolListHead s.process_mem_pool 1).2 s.process_mem_pool 1).2 } := by
  have hpd : addr / 4194304 % 1024 < 1024 := Nat.mod_lt _ (by decide)
  have hpt : addr / 4096 % 1024 < 1024 := Nat.mod_lt _ (by decide)
  generalize hPD : addr / 4194304 % 1024 = pd at *
  generalize hPT : addr / 4096 % 1024 = pt at *
  generalize hE : s.memory (s.cr3 + 4 * pd) = e at *
  generalize hG : Paging.get_frames s.poolListHead s.process_mem_pool 1 = g at *
  generalize hD : Paging.get_frames g.2 s.process_mem_pool 1 = d at *
  have hT0 := u32_frame g.1
  have hT1 := u32_frame_lt g.1
  generalize hTa : u32 (g.1 * PAGE_SIZE) = ta at *
  have hself := hs
  unfold SelfMapped at hself
  rw [or_flags s.cr3 hal] at hself
  have hne : pd ≠ 1023 := by
    intro h
    rw [h, hself] at hE
    omega
  have t1 := translate_directory s.memory s.cr3 pd hal hlt hs hpd
  set m1 := write_word s.memory (s.cr3 + 4 * pd) (ta + 3) with hm1
  have hs1 : SelfMapped m1 s.cr3 := by
    unfold SelfMapped
    rw [hm1, write_word_other _ _ _ _ (by omega)]
    exact hs
  have t2 := translate_table m1 s.cr3 pd pt hal hlt hs1 hpd hpt
  have e1 : m1 (s.cr3 + 4 * pd) = ta + 3 := write_word_same _ _ _
  have e2 : (ta + 3) % 4294967296 / 4096 * 4096 = ta := by omega
  rw [e1, if_neg (by omega), e2] at t2
  set m2 := write_word m1 (ta + 4 * pt) (u32 (d.1 * PAGE_SIZE)) with hm2
  have hs2 : SelfMapped m2 s.cr3 := by
    unfold SelfMapped
    rw [hm2, write_word_other _ _ _ _ (by omega)]
    exact hs1
  have t3 := translate_table m2 s.cr3 pd pt hal hlt hs2 hpd hpt
  have e3 : m2 (s.cr3 + 4 * pd) = ta + 3 := by
    rw [hm2, write_word_other _ _ _ _ (by omega)]
    exact e1
  rw [e3, if_neg (by omega), e2] at t3
  have e0 : e &&& 1 = 0 := by rw [and_one_mod]; omega
  simp only [handle_fault, PD_SHIFT, PT_SHIFT, shr22, shr12, and_3ff, hPD, hPT, vread, vwrite,
    t1, Option.map_some', hE, if_pos e0, PAGE_TABLE_SIZE, PAGE_DIRECTORY_SIZE, hG, hTa,
    or_flags _ hT0, ← hm1, t2, hD, ← hm2, t3]
  rw [hm2, write_word_same, write_word_twice, or_flags _ (u32_frame d.1)]

end PageTable
namespace Paging

theorem and_write (x : Nat) : x &&& PTE_WRITE = x / 2 % 2 * 2 := by
  have h := Nat.and_two_pow x 1
  have h2 : x.testBit 1 = decide (x / 2 % 2 = 1) := by
    rw [Nat.testBit_to_div_mod]
  have e : PTE_WRITE = 2 ^ 1 := rfl
  rw [e, h, h2]
  by_cases hx : x / 2 % 2 = 1
  · simp [hx]
  · have : x / 2 % 2 = 0 := by omega
    simp [this]

theorem present_write_iff (x : Nat) : present_write x ↔ x % 4 = 3 := by
  unfold present_write
  have e : PTE_PRESENT = 1 := rfl
  rw [and_write, e, and_one_mod]
  omega

theorem directory_entry_eq (memory : Nat → Nat) (cr3 addr : Nat) :
    directory_entry memory cr3 addr = memory (cr3 + 4 * (addr / 4194304 % 1024)) := by
  simp only [directory_entry, PD_SHIFT, shr22, and_3ff]

theorem table_entry_eq (memory : Nat → Nat) (cr3 addr : Nat) :
    table_entry memory cr3 addr
      = memory (memory (cr3 + 4 * (addr / 4194304 % 1024)) % 4294967296 / 4096 * 4096
        + 4 * (addr / 4096 % 1024)) := by
  simp only [table_entry, directory_entry_eq, PT_SHIFT, shr12, and_3ff, and_frame]

theorem get_frames_at (l : List ContFramePool) (i n : Nat) (P : ContFramePool)
    (h : l[i]? = some P) :
    Paging.get_frames l i n = ((P.get_frames n).1, l.set i (P.get_frames n).2) := by
  simp only [Paging.get_frames, h]

theorem getElem?_set_self (l : List ContFramePool) (i : Nat) (P Q : ContFramePool)
    (h : l[i]? = some P) : (l.set i Q)[i]? = some Q := by
  have hi : i < l.length := by
    by_contra hc
    rw [List.getElem?_eq_none (by omega)] at h
    exact absurd h (by simp)
  rw [List.getElem?_set_self hi]

/-- A successful `get_frames(1)`: the frame returned was FREE, becomes a head, and nothing else
changes but the counter. -/
theorem get_frames_one (P : ContFramePool) (hv : ContFramePool.Valid P)
    (hfree : P.n_free_frames ≤ P.n_frames)
    (h : P.get_frames_succeeds 1 = true) :
    P.base_frame_no ≤ (P.get_frames 1).1 ∧
      (P.get_frames 1).1 < P.base_frame_no + P.n_frames ∧
      P.frame_status (P.get_frames 1).1 = FREE ∧
      (∀ x, P.base_frame_no ≤ x → (P.get_frames 1).2.frame_status x
        = if x = (P.get_frames 1).1 then HEAD_OF_SEQUENCE else P.frame_status x) ∧
      (P.get_frames 1).2.n_free_frames + 1 = P.n_free_frames ∧
      (P.get_frames 1).2.base_frame_no = P.base_frame_no ∧
      (P.get_frames 1).2.n_frames = P.n_frames ∧
      ContFramePool.Valid (P.get_frames 1).2 := by
  obtain ⟨F, hF, hrun, _, hD, hb, hn, _, _, hcnt, _, _, hst⟩ :=
    ContFramePool.get_frames_ok P 1 hv (le_refl 1) h
  have hpos : 0 < P.n_free_frames := by
    simp only [ContFramePool.get_frames_succeeds, Bool.and_eq_true, decide_eq_true_eq] at h
    exact h.1
  have hN := hv.2.1
  have hFS : FRAME_SIZE * 8 = 32768 := by decide
  refine ⟨by omega, by omega, ?_, ?_, ?_, hb, hn, ContFramePool.get_frames_valid P 1 hv (le_refl 1)⟩
  · rw [hD]
    simp only [ContFramePool.frame_status, Nat.add_sub_cancel_left]
    exact hrun F (le_refl F) (by omega)
  · intro x hx
    simp only [ContFramePool.frame_status, hb, hst, hD]
    have e1 : ¬ (F < x - P.base_frame_no ∧ x - P.base_frame_no < F + 1) := by omega
    by_cases hxF : x - P.base_frame_no = F
    · rw [if_pos hxF, if_pos (by omega)]; rfl
    · rw [if_neg hxF, if_neg e1, if_neg (by omega)]
  · rw [hcnt, ContFramePool.sub32_of_le _ _ (by omega) (by omega)]
    omega

end Paging
namespace PageTable
open Paging

/-- The entries after `handle_fault` when the directory entry was present and the table entry
was not: the directory entry is unchanged and the table entry is the frame that the process
pool returned, with both flags. -/
theorem handle_fault_present_entries (s : Paging) (t : PageTable) (addr : Nat)
    (P : ContFramePool) (hal : s.cr3 % 4096 = 0) (hlt : s.cr3 < 4294967296)
    (hs : SelfMapped s.memory s.cr3) (hP : s.poolListHead[s.process_mem_pool]? = some P)
    (hD : (P.get_frames 1).1 < 1048576)
    (hp : directory_entry s.memory s.cr3 addr % 2 = 1)
    (hq : table_entry s.memory s.cr3 addr % 2 = 0) :
    ∃ s', (handle_fault s t addr).map Prod.fst = some s' ∧ s'.cr3 = s.cr3 ∧
      s'.poolListHead = s.poolListHead.set s.process_mem_pool (P.get_frames 1).2 ∧
      directory_entry s'.memory s.cr3 addr = directory_entry s.memory s.cr3 addr ∧
      table_entry s'.memory s.cr3 addr = (P.get_frames 1).1 * PAGE_SIZE + 3 := by
  rw [directory_entry_eq] at hp
  rw [table_entry_eq] at hq
  have hself := hs
  unfold SelfMapped at hself
  rw [or_flags s.cr3 hal] at hself
  have h1 : s.memory (s.cr3 + 4 * (addr / 4194304 % 1024)) % 4294967296 / 4096 * 4096
      + 4 * (addr / 4096 % 1024) ≠ s.cr3 + 4 * 1023 := by
    intro h
    rw [h, hself] at hq
    omega
  have h2 : s.memory (s.cr3 + 4 * (addr / 4194304 % 1024)) % 4294967296 / 4096 * 4096
      + 4 * (addr / 4096 % 1024) ≠ s.cr3 + 4 * (addr / 4194304 % 1024) := by
    intro h
    rw [h] at hq
    omega
  have hu : u32 ((P.get_frames 1).1 * PAGE_SIZE) = (P.get_frames 1).1 * PAGE_SIZE := by
    unfold u32 PAGE_SIZE; omega
  refine ⟨_, handle_fault_present s t addr hal hlt hs hp h1 h2, rfl, ?_, ?_, ?_⟩
  · simp only [get_frames_at _ _ _ P hP]
  · simp only [directory_entry_eq]
    rw [write_word_other _ _ _ _ (Ne.symm h2)]
  · simp only [table_entry_eq]
    rw [write_word_other _ _ _ _ (Ne.symm h2), write_word_same, get_frames_at _ _ _ P hP, hu]

/-- The entries after `handle_fault` when the directory entry was not present: the directory
entry is the first frame that the process pool returned, the table entry the second, both with
both flags. -/
theorem handle_fault_absent_entries (s : Paging) (t : PageTable) (addr : Nat)
    (P : ContFramePool) (hal : s.cr3 % 4096 = 0) (hlt : s.cr3 < 4294967296)
    (hs : SelfMapped s.memory s.cr3) (hP : s.poolListHead[s.process_mem_pool]? = some P)
    (hT : (P.get_frames 1).1 < 1048576) (hD : ((P.get_frames 1).2.get_frames 1).1 < 1048576)
    (hne : (P.get_frames 1).1 ≠ s.cr3 / PAGE_SIZE)
    (hp : directory_entry s.memory s.cr3 addr % 2 = 0) :
    ∃ s', (handle_fault s t addr).map Prod.fst = some s' ∧ s'.cr3 = s.cr3 ∧
      s'.poolListHead
        = s.poolListHead.set s.process_mem_pool ((P.get_frames 1).2.get_frames 1).2 ∧
      directory_entry s'.memory s.cr3 addr = (P.get_frames 1).1 * PAGE_SIZE + 3 ∧
      table_entry s'.memory s.cr3 addr = ((P.get_frames 1).2.get_frames 1).1 * PAGE_SIZE + 3 := by
  rw [directory_entry_eq] at hp
  have hu : u32 ((P.get_frames 1).1 * PAGE_SIZE) = (P.get_frames 1).1 * PAGE_SIZE := by
    unfold u32 PAGE_SIZE; omega
  have hu2 : u32 (((P.get_frames 1).2.get_frames 1).1 * PAGE_SIZE)
      = ((P.get_frames 1).2.get_frames 1).1 * PAGE_SIZE := by
    unfold u32 PAGE_SIZE; omega
  have hg1 := get_frames_at s.poolListHead s.process_mem_pool 1 P hP
  have hg2 := get_frames_at (s.poolListHead.set s.process_mem_pool (P.get_frames 1).2)
    s.process_mem_pool 1 (P.get_frames 1).2 (getElem?_set_self _ _ P _ hP)
  have hT2 : u32 ((Paging.get_frames s.poolListHead s.process_mem_pool 1).1 * PAGE_SIZE)
      ≠ s.cr3 := by
    rw [hg1, hu]
    intro h
    apply hne
    rw [← h]
    unfold PAGE_SIZE
    omega
  have key := handle_fault_absent s t addr hal hlt hs hp hT2
  simp only [hg1, hg2, hu, hu2, List.set_set] at key
  have hne2 : (P.get_frames 1).1 * PAGE_SIZE ≠ s.cr3 := by
    rw [hg1, hu] at hT2; exact hT2
  have hTa : (P.get_frames 1).1 * PAGE_SIZE % 4096 = 0 := by unfold PAGE_SIZE; omega
  have hTl : (P.get_frames 1).1 * PAGE_SIZE < 4294967296 := by unfold PAGE_SIZE; omega
  have hpt : addr / 4096 % 1024 < 1024 := Nat.mod_lt _ (by decide)
  have hpd : addr / 4194304 % 1024 < 1024 := Nat.mod_lt _ (by decide)
  refine ⟨_, key, rfl, rfl, ?_, ?_⟩
  · simp only [directory_entry_eq]
    generalize (P.get_frames 1).1 * PAGE_SIZE = ta at *
    rw [write_word_other _ _ _ _ (by omega), write_word_same]
  · simp only [table_entry_eq]
    generalize (P.get_frames 1).1 * PAGE_SIZE = ta at *
    generalize ((P.get_frames 1).2.get_frames 1).1 * PAGE_SIZE + 3 = v at *
    have hd : write_word (write_word s.memory (s.cr3 + 4 * (addr / 4194304 % 1024)) (ta + 3))
        (ta + 4 * (addr / 4096 % 1024)) v (s.cr3 + 4 * (addr / 4194304 % 1024)) = ta + 3 := by
      rw [write_word_other _ _ _ _ (by omega), write_word_same]
    have e : (ta + 3) % 4294967296 / 4096 * 4096 = ta := by omega
    rw [hd, e, write_word_same]

end PageTable
/-- C21: scenario B.  On a machine whose directory is self-mapped and is not a frame of the
process pool, with a process pool that can supply the frames and a fault address whose table
entry is not present, `handle_fault` returns; afterwards the directory entry and the table
entry of the address both have the present and the write bit, the table entry holds the address
of a frame `D` that was FREE in the process pool and is now a head there, and besides `D` the
pool has handed out nothing when the directory entry was present, and exactly one further
frame `T`, the new table of the directory entry, when it was not. -/
theorem PageTable.scenario_b (s : Paging) (t : PageTable) (addr : Nat) (P : ContFramePool)
    (hal : s.cr3 % 4096 = 0) (hlt : s.cr3 < 4294967296)
    (hs : Paging.SelfMapped s.memory s.cr3)
    (hP : s.poolListHead[s.process_mem_pool]? = some P) (hv : P.Valid)
    (hfree : P.n_free_frames ≤ P.n_frames)
    (hsmall : P.base_frame_no + P.n_frames ≤ 1048576)
    (hdir : s.cr3 / PAGE_SIZE < P.base_frame_no ∨
      P.base_frame_no + P.n_frames ≤ s.cr3 / PAGE_SIZE)
    (hw : Paging.directory_entry s.memory s.cr3 addr &&& PTE_PRESENT ≠ 0 →
      Paging.directory_entry s.memory s.cr3 addr &&& PTE_WRITE ≠ 0)
    (hq : Paging.directory_entry s.memory s.cr3 addr &&& PTE_PRESENT ≠ 0 →
      Paging.table_entry s.memory s.cr3 addr &&& PTE_PRESENT = 0)
    (hsup1 : P.get_frames_succeeds 1 = true)
    (hsup2 : Paging.directory_entry s.memory s.cr3 addr &&& PTE_PRESENT = 0 →
      (P.get_frames 1).2.get_frames_succeeds 1 = true) :
    ∃ s' D P', (PageTable.handle_fault s t addr).map Prod.fst = some s' ∧
      Paging.present_write (Paging.directory_entry s'.memory s'.cr3 addr) ∧
      Paging.present_write (Paging.table_entry s'.memory s'.cr3 addr) ∧
      Paging.table_entry s'.memory s'.cr3 addr = D * PAGE_SIZE ||| PTE_PRESENT ||| PTE_WRITE ∧
      P.base_frame_no ≤ D ∧ D < P.base_frame_no + P.n_frames ∧
      P.frame_status D = FREE ∧ P'.frame_status D = HEAD_OF_SEQUENCE ∧
      s'.poolListHead = s.poolListHead.set s.process_mem_pool P' ∧
      (Paging.directory_entry s.memory s.cr3 addr &&& PTE_PRESENT ≠ 0 →
        P'.n_free_frames + 1 = P.n_free_frames ∧
        ∀ x, P.base_frame_no ≤ x → x ≠ D → P'.frame_status x = P.frame_status x) ∧
      (Paging.directory_entry s.memory s.cr3 addr &&& PTE_PRESENT = 0 →
        ∃ T, T ≠ D ∧ P.base_frame_no ≤ T ∧ T < P.base_frame_no + P.n_frames ∧
          P.frame_status T = FREE ∧ P'.frame_status T = HEAD_OF_SEQUENCE ∧
          Paging.directory_entry s'.memory s'.cr3 addr
            = T * PAGE_SIZE ||| PTE_PRESENT ||| PTE_WRITE ∧
          P'.n_free_frames + 2 = P.n_free_frames ∧
          ∀ x, P.base_frame_no ≤ x → x ≠ D → x ≠ T →
            P'.frame_status x = P.frame_status x) := by
  have hPS : PAGE_SIZE = 4096 := rfl
  have hPP : PTE_PRESENT = 1 := rfl
  obtain ⟨a1, a2, a3, a4, a5, a6, a7, a8⟩ := Paging.get_frames_one P hv hfree hsup1
  by_cases hp : Paging.directory_entry s.memory s.cr3 addr &&& PTE_PRESENT = 0
  · obtain ⟨b1, b2, b3, b4, b5, b6, b7, b8⟩ :=
      Paging.get_frames_one (P.get_frames 1).2 a8 (by omega) (hsup2 hp)
    rw [a6] at b1 b4
    rw [a6, a7] at b2
    have hne : (P.get_frames 1).1 ≠ s.cr3 / PAGE_SIZE := by omega
    have hpe : Paging.directory_entry s.memory s.cr3 addr % 2 = 0 := by
      rw [hPP, Paging.and_one_mod] at hp; exact hp
    obtain ⟨s', h1, h2, h3, h4, h5⟩ := PageTable.handle_fault_absent_entries s t addr P hal hlt
      hs hP (by omega) (by omega) hne hpe
    have hDT : ((P.get_frames 1).2.get_frames 1).1 ≠ (P.get_frames 1).1 := by
      intro h
      rw [h, a4 _ a1, if_pos rfl] at b3
      exact absurd b3 (by decide)
    have hDfree : P.frame_status ((P.get_frames 1).2.get_frames 1).1 = FREE := by
      rw [a4 _ b1, if_neg hDT] at b3; exact b3
    refine ⟨s', ((P.get_frames 1).2.get_frames 1).1, ((P.get_frames 1).2.get_frames 1).2,
      h1, ?_, ?_, ?_, b1, b2, hDfree, ?_, h3, fun h => absurd hp h, fun _ => ?_⟩
    · rw [h2, h4, Paging.present_write_iff, hPS]; omega
    · rw [h2, h5, Paging.present_write_iff, hPS]; omega
    · rw [h2, h5, Paging.or_flags _ (by rw [hPS]; omega)]
    · rw [b4 _ b1, if_pos rfl]
    · refine ⟨(P.get_frames 1).1, Ne.symm hDT, a1, a2, a3, ?_, ?_, by omega, ?_⟩
      · rw [b4 _ a1, if_neg (Ne.symm hDT), a4 _ a1, if_pos rfl]
      · rw [h2, h4, Paging.or_flags _ (by rw [hPS]; omega)]
      · intro x hx hxD hxT
        rw [b4 _ hx, if_neg hxD, a4 _ hx, if_neg hxT]
  · have hw2 := hw hp
    have hq2 := hq hp
    have hpe : Paging.directory_entry s.memory s.cr3 addr % 2 = 1 := by
      rw [hPP, Paging.and_one_mod] at hp; omega
    have hqe : Paging.table_entry s.memory s.cr3 addr % 2 = 0 := by
      rw [hPP, Paging.and_one_mod] at hq2; exact hq2
    obtain ⟨s', h1, h2, h3, h4, h5⟩ := PageTable.handle_fault_present_entries s t addr P hal hlt
      hs hP (by omega) hpe hqe
    refine ⟨s', (P.get_frames 1).1, (P.get_frames 1).2, h1, ?_, ?_, ?_, a1, a2, a3, ?_, h3,
      fun _ => ⟨a5, ?_⟩, fun h => absurd h hp⟩
    · rw [h2, h4]; exact ⟨hp, hw2⟩
    · rw [h2, h5, Paging.present_write_iff, hPS]; omega
    · rw [h2, h5, Paging.or_flags _ (by rw [hPS]; omega)]
    · rw [a4 _ a1, if_pos rfl]
    · intro x hx hxD
      rw [a4 _ hx, if_neg hxD]
/-- Witness for C21: a fault at `0x10000000` on `machine`, where the directory entry of the
address is not present. -/
theorem PageTable.scenario_b_witness :
    Paging.machine.cr3 % 4096 = 0 ∧ Paging.machine.cr3 < 4294967296 ∧
      Paging.SelfMapped Paging.machine.memory Paging.machine.cr3 ∧
      Paging.machine.poolListHead[Paging.machine.process_mem_pool]? = some Paging.process16 ∧
      Paging.process16.Valid ∧
      Paging.process16.get_frames_succeeds 1 = true ∧
      Paging.directory_entry Paging.machine.memory Paging.machine.cr3 0x10000000
        &&& PTE_PRESENT = 0 ∧
      ∃ s' D P', (PageTable.handle_fault Paging.machine Paging.table513 0x10000000).map Prod.fst
          = some s' ∧
        Paging.present_write (Paging.directory_entry s'.memory s'.cr3 0x10000000) ∧
        Paging.present_write (Paging.table_entry s'.memory s'.cr3 0x10000000) ∧
        Paging.table_entry s'.memory s'.cr3 0x10000000
          = D * PAGE_SIZE ||| PTE_PRESENT ||| PTE_WRITE ∧
        Paging.process16.base_frame_no ≤ D ∧
        D < Paging.process16.base_frame_no + Paging.process16.n_frames ∧
        Paging.process16.frame_status D = FREE ∧ P'.frame_status D = HEAD_OF_SEQUENCE ∧
        s'.poolListHead = Paging.machine.poolListHead.set Paging.machine.process_mem_pool P' ∧
        (Paging.directory_entry Paging.machine.memory Paging.machine.cr3 0x10000000
            &&& PTE_PRESENT ≠ 0 →
          P'.n_free_frames + 1 = Paging.process16.n_free_frames ∧
          ∀ x, Paging.process16.base_frame_no ≤ x → x ≠ D →
            P'.frame_status x = Paging.process16.frame_status x) ∧
        (Paging.directory_entry Paging.machine.memory Paging.machine.cr3 0x10000000
            &&& PTE_PRESENT = 0 →
          ∃ T, T ≠ D ∧ Paging.process16.base_frame_no ≤ T ∧
            T < Paging.process16.base_frame_no + Paging.process16.n_frames ∧
            Paging.process16.frame_status T = FREE ∧ P'.frame_status T = HEAD_OF_SEQUENCE ∧
            Paging.directory_entry s'.memory s'.cr3 0x10000000
              = T * PAGE_SIZE ||| PTE_PRESENT ||| PTE_WRITE ∧
            P'.n_free_frames + 2 = Paging.process16.n_free_frames ∧
            ∀ x, Paging.process16.base_frame_no ≤ x → x ≠ D → x ≠ T →
              P'.frame_status x = Paging.process16.frame_status x) :=
  ⟨by decide, by decide, by decide, rfl, by decide, by decide, by decide,
    PageTable.scenario_b Paging.machine Paging.table513 0x10000000 Paging.process16
      (by decide) (by decide) (by decide) rfl (by decide) (by decide) (by decide) (by decide)
      (by decide) (by decide) (by decide) (by decide)⟩

/-- C22, counterexample: a fault at `0x10000000` on `machine`, where the directory entry of the
address is not present.  The kernel pool (position 1 of the list) keeps its 13 free frames and
the process pool (position 0) goes from 16 to 14: the frame of the new table comes from the
process pool. -/
theorem PageTable.handle_fault_kernel_pool_unchanged :
    Paging.directory_entry Paging.machine.memory Paging.machine.cr3 0x10000000
        &&& PTE_PRESENT = 0 ∧
      Paging.machine.process_mem_pool = 0 ∧ Paging.machine.kernel_mem_pool = 1 ∧
      Paging.machine.poolListHead.map (fun p => p.n_free_frames) = [16, 13] ∧
      (PageTable.handle_fault Paging.machine Paging.table513 0x10000000).map
          (fun r => r.1.poolListHead.map (fun p => p.n_free_frames)) = some [14, 13] ∧
      (PageTable.handle_fault Paging.machine Paging.table513 0x10000000).map
          (fun r => Paging.directory_entry r.1.memory r.1.cr3 0x10000000)
        = some (1024 * PAGE_SIZE ||| PTE_PRESENT ||| PTE_WRITE) := by
  decide

/-- C22, amended: when the directory entry of the fault address is not present, the frame of the
new second-level table is taken from the process frame pool, like the data frame: the process
pool loses two frames, the first of which becomes the table of the directory entry, and every
other pool of the list, the kernel pool among them, is left as it was. -/
theorem PageTable.handle_fault_table_frame (s : Paging) (t : PageTable) (addr : Nat)
    (P : ContFramePool) (hal : s.cr3 % 4096 = 0) (hlt : s.cr3 < 4294967296)
    (hs : Paging.SelfMapped s.memory s.cr3)
    (hP : s.poolListHead[s.process_mem_pool]? = some P) (hv : P.Valid)
    (hfree : P.n_free_frames ≤ P.n_frames)
    (hsmall : P.base_frame_no + P.n_frames ≤ 1048576)
    (hdir : s.cr3 / PAGE_SIZE < P.base_frame_no ∨
      P.base_frame_no + P.n_frames ≤ s.cr3 / PAGE_SIZE)
    (hp : Paging.directory_entry s.memory s.cr3 addr &&& PTE_PRESENT = 0)
    (hsup1 : P.get_frames_succeeds 1 = true)
    (hsup2 : (P.get_frames 1).2.get_frames_succeeds 1 = true) :
    ∃ s' P', (PageTable.handle_fault s t addr).map Prod.fst = some s' ∧
      s'.poolListHead = s.poolListHead.set s.process_mem_pool P' ∧
      (∀ k, k ≠ s.process_mem_pool → s'.poolListHead[k]? = s.poolListHead[k]?) ∧
      P'.n_free_frames + 2 = P.n_free_frames ∧
      P.base_frame_no ≤ (P.get_frames 1).1 ∧
      (P.get_frames 1).1 < P.base_frame_no + P.n_frames ∧
      P.frame_status (P.get_frames 1).1 = FREE ∧
      P'.frame_status (P.get_frames 1).1 = HEAD_OF_SEQUENCE ∧
      Paging.directory_entry s'.memory s'.cr3 addr
        = (P.get_frames 1).1 * PAGE_SIZE ||| PTE_PRESENT ||| PTE_WRITE := by
  have hPS : PAGE_SIZE = 4096 := rfl
  have hPP : PTE_PRESENT = 1 := rfl
  obtain ⟨a1, a2, a3, a4, a5, a6, a7, a8⟩ := Paging.get_frames_one P hv hfree hsup1
  obtain ⟨b1, b2, b3, b4, b5, b6, b7, b8⟩ :=
    Paging.get_frames_one (P.get_frames 1).2 a8 (by omega) hsup2
  rw [a6] at b1 b4
  have hne : (P.get_frames 1).1 ≠ s.cr3 / PAGE_SIZE := by omega
  have hpe : Paging.directory_entry s.memory s.cr3 addr % 2 = 0 := by
    rw [hPP, Paging.and_one_mod] at hp; exact hp
  obtain ⟨s', h1, h2, h3, h4, h5⟩ := PageTable.handle_fault_absent_entries s t addr P hal hlt
    hs hP (by omega) (by omega) hne hpe
  have hDT : ((P.get_frames 1).2.get_frames 1).1 ≠ (P.get_frames 1).1 := by
    intro h
    rw [h, a4 _ a1, if_pos rfl] at b3
    exact absurd b3 (by decide)
  refine ⟨s', ((P.get_frames 1).2.get_frames 1).2, h1, h3, ?_, by omega, a1, a2, a3, ?_, ?_⟩
  · intro k hk
    rw [h3, List.getElem?_set_ne (Ne.symm hk)]
  · rw [b4 _ a1, if_neg (Ne.symm hDT), a4 _ a1, if_pos rfl]
  · rw [h2, h4, Paging.or_flags _ (by rw [hPS]; omega)]

/-- Witness for C22 (amended): the fault at `0x10000000` on `machine`. -/
theorem PageTable.handle_fault_table_frame_witness :
    Paging.directory_entry Paging.machine.memory Paging.machine.cr3 0x10000000
        &&& PTE_PRESENT = 0 ∧
      Paging.process16.get_frames_succeeds 1 = true ∧
      (Paging.process16.get_frames 1).2.get_frames_succeeds 1 = true ∧
      ∃ s' P', (PageTable.handle_fault Paging.machine Paging.table513 0x10000000).map Prod.fst
          = some s' ∧
        s'.poolListHead = Paging.machine.poolListHead.set Paging.machine.process_mem_pool P' ∧
        (∀ k, k ≠ Paging.machine.process_mem_pool →
          s'.poolListHead[k]? = Paging.machine.poolListHead[k]?) ∧
        P'.n_free_frames + 2 = Paging.process16.n_free_frames ∧
        Paging.process16.base_frame_no ≤ (Paging.process16.get_frames 1).1 ∧
        (Paging.process16.get_frames 1).1
          < Paging.process16.base_frame_no + Paging.process16.n_frames ∧
        Paging.process16.frame_status (Paging.process16.get_frames 1).1 = FREE ∧
        P'.frame_status (Paging.process16.get_frames 1).1 = HEAD_OF_SEQUENCE ∧
        Paging.directory_entry s'.memory s'.cr3 0x10000000
          = (Paging.process16.get_frames 1).1 * PAGE_SIZE ||| PTE_PRESENT ||| PTE_WRITE :=
  ⟨by decide, by decide, by decide,
    PageTable.handle_fault_table_frame Paging.machine Paging.table513 0x10000000
      Paging.process16 (by decide) (by decide) (by decide) rfl (by decide) (by decide)
      (by decide) (by decide) (by decide) (by decide) (by decide)⟩
namespace PageTable
open Paging

/-- The machine that `handle_fault` leaves does not depend on the page table object, that is,
on the registered pools: the lookup only decides about a message. -/
theorem handle_fault_registry (s : Paging) (t t' : PageTable) (addr : Nat) :
    (handle_fault s t addr).map Prod.fst = (handle_fault s t' addr).map Prod.fst := by
  simp only [handle_fault]
  cases vread s.memory s.cr3 (0xFFFFF000 + 4 * ((addr >>> PD_SHIFT) &&& 0x3FF)) with
  | none => rfl
  | some pde =>
    simp only []
    split
    · rfl
    · split
      · rfl
      · split
        · rfl
        · split
          · rfl
          · rfl

end PageTable

/-- C23: a fault at `0x10002000`, an address of the registered region, on `machine_full`, whose
process pool has no FREE frame: the directory entry is present, the table entry is not,
`get_frames(1)` returns 0, and `handle_fault` prints its message and returns with the table
entry `0 | PTE_PRESENT | PTE_WRITE`, a present mapping to frame 0. -/
theorem PageTable.handle_fault_exhausted_maps_frame_zero :
    (Paging.process16_full.get_frames 1).1 = 0 ∧
      VMPool.fresh_pool.is_legitimate 0x10002000 = true ∧
      Paging.directory_entry Paging.machine_full.memory Paging.machine_full.cr3 0x10002000
        &&& PTE_PRESENT ≠ 0 ∧
      Paging.table_entry Paging.machine_full.memory Paging.machine_full.cr3 0x10002000
        &&& PTE_PRESENT = 0 ∧
      (PageTable.handle_fault Paging.machine_full Paging.table513_registered 0x10002000).map
          (fun r => (Paging.table_entry r.1.memory r.1.cr3 0x10002000, r.2))
        = some (0 * PAGE_SIZE ||| PTE_PRESENT ||| PTE_WRITE, [Diagnostic.failed_to_get_frame]) ∧
      (PageTable.handle_fault Paging.machine_full Paging.table513_registered 0x10002000).map
          (fun r => Paging.translate r.1.memory r.1.cr3 0x10002000)
        = some (some 0) := by
  decide

/-- C24: a fault at `0x20000000` on `machine`, with a page table whose only registered pool
does not contain the address.  The handler prints the message and goes on: it takes two frames
from the process pool (16 free frames before, 14 after) and installs the directory entry and
the table entry, both present.  In general the machine that `handle_fault` leaves is the same
whatever pools are registered. -/
theorem PageTable.handle_fault_unattributable_maps :
    (Paging.table513_registered.vm_pool_no = 0 ∧
      (Paging.table513_registered.registered_vm_pools 0).is_legitimate 0x20000000 = false ∧
      Paging.directory_entry Paging.machine.memory Paging.machine.cr3 0x20000000 = 0 ∧
      Paging.machine.poolListHead.map (fun p => p.n_free_frames) = [16, 13] ∧
      (PageTable.handle_fault Paging.machine Paging.table513_registered 0x20000000).map
          (fun r => (r.2, r.1.poolListHead.map (fun p => p.n_free_frames),
            Paging.directory_entry r.1.memory r.1.cr3 0x20000000,
            Paging.table_entry r.1.memory r.1.cr3 0x20000000))
        = some ([Diagnostic.failed_to_get_vm_pool], [14, 13],
            1024 * PAGE_SIZE ||| PTE_PRESENT ||| PTE_WRITE,
            1025 * PAGE_SIZE ||| PTE_PRESENT ||| PTE_WRITE)) ∧
      ∀ (s : Paging) (t t' : PageTable) (addr : Nat),
        (PageTable.handle_fault s t addr).map Prod.fst
          = (PageTable.handle_fault s t' addr).map Prod.fst :=
  ⟨by decide, PageTable.handle_fault_registry⟩
namespace PageTable

/-- The result of `register_pool` while the next index lies inside the array. -/
theorem register_pool_stored (capacity : Nat) (t : PageTable) (v : VMPool)
    (h0 : -1 ≤ t.vm_pool_no) (hc : t.vm_pool_no + 1 < (capacity : Int)) :
    register_pool capacity t v = Registered.stored
      { t with
        vm_pool_no := t.vm_pool_no + 1
        registered_vm_pools := fun k =>
          if k = (t.vm_pool_no + 1).toNat then v else t.registered_vm_pools k } := by
  simp only [register_pool]
  rw [if_pos ⟨by omega, hc⟩]

/-- The result of `register_pool` when the next index lies behind the array. -/
theorem register_pool_out_of_bounds (capacity : Nat) (t : PageTable) (v : VMPool)
    (hc : (capacity : Int) ≤ t.vm_pool_no + 1) :
    register_pool capacity t v = Registered.out_of_bounds (t.vm_pool_no + 1) v := by
  simp only [register_pool]
  rw [if_neg (by omega)]

theorem register_all_spec (capacity : Nat) (pools : List VMPool) :
    ∀ (t : PageTable), -1 ≤ t.vm_pool_no →
      t.vm_pool_no + 1 + (pools.length : Int) ≤ (capacity : Int) →
      ∃ t1, register_all capacity t pools = Registered.stored t1 ∧
        t1.page_directory = t.page_directory ∧
        t1.vm_pool_no = t.vm_pool_no + pools.length ∧
        (∀ k (hk : k < pools.length),
          t1.registered_vm_pools ((t.vm_pool_no + 1).toNat + k) = pools[k]) ∧
        ∀ j, j < (t.vm_pool_no + 1).toNat →
          t1.registered_vm_pools j = t.registered_vm_pools j := by
  induction pools with
  | nil =>
    intro t _ _
    exact ⟨t, rfl, rfl, by simp, fun k hk => absurd hk (by simp), fun _ _ => rfl⟩
  | cons v vs ih =>
    intro t ht hcap
    rw [List.length_cons] at hcap
    push_cast at hcap
    have hst := register_pool_stored capacity t v ht (by omega)
    obtain ⟨t1, h0, hd, h1, h2, h3⟩ := ih
      { t with
        vm_pool_no := t.vm_pool_no + 1
        registered_vm_pools := fun k =>
          if k = (t.vm_pool_no + 1).toNat then v else t.registered_vm_pools k }
      (by simp only []; omega) (by simp only []; omega)
    simp only [] at h1 h2 h3 hd
    have e : (t.vm_pool_no + 1 + 1).toNat = (t.vm_pool_no + 1).toNat + 1 := by omega
    refine ⟨t1, ?_, hd, ?_, ?_, ?_⟩
    · simp only [register_all, hst]
      exact h0
    · rw [h1, List.length_cons]; push_cast; omega
    · intro k hk
      cases k with
      | zero =>
        rw [h3 _ (by omega)]
        simp
      | succ k =>
        have := h2 k (by simpa using hk)
        rw [e] at this
        rw [show (t.vm_pool_no + 1).toNat + (k + 1) = (t.vm_pool_no + 1).toNat + 1 + k by omega]
        simpa using this
    · intro j hj
      rw [h3 j (by omega)]
      exact if_neg (by omega)

end PageTable

/-- C29, counterexample: `register_pool` does not halt when the registry is full.  With an
array of length 1 and `table513_registered`, where one pool is registered, the call increments
the counter to 1 and stores behind the array, at index 1.  In general, for every length
`capacity` of the array and every page table with `vm_pool_no` from -1 on, the call runs to its
end: with fewer than `capacity` pools registered it stores into the array, and otherwise (so
when `capacity` pools are registered) it stores behind the array, at the index that the
incremented counter gives. -/
theorem PageTable.register_pool_never_halts :
    (PageTable.register_pool 1 Paging.table513_registered VMPool.fresh_pool_3
        = PageTable.Registered.out_of_bounds 1 VMPool.fresh_pool_3 ∧
      Paging.table513_registered.vm_pool_no + 1 = 1) ∧
      ∀ (capacity : Nat) (t : PageTable) (v : VMPool), -1 ≤ t.vm_pool_no →
        (t.vm_pool_no + 1 < (capacity : Int) →
          PageTable.register_pool capacity t v
            = PageTable.Registered.stored
                { t with
                  vm_pool_no := t.vm_pool_no + 1
                  registered_vm_pools := fun k =>
                    if k = (t.vm_pool_no + 1).toNat then v else t.registered_vm_pools k }) ∧
        ((capacity : Int) ≤ t.vm_pool_no + 1 →
          PageTable.register_pool capacity t v
            = PageTable.Registered.out_of_bounds (t.vm_pool_no + 1) v) :=
  ⟨⟨rfl, rfl⟩, fun capacity t v h0 =>
    ⟨fun h => PageTable.register_pool_stored capacity t v h0 h,
      fun h => PageTable.register_pool_out_of_bounds capacity t v h⟩⟩

/-- C29, amended: with `capacity` the declared length of the array `registered_vm_pools`, the
calls of `register_pool` for a list of at most `capacity` pools on a newly constructed page
table all store into the array: afterwards `vm_pool_no` is the number of calls minus one and
the pool of call number `k + 1` is at index `k`, for every `k`, so no call has changed an
earlier entry.  There is no capacity check: when `capacity` pools are registered, the next call
does not halt; it increments `vm_pool_no` to `capacity` and stores the pool at that index,
behind the end of the array. -/
theorem PageTable.register_pool_appends (capacity : Nat) (s : Paging)
    (registry : Nat → VMPool) (pools : List VMPool) (v : VMPool) (k : Nat)
    (hcap : pools.length ≤ capacity) (hk : k < pools.length) :
    ∃ t, PageTable.register_all capacity (PageTable.construct s registry).2 pools
          = PageTable.Registered.stored t ∧
      t.vm_pool_no = (pools.length : Int) - 1 ∧
      t.registered_vm_pools k = pools[k] ∧
      (pools.length = capacity →
        PageTable.register_pool capacity t v
          = PageTable.Registered.out_of_bounds (capacity : Int) v) := by
  have h0 : (PageTable.construct s registry).2.vm_pool_no = -1 := rfl
  obtain ⟨t, h1, _, h2, h3, _⟩ := PageTable.register_all_spec capacity pools
    (PageTable.construct s registry).2 (by rw [h0]) (by rw [h0]; omega)
  rw [h0] at h2 h3
  refine ⟨t, h1, by rw [h2]; omega, ?_, ?_⟩
  · have := h3 k hk
    simpa using this
  · intro hfull
    rw [PageTable.register_pool_out_of_bounds capacity t v (by rw [h2]; omega)]
    have e : t.vm_pool_no + 1 = (capacity : Int) := by rw [h2]; omega
    rw [e]

/-- Witness for C29 (amended): an array of length 2 and two pools registered on the page table
constructed on `machine`; the second one is at index 1, and a third call stores behind the
array. -/
theorem PageTable.register_pool_appends_witness :
    [VMPool.fresh_pool, VMPool.fresh_pool_3].length ≤ 2 ∧
      1 < [VMPool.fresh_pool, VMPool.fresh_pool_3].length ∧
      ∃ t, PageTable.register_all 2
            (PageTable.construct Paging.machine (fun _ => VMPool.fresh_pool)).2
            [VMPool.fresh_pool, VMPool.fresh_pool_3]
          = PageTable.Registered.stored t ∧
        t.vm_pool_no = 1 ∧
        t.registered_vm_pools 1 = VMPool.fresh_pool_3 ∧
        ([VMPool.fresh_pool, VMPool.fresh_pool_3].length = 2 →
          PageTable.register_pool 2 t VMPool.fresh_pool_16m
            = PageTable.Registered.out_of_bounds 2 VMPool.fresh_pool_16m) :=
  ⟨by decide, by decide,
    PageTable.register_pool_appends 2 Paging.machine (fun _ => VMPool.fresh_pool)
      [VMPool.fresh_pool, VMPool.fresh_pool_3] VMPool.fresh_pool_16m 1 (by decide) (by decide)⟩

namespace File

/-- The loop of `Write` from position `last < 512`: with `n` characters that end before the end
of the block it stores them all and `i = n`; with more it stops at position 512 and `i` is one
less than the number of characters stored. -/
theorem Write_loop_spec (_buf : Nat → Nat) (n : Nat) :
    ∀ (s : WriteState), s.last < 512 →
      (Write_loop _buf n s).last = min (s.last + n) 512 ∧
      (Write_loop _buf n s).i
        = if s.last + n < 512 then s.i + n else s.i + (512 - s.last) - 1 := by
  induction n with
  | zero =>
    intro s hs
    simp only [Write_loop, Nat.add_zero, if_pos hs]
    exact ⟨by omega, trivial⟩
  | succ n ih =>
    intro s hs
    by_cases hend : s.last + 1 ≥ 512
    · have hc : s.last + 1 ≥ 512 ∧ n + 1 > 0 := ⟨hend, by omega⟩
      simp only [Write_loop, if_pos hc]
      rw [if_neg (by omega)]
      exact ⟨by omega, by omega⟩
    · have hc : ¬ (s.last + 1 ≥ 512 ∧ n + 1 > 0) := fun h => hend h.1
      simp only [Write_loop, if_neg hc]
      obtain ⟨h1, h2⟩ := ih ⟨write_word s.buf s.last (u8 (_buf s.i)), s.last + 1,
        if s.last + 1 > s.size then s.size + 1 else s.size, s.i + 1⟩ (by simp only []; omega)
      simp only [] at h1 h2
      rw [h1, h2]
      refine ⟨by omega, ?_⟩
      by_cases hlt : s.last + (n + 1) < 512
      · rw [if_pos (by omega), if_pos hlt]; omega
      · rw [if_neg (by omega), if_neg hlt]; omega

end File

/-- C30: `Write(1, buf)` on `file511`, whose position is 511.  The character is stored at byte
511 of the block and the position advances by one, to 512, but the value returned is 0.  In
the same way `Write(5, buf)` at position 510 stores two characters and returns 1. -/
theorem File.Write_returns_one_less :
    (File.Write File.file511 (fun _ _ => 0) 1 (fun _ => 120)).1 = 0 ∧
      (File.Write File.file511 (fun _ _ => 0) 1 (fun _ => 120)).2.1.last = File.file511.last + 1 ∧
      (File.Write File.file511 (fun _ _ => 0) 1 (fun _ => 120)).2.2 3 511 = 120 ∧
      (File.Write File.file510 (fun _ _ => 0) 5 (fun _ => 120)).1 = 1 ∧
      (File.Write File.file510 (fun _ _ => 0) 5 (fun _ => 120)).2.1.last = File.file510.last + 2 ∧
      (File.Write File.file510 (fun _ _ => 0) 5 (fun _ => 120)).2.2 3 510 = 120 ∧
      (File.Write File.file510 (fun _ _ => 0) 5 (fun _ => 120)).2.2 3 511 = 120 := by
  decide
namespace PageTable
open Paging

/-- What the directory loop of the constructor leaves in memory: the words `i .. i + n - 1` of
the directory hold `mask | PTE_WRITE`, every other word is as before. -/
theorem construct_directory_read (pd mask : Nat) (n : Nat) :
    ∀ (i : Nat) (memory : Nat → Nat) (a : Nat),
      construct_directory pd mask n i memory a
        = if pd + 4 * i ≤ a ∧ a < pd + 4 * (i + n) ∧ (a - pd) % 4 = 0 then mask ||| PTE_WRITE
          else memory a := by
  induction n with
  | zero =>
    intro i memory a
    simp only [construct_directory]
    rw [if_neg (by omega)]
  | succ n ih =>
    intro i memory a
    simp only [construct_directory]
    rw [ih]
    by_cases h : pd + 4 * (i + 1) ≤ a ∧ a < pd + 4 * (i + 1 + n) ∧ (a - pd) % 4 = 0
    · rw [if_pos h, if_pos (by omega)]
    · rw [if_neg h]
      by_cases ha : a = pd + 4 * i
      · rw [ha, write_word_same, if_pos (by omega)]
      · rw [write_word_other _ _ _ _ ha, if_neg (by omega)]

/-- What the loop over the direct-mapped table leaves in memory: word `i + k` of the table, for
`k < n`, holds the address `mask + k * PAGE_SIZE` (in 32 bits) with both flags, every other word
is as before. -/
theorem construct_shared_read (tbl : Nat) (n : Nat) :
    ∀ (i mask : Nat) (memory : Nat → Nat) (a : Nat), mask < 4294967296 →
      construct_shared tbl n i mask memory a
        = if tbl + 4 * i ≤ a ∧ a < tbl + 4 * (i + n) ∧ (a - tbl) % 4 = 0 then
            u32 (mask + ((a - tbl) / 4 - i) * PAGE_SIZE) ||| PTE_PRESENT ||| PTE_WRITE
          else memory a := by
  induction n with
  | zero =>
    intro i mask memory a _
    simp only [construct_shared]
    rw [if_neg (by omega)]
  | succ n ih =>
    intro i mask memory a hm
    simp only [construct_shared]
    rw [ih _ _ _ _ (by unfold u32; omega)]
    by_cases h : tbl + 4 * (i + 1) ≤ a ∧ a < tbl + 4 * (i + 1 + n) ∧ (a - tbl) % 4 = 0
    · rw [if_pos h, if_pos (by omega)]
      have e : u32 (u32 (mask + PAGE_SIZE) + ((a - tbl) / 4 - (i + 1)) * PAGE_SIZE)
          = u32 (mask + ((a - tbl) / 4 - i) * PAGE_SIZE) := by
        unfold u32 PAGE_SIZE
        have : (a - tbl) / 4 - i = ((a - tbl) / 4 - (i + 1)) + 1 := by omega
        rw [this]
        omega
      rw [e]
    · rw [if_neg h]
      by_cases ha : a = tbl + 4 * i
      · rw [ha, write_word_same, if_pos (by omega)]
        have e : (tbl + 4 * i - tbl) / 4 - i = 0 := by omega
        rw [e]
        have : u32 (mask + 0 * PAGE_SIZE) = mask := by unfold u32; omega
        rw [this]
      · rw [write_word_other _ _ _ _ ha, if_neg (by omega)]

/-- After the constructor, the directory entries `1 .. shared_frames - 1` other than entry 1023
hold `PTE_WRITE`. -/
theorem construct_directory_entry (s : Paging) (registry : Nat → VMPool) (i : Nat)
    (h1 : 1 ≤ i) (h2 : i < s.shared_size / PAGE_SIZE) (h3 : i ≠ 1023) :
    (construct s registry).1.memory ((construct s registry).2.page_directory + 4 * i)
      = PTE_WRITE := by
  simp only [construct]
  rw [write_word_other _ _ _ _ (by omega), construct_directory_read, if_pos (by omega)]
  rfl

/-- After the constructor, the directory entries from `shared_frames` on, other than entry 1023,
hold what the memory held before, when the directory and the table are different frames. -/
theorem construct_directory_rest (s : Paging) (registry : Nat → VMPool) (i : Nat)
    (h1 : 1 ≤ i) (h2 : s.shared_size / PAGE_SIZE ≤ i) (h3 : i < 1023)
    (hsh : s.shared_size / PAGE_SIZE ≤ 1024)
    (hf1 : (Paging.get_frames s.poolListHead s.kernel_mem_pool 1).1 < 1048576)
    (hf2 : (Paging.get_frames (Paging.get_frames s.poolListHead s.kernel_mem_pool 1).2
        s.kernel_mem_pool 1).1 < 1048576) :
    (construct s registry).1.memory ((construct s registry).2.page_directory + 4 * i)
      = s.memory ((construct s registry).2.page_directory + 4 * i) := by
  simp only [construct, PAGE_DIRECTORY_SIZE, PAGE_TABLE_SIZE]
  generalize (Paging.get_frames (Paging.get_frames s.poolListHead s.kernel_mem_pool 1).2
        s.kernel_mem_pool 1).1 = f2 at *
  generalize (Paging.get_frames s.poolListHead s.kernel_mem_pool 1).1 = f1 at *
  have e1 : u32 (f1 * PAGE_SIZE) = f1 * 4096 := by unfold u32 PAGE_SIZE; omega
  have e2 : u32 (f2 * PAGE_SIZE) = f2 * 4096 := by unfold u32 PAGE_SIZE; omega
  rw [e1, e2]
  rw [write_word_other _ _ _ _ (by omega), construct_directory_read, if_neg (by omega),
    write_word_other _ _ _ _ (by omega), construct_shared_read _ _ _ _ _ _ (by decide),
    if_neg (by omega)]

end PageTable
namespace PageTable
open Paging

/-- After the constructor with at most 1024 shared frames and two different frames for the
directory and the table: entry 0 of the directory is the table with both flags, and word `k` of
the table, for `k` below the number of shared frames, is the address of frame `k` with both
flags. -/
theorem construct_identity (s : Paging) (registry : Nat → VMPool) (k : Nat)
    (hsh : s.shared_size / PAGE_SIZE ≤ 1024) (hk : k < s.shared_size / PAGE_SIZE)
    (hne : (Paging.get_frames s.poolListHead s.kernel_mem_pool 1).1
      ≠ (Paging.get_frames (Paging.get_frames s.poolListHead s.kernel_mem_pool 1).2
        s.kernel_mem_pool 1).1)
    (hf1 : (Paging.get_frames s.poolListHead s.kernel_mem_pool 1).1 < 1048576)
    (hf2 : (Paging.get_frames (Paging.get_frames s.poolListHead s.kernel_mem_pool 1).2
        s.kernel_mem_pool 1).1 < 1048576) :
    (construct s registry).2.page_directory
        = (Paging.get_frames s.poolListHead s.kernel_mem_pool 1).1 * PAGE_SIZE ∧
      (construct s registry).1.memory (construct s registry).2.page_directory
        = (Paging.get_frames (Paging.get_frames s.poolListHead s.kernel_mem_pool 1).2
            s.kernel_mem_pool 1).1 * PAGE_SIZE + 3 ∧
      (construct s registry).1.memory
          ((Paging.get_frames (Paging.get_frames s.poolListHead s.kernel_mem_pool 1).2
            s.kernel_mem_pool 1).1 * PAGE_SIZE + 4 * k)
        = k * PAGE_SIZE + 3 := by
  simp only [construct, PAGE_DIRECTORY_SIZE, PAGE_TABLE_SIZE]
  generalize (Paging.get_frames (Paging.get_frames s.poolListHead s.kernel_mem_pool 1).2
        s.kernel_mem_pool 1).1 = f2 at *
  generalize (Paging.get_frames s.poolListHead s.kernel_mem_pool 1).1 = f1 at *
  have hPS : PAGE_SIZE = 4096 := rfl
  have e1 : u32 (f1 * PAGE_SIZE) = f1 * 4096 := by unfold u32 PAGE_SIZE; omega
  have e2 : u32 (f2 * PAGE_SIZE) = f2 * 4096 := by unfold u32 PAGE_SIZE; omega
  rw [e1, e2, hPS]
  rw [hPS] at hk hsh
  refine ⟨rfl, ?_, ?_⟩
  · rw [write_word_other _ _ _ _ (by omega), construct_directory_read, if_neg (by omega),
      write_word_same, or_flags _ (by omega)]
  · rw [write_word_other _ _ _ _ (by omega), construct_directory_read, if_neg (by omega),
      write_word_other _ _ _ _ (by omega), construct_shared_read _ _ _ _ _ _ (by decide),
      if_pos (by omega)]
    have e3 : (f2 * 4096 + 4 * k - f2 * 4096) / 4 - 0 = k := by omega
    have e4 : u32 (0 + k * PAGE_SIZE) = k * 4096 := by unfold u32 PAGE_SIZE; omega
    rw [e3, e4, or_flags _ (by omega)]

end PageTable

/-- C26, counterexample: with `shared_size` of 8 MiB the address `0x400000` lies in the shared
region, but after the constructor its directory entry (entry 1) is `PTE_WRITE`: not present. -/
theorem PageTable.construct_shared_beyond_one_table :
    (Paging.machine_new 0x800000 (fun _ => 0)).shared_size % PAGE_SIZE = 0 ∧
      0x400000 < (Paging.machine_new 0x800000 (fun _ => 0)).shared_size ∧
      Paging.directory_entry
          (PageTable.construct (Paging.machine_new 0x800000 (fun _ => 0))
            (fun _ => VMPool.fresh_pool)).1.memory
          (PageTable.construct (Paging.machine_new 0x800000 (fun _ => 0))
            (fun _ => VMPool.fresh_pool)).2.page_directory 0x400000 = PTE_WRITE ∧
      PTE_WRITE &&& PTE_PRESENT = 0 := by
  refine ⟨by decide, by decide, ?_, by decide⟩
  rw [Paging.directory_entry_eq]
  exact PageTable.construct_directory_entry _ _ 1 (by decide) (by decide) (by decide)

/-- C26, amended: the shared region is identity-mapped at construction when `shared_size`, a
multiple of `PAGE_SIZE`, is at most 4 MiB (what the one direct-mapped table covers) and the
kernel pool supplies the two frames.  For every address `a < shared_size`, after the
constructor the directory entry of `a` is entry 0, which is the shared table with the present
and the write bit, the table entry of `a` is `(a rounded down to its page) | present | write`,
and the translation of `a` through the new directory is `a`. -/
theorem PageTable.construct_identity_mapped (s : Paging) (registry : Nat → VMPool)
    (K : ContFramePool) (a : Nat)
    (hK : s.poolListHead[s.kernel_mem_pool]? = some K) (hv : K.Valid)
    (hfree : K.n_free_frames ≤ K.n_frames)
    (hsmall : K.base_frame_no + K.n_frames ≤ 1048576)
    (hsup1 : K.get_frames_succeeds 1 = true)
    (hsup2 : (K.get_frames 1).2.get_frames_succeeds 1 = true)
    (hmul : s.shared_size % PAGE_SIZE = 0) (hmax : s.shared_size ≤ 0x400000)
    (ha : a < s.shared_size) :
    (a >>> PD_SHIFT) &&& 0x3FF = 0 ∧
      Paging.directory_entry (PageTable.construct s registry).1.memory
          (PageTable.construct s registry).2.page_directory a
        = ((K.get_frames 1).2.get_frames 1).1 * PAGE_SIZE ||| PTE_PRESENT ||| PTE_WRITE ∧
      Paging.present_write (Paging.directory_entry (PageTable.construct s registry).1.memory
          (PageTable.construct s registry).2.page_directory a) ∧
      Paging.table_entry (PageTable.construct s registry).1.memory
          (PageTable.construct s registry).2.page_directory a
        = a / PAGE_SIZE * PAGE_SIZE ||| PTE_PRESENT ||| PTE_WRITE ∧
      Paging.translate (PageTable.construct s registry).1.memory
          (PageTable.construct s registry).2.page_directory a = some a := by
  have hPS : PAGE_SIZE = 4096 := rfl
  obtain ⟨a1, a2, a3, a4, a5, a6, a7, a8⟩ := Paging.get_frames_one K hv hfree hsup1
  obtain ⟨b1, b2, b3, b4, b5, b6, b7, b8⟩ :=
    Paging.get_frames_one (K.get_frames 1).2 a8 (by omega) hsup2
  rw [a6] at b1
  rw [a6, a7] at b2
  have hDT : (K.get_frames 1).1 ≠ ((K.get_frames 1).2.get_frames 1).1 := by
    intro h
    rw [← h, a4 _ a1, if_pos rfl] at b3
    exact absurd b3 (by decide)
  have hg1 := Paging.get_frames_at s.poolListHead s.kernel_mem_pool 1 K hK
  have hg2 := Paging.get_frames_at (s.poolListHead.set s.kernel_mem_pool (K.get_frames 1).2)
    s.kernel_mem_pool 1 (K.get_frames 1).2 (Paging.getElem?_set_self _ _ K _ hK)
  rw [hPS] at hmul
  have hk : a / 4096 < s.shared_size / PAGE_SIZE := by rw [hPS]; omega
  obtain ⟨c1, c2, c3⟩ := PageTable.construct_identity s registry (a / 4096)
    (by rw [hPS]; omega) hk (by rw [hg1]; simp only []; rw [hg2]; exact hDT)
    (by rw [hg1]; simp only []; omega) (by rw [hg1]; simp only []; rw [hg2]; simp only []; omega)
  rw [hg1] at c1 c2 c3
  simp only [] at c1 c2 c3
  rw [hg2] at c2 c3
  simp only [] at c2 c3
  have i0 : a / 4194304 % 1024 = 0 := by omega
  have i1 : a / 4096 % 1024 = a / 4096 := by omega
  have hd : Paging.directory_entry (PageTable.construct s registry).1.memory
      (PageTable.construct s registry).2.page_directory a
      = ((K.get_frames 1).2.get_frames 1).1 * PAGE_SIZE + 3 := by
    rw [Paging.directory_entry_eq, i0, Nat.mul_zero, Nat.add_zero]; exact c2
  have ht : Paging.table_entry (PageTable.construct s registry).1.memory
      (PageTable.construct s registry).2.page_directory a = a / 4096 * PAGE_SIZE + 3 := by
    rw [Paging.table_entry_eq, i0, i1, Nat.mul_zero, Nat.add_zero, c2]
    have e : (((K.get_frames 1).2.get_frames 1).1 * PAGE_SIZE + 3) % 4294967296 / 4096 * 4096
        = ((K.get_frames 1).2.get_frames 1).1 * PAGE_SIZE := by rw [hPS]; omega
    rw [e]; exact c3
  refine ⟨?_, ?_, ?_, ?_, ?_⟩
  · simp only [PD_SHIFT, Paging.shr22, Paging.and_3ff]; exact i0
  · rw [hd, Paging.or_flags _ (by rw [hPS]; omega)]
  · rw [hd, Paging.present_write_iff, hPS]; omega
  · rw [ht, hPS, Paging.or_flags _ (by omega)]
  · have hd2 := hd
    have ht2 := ht
    rw [Paging.directory_entry_eq] at hd2
    rw [Paging.table_entry_eq] at ht2
    have i2 : a / 4194304 = 0 := by omega
    rw [i0, Nat.mul_zero, Nat.add_zero] at hd2
    rw [i0, i1, Nat.mul_zero, Nat.add_zero, hd2] at ht2
    have e4 : (((K.get_frames 1).2.get_frames 1).1 * PAGE_SIZE + 3) % 2 ≠ 0 := by
      rw [hPS]; omega
    have e5 : (a / 4096 * PAGE_SIZE + 3) % 2 ≠ 0 := by rw [hPS]; omega
    have e6 : (a / 4096 * PAGE_SIZE + 3) % 4294967296 / 4096 * 4096 + a % 4096 = a := by
      rw [hPS]; omega
    simp only [Paging.translate, Paging.shr22, Paging.shr12, Paging.and_3ff, Paging.and_fff,
      Paging.and_one_mod, Paging.and_frame, i2, i1, Nat.mul_zero, Nat.add_zero, hd2, ht2,
      if_neg e4, if_neg e5, e6]

/-- Witness for C26 (amended): `shared_size` of 4 MiB, the kernel pool `pool16_new`, and the
address `0x5000`. -/
theorem PageTable.construct_identity_mapped_witness :
    ContFramePool.pool16_new.Valid ∧ ContFramePool.pool16_new.get_frames_succeeds 1 = true ∧
      (ContFramePool.pool16_new.get_frames 1).2.get_frames_succeeds 1 = true ∧
      (Paging.machine_new 0x400000 (fun _ => 0)).shared_size % PAGE_SIZE = 0 ∧
      0x5000 < (Paging.machine_new 0x400000 (fun _ => 0)).shared_size ∧
      ((0x5000 >>> PD_SHIFT) &&& 0x3FF = 0 ∧
      Paging.directory_entry
          (PageTable.construct (Paging.machine_new 0x400000 (fun _ => 0))
            (fun _ => VMPool.fresh_pool)).1.memory
          (PageTable.construct (Paging.machine_new 0x400000 (fun _ => 0))
            (fun _ => VMPool.fresh_pool)).2.page_directory 0x5000
        = ((ContFramePool.pool16_new.get_frames 1).2.get_frames 1).1 * PAGE_SIZE
          ||| PTE_PRESENT ||| PTE_WRITE ∧
      Paging.present_write (Paging.directory_entry
          (PageTable.construct (Paging.machine_new 0x400000 (fun _ => 0))
            (fun _ => VMPool.fresh_pool)).1.memory
          (PageTable.construct (Paging.machine_new 0x400000 (fun _ => 0))
            (fun _ => VMPool.fresh_pool)).2.page_directory 0x5000) ∧
      Paging.table_entry
          (PageTable.construct (Paging.machine_new 0x400000 (fun _ => 0))
            (fun _ => VMPool.fresh_pool)).1.memory
          (PageTable.construct (Paging.machine_new 0x400000 (fun _ => 0))
            (fun _ => VMPool.fresh_pool)).2.page_directory 0x5000
        = 0x5000 / PAGE_SIZE * PAGE_SIZE ||| PTE_PRESENT ||| PTE_WRITE ∧
      Paging.translate
          (PageTable.construct (Paging.machine_new 0x400000 (fun _ => 0))
            (fun _ => VMPool.fresh_pool)).1.memory
          (PageTable.construct (Paging.machine_new 0x400000 (fun _ => 0))
            (fun _ => VMPool.fresh_pool)).2.page_directory 0x5000 = some 0x5000) :=
  ⟨by decide, by decide, by decide, by decide, by decide,
    PageTable.construct_identity_mapped (Paging.machine_new 0x400000 (fun _ => 0))
      (fun _ => VMPool.fresh_pool) ContFramePool.pool16_new 0x5000 rfl (by decide) (by decide)
      (by decide) (by decide) (by decide) (by decide) (by decide) (by decide)⟩

/-- C27: the constructor with `shared_size` of two pages, on a memory in which word 5 of the
frame that becomes the directory holds `0xABC007`.  The loop over the directory stops at
`shared_frames`, here 2, so entry 5 keeps its prior contents, with the present bit set; on a
zeroed memory the same entry is left 0, without the write bit. -/
theorem PageTable.construct_directory_loop_bound :
    (Paging.machine_new 0x2000 (fun _ => 0)).shared_size / PAGE_SIZE = 2 ∧
      (PageTable.construct (Paging.machine_new 0x2000
          (write_word (fun _ => 0) (0x201000 + 4 * 5) 0xABC007))
        (fun _ => VMPool.fresh_pool)).2.page_directory = 0x201000 ∧
      (PageTable.construct (Paging.machine_new 0x2000
          (write_word (fun _ => 0) (0x201000 + 4 * 5) 0xABC007))
        (fun _ => VMPool.fresh_pool)).1.memory (0x201000 + 4 * 5) = 0xABC007 ∧
      0xABC007 &&& PTE_PRESENT ≠ 0 ∧
      (PageTable.construct (Paging.machine_new 0x2000 (fun _ => 0))
        (fun _ => VMPool.fresh_pool)).1.memory (0x201000 + 4 * 5) = 0 ∧
      (PageTable.construct (Paging.machine_new 0x2000 (fun _ => 0))
        (fun _ => VMPool.fresh_pool)).1.memory (0x201000 + 4 * 1) = PTE_WRITE := by
  decide
namespace PageTable
open Paging

/-- The function `free_page` on a self-mapped directory whose entry for the address is present:
the table entry loses the present bit and its frame number goes to `release_frames`. -/
theorem free_page_spec (s : Paging) (a : Nat)
    (hal : s.cr3 % 4096 = 0) (hlt : s.cr3 < 4294967296) (hs : SelfMapped s.memory s.cr3)
    (hp : directory_entry s.memory s.cr3 a % 2 = 1) :
    free_page s a
      = (ContFramePool.release_frames s.poolListHead
          (table_entry s.memory s.cr3 a / PAGE_SIZE)).map
        (fun l => { s with
          memory := write_word s.memory
            (directory_entry s.memory s.cr3 a % 4294967296 / 4096 * 4096
              + 4 * (a / 4096 % 1024))
            (table_entry s.memory s.cr3 a &&& not32 PTE_PRESENT)
          poolListHead := l }) := by
  rw [table_entry_eq]
  rw [directory_entry_eq] at hp ⊢
  have hpd : a / 4194304 % 1024 < 1024 := Nat.mod_lt _ (by decide)
  have hpt : a / 4096 % 1024 < 1024 := Nat.mod_lt _ (by decide)
  have t2 := translate_table s.memory s.cr3 _ _ hal hlt hs hpd hpt
  rw [if_neg (by omega)] at t2
  simp only [free_page, PD_SHIFT, PT_SHIFT, shr22, shr12, and_3ff, vread, vwrite, t2,
    Option.map_some']
  cases ContFramePool.release_frames s.poolListHead
      (s.memory (s.memory (s.cr3 + 4 * (a / 4194304 % 1024)) % 4294967296 / 4096 * 4096
        + 4 * (a / 4096 % 1024)) / PAGE_SIZE) with
  | none => rfl
  | some l => rfl

/-- Clearing the present bit of a 32-bit entry that has it: the bit is clear afterwards and
setting it again gives the entry back. -/
theorem clear_present (e : Nat) (he : e < 4294967296) (hp : e % 2 = 1) :
    (e &&& not32 PTE_PRESENT) &&& PTE_PRESENT = 0 ∧
      (e &&& not32 PTE_PRESENT) ||| PTE_PRESENT = e := by
  rw [and_not_present]
  have hPP : PTE_PRESENT = 1 := rfl
  rw [hPP, and_one_mod]
  refine ⟨by omega, ?_⟩
  have := Nat.mul_add_lt_is_or (show 1 < 2 ^ 1 by decide) (e / 2)
  have e1 : e % 4294967296 / 2 * 2 = 2 ^ 1 * (e / 2) := by omega
  rw [e1, ← this]
  omega

end PageTable
namespace ContFramePool

/-- The function `release_frames` on the head of a one-frame run of the pool at which the lookup
stops: that frame becomes FREE and the counter grows by one. -/
theorem release_frames_head_one (pre post : List ContFramePool) (p : ContFramePool) (f : Nat)
    (hv : p.Valid) (hfree : p.n_free_frames ≤ p.n_frames)
    (hpre : ∀ c ∈ pre, f < c.base_frame_no ∨ f > c.base_frame_no + c.n_frames)
    (hf1 : p.base_frame_no ≤ f) (hf2 : f < p.base_frame_no + p.n_frames)
    (hhead : p.frame_status f = HEAD_OF_SEQUENCE)
    (hend : f + 1 < p.base_frame_no + p.n_frames → p.frame_status (f + 1) ≠ ALLOCATED) :
    ∃ q, release_frames (pre ++ p :: post) f = some (pre ++ q :: post) ∧
      q.base_frame_no = p.base_frame_no ∧ q.n_frames = p.n_frames ∧
      q.frame_status f = FREE ∧
      (∀ x, p.base_frame_no ≤ x → x ≠ f → q.frame_status x = p.frame_status x) ∧
      q.n_free_frames = p.n_free_frames + 1 := by
  have hR := runAt_of_frames p f 0 hf1 (by omega) hhead (fun x h1 h2 => absurd h1 (by omega))
    hend
  obtain ⟨q, hq, hb, hn, _, _, _, _, hfr, hlt, hst⟩ := release_frames_in_run p f 0 hv hf1 hR
  refine ⟨q, ?_, hb, hn, ?_, ?_, ?_⟩
  · rw [release_frames_skip pre _ f hpre, release_frames_found p post f hf1 (by omega), hq]
    rfl
  · simp only [frame_status, hb, FREE]
    rw [hst, if_pos (by omega)]
  · intro x hx1 hx2
    simp only [frame_status, hb]
    rw [hst, if_neg (by omega)]
  · have hF : FRAME_SIZE * 8 = 32768 := by decide
    have hN := hv.2.1
    omega

end ContFramePool

namespace PageTable
open Paging

/-- After the store of `free_page`, the table entry of the address is the stored word, also
when the table entry is itself the directory entry of the address. -/
theorem table_entry_clear (m : Nat → Nat) (cr3 a : Nat) :
    table_entry (write_word m
        (directory_entry m cr3 a % 4294967296 / 4096 * 4096 + 4 * (a / 4096 % 1024))
        (table_entry m cr3 a &&& not32 PTE_PRESENT)) cr3 a
      = table_entry m cr3 a &&& not32 PTE_PRESENT := by
  rw [table_entry_eq (write_word _ _ _), table_entry_eq m, directory_entry_eq]
  generalize hD : m (cr3 + 4 * (a / 4194304 % 1024)) = D
  by_cases hAB : D % 4294967296 / 4096 * 4096 + 4 * (a / 4096 % 1024)
      = cr3 + 4 * (a / 4194304 % 1024)
  · rw [hAB, write_word_same, hD, and_not_present]
    have e : D % 4294967296 / 2 * 2 % 4294967296 / 4096 * 4096 + 4 * (a / 4096 % 1024)
        = cr3 + 4 * (a / 4194304 % 1024) := by omega
    rw [e, write_word_same]
  · rw [write_word_other _ _ _ _ (Ne.symm hAB), hD, write_word_same]

end PageTable

/-- C28: `free_page(a)` on a self-mapped directory, for an address `a` whose directory entry and
table entry are present, the table entry (a 32-bit word) holding frame number `f`, the head of
a one-frame run of the pool `p` at which the lookup of `release_frames(f)` stops.  The call
returns; afterwards the table entry has the present bit clear and is otherwise the old entry,
no other word of the memory has changed, the pool list is the result of `release_frames(f)`,
in which `f` is FREE in its pool, the counter of that pool has grown by 1, and the other frames
and pools are as before. -/
theorem PageTable.free_page_effect (s : Paging) (a f : Nat) (pre post : List ContFramePool)
    (p : ContFramePool) (hal : s.cr3 % 4096 = 0) (hlt : s.cr3 < 4294967296)
    (hs : Paging.SelfMapped s.memory s.cr3)
    (hpd : Paging.directory_entry s.memory s.cr3 a &&& PTE_PRESENT ≠ 0)
    (hpt : Paging.table_entry s.memory s.cr3 a &&& PTE_PRESENT ≠ 0)
    (hword : Paging.table_entry s.memory s.cr3 a < 4294967296)
    (hf : Paging.table_entry s.memory s.cr3 a / PAGE_SIZE = f)
    (hlist : s.poolListHead = pre ++ p :: post)
    (hpre : ∀ c ∈ pre, f < c.base_frame_no ∨ f > c.base_frame_no + c.n_frames)
    (hv : p.Valid) (hfree : p.n_free_frames ≤ p.n_frames)
    (hf1 : p.base_frame_no ≤ f) (hf2 : f < p.base_frame_no + p.n_frames)
    (hhead : p.frame_status f = HEAD_OF_SEQUENCE)
    (hend : f + 1 < p.base_frame_no + p.n_frames → p.frame_status (f + 1) ≠ ALLOCATED) :
    ∃ s' q, PageTable.free_page s a = some s' ∧ s'.cr3 = s.cr3 ∧
      Paging.table_entry s'.memory s'.cr3 a &&& PTE_PRESENT = 0 ∧
      Paging.table_entry s'.memory s'.cr3 a ||| PTE_PRESENT
        = Paging.table_entry s.memory s.cr3 a ∧
      (∀ x, x ≠ (Paging.directory_entry s.memory s.cr3 a &&& 0xFFFFF000)
          + 4 * ((a >>> PT_SHIFT) &&& 0x3FF) → s'.memory x = s.memory x) ∧
      ContFramePool.release_frames s.poolListHead f = some s'.poolListHead ∧
      s'.poolListHead = pre ++ q :: post ∧
      q.frame_status f = FREE ∧
      (∀ x, p.base_frame_no ≤ x → x ≠ f → q.frame_status x = p.frame_status x) ∧
      q.n_free_frames = p.n_free_frames + 1 := by
  have hPP : PTE_PRESENT = 1 := rfl
  have hpd2 : Paging.directory_entry s.memory s.cr3 a % 2 = 1 := by
    rw [hPP, Paging.and_one_mod] at hpd; omega
  have hpt2 : Paging.table_entry s.memory s.cr3 a % 2 = 1 := by
    rw [hPP, Paging.and_one_mod] at hpt; omega
  obtain ⟨q, hq, hb, hn, hq1, hq2, hq3⟩ :=
    ContFramePool.release_frames_head_one pre post p f hv hfree hpre hf1 hf2 hhead hend
  have key := PageTable.free_page_spec s a hal hlt hs hpd2
  rw [hf, hlist, hq] at key
  obtain ⟨c1, c2⟩ := PageTable.clear_present _ hword hpt2
  refine ⟨_, q, key, rfl, ?_, ?_, ?_, by rw [hlist]; exact hq, rfl, hq1, hq2, hq3⟩
  · simp only []
    rw [PageTable.table_entry_clear]
    exact c1
  · simp only []
    rw [PageTable.table_entry_clear]
    exact c2
  · intro x hx
    simp only [PT_SHIFT, Paging.shr12, Paging.and_3ff, Paging.and_frame] at hx
    exact Paging.write_word_other _ _ _ _ hx
/-- Witness for C28: `free_page(0x10000000)` on `machine_mapped`, where the page is mapped to
frame 1025, the head of a one-frame run of the process pool, the first pool of the list. -/
theorem PageTable.free_page_effect_witness :
    Paging.SelfMapped Paging.machine_mapped.memory Paging.machine_mapped.cr3 ∧
      Paging.table_entry Paging.machine_mapped.memory Paging.machine_mapped.cr3 0x10000000
        = 1025 * PAGE_SIZE ||| PTE_PRESENT ||| PTE_WRITE ∧
      Paging.machine_mapped.poolListHead = [] ++ Paging.process16_two :: [Paging.kernel16] ∧
      Paging.process16_two.frame_status 1025 = HEAD_OF_SEQUENCE ∧
      ∃ s' q, PageTable.free_page Paging.machine_mapped 0x10000000 = some s' ∧
        s'.cr3 = Paging.machine_mapped.cr3 ∧
        Paging.table_entry s'.memory s'.cr3 0x10000000 &&& PTE_PRESENT = 0 ∧
        Paging.table_entry s'.memory s'.cr3 0x10000000 ||| PTE_PRESENT
          = Paging.table_entry Paging.machine_mapped.memory Paging.machine_mapped.cr3
            0x10000000 ∧
        (∀ x, x ≠ (Paging.directory_entry Paging.machine_mapped.memory
              Paging.machine_mapped.cr3 0x10000000 &&& 0xFFFFF000)
            + 4 * ((0x10000000 >>> PT_SHIFT) &&& 0x3FF) →
          s'.memory x = Paging.machine_mapped.memory x) ∧
        ContFramePool.release_frames Paging.machine_mapped.poolListHead 1025
          = some s'.poolListHead ∧
        s'.poolListHead = [] ++ q :: [Paging.kernel16] ∧
        q.frame_status 1025 = FREE ∧
        (∀ x, Paging.process16_two.base_frame_no ≤ x → x ≠ 1025 →
          q.frame_status x = Paging.process16_two.frame_status x) ∧
        q.n_free_frames = Paging.process16_two.n_free_frames + 1 :=
  ⟨by decide, by decide, rfl, by decide,
    PageTable.free_page_effect Paging.machine_mapped 0x10000000 1025 [] [Paging.kernel16]
      Paging.process16_two (by decide) (by decide) (by decide) (by decide) (by decide)
      (by decide) (by decide) rfl (fun c hc => absurd hc (List.not_mem_nil c)) (by decide)
      (by decide) (by decide) (by decide) (by decide) (by decide)⟩

/-- C25, counterexample.  First, `free_page(0xFFFFF000)` on `machine`, whose directory is
self-mapped: the address has directory index 1023 and table index 1023, so the table entry that
the call clears is entry 1023 of the directory itself; afterwards the entry is `0x201002`,
without the present bit, and the directory is no longer self-mapped.  Second, an address with
another directory index, after a constructor that has not written every directory entry: with
`shared_size = 0x2000` the constructor writes the entries 0, 1 and 1023 of the directory in
frame 513 and leaves entry 5 as `stale_directory` has it, a present entry that points to the
directory; the directory is self-mapped after the constructor, and `free_page(0x017FF000)`,
whose directory index is 5 and table index 1023, returns and clears the present bit of entry
1023. -/
theorem PageTable.free_page_breaks_self_mapping :
    (Paging.SelfMapped Paging.machine.memory Paging.machine.cr3 ∧
      (0xFFFFF000 >>> PD_SHIFT) &&& 0x3FF = 1023 ∧
      (PageTable.free_page Paging.machine 0xFFFFF000).map
          (fun r => (r.cr3, r.memory (r.cr3 + 4 * 1023)))
        = some (0x201000, 0x201002) ∧
      (PageTable.free_page Paging.machine 0xFFFFF000).map
          (fun r => decide (Paging.SelfMapped r.memory r.cr3)) = some false) ∧
    ((Paging.machine_new 0x2000 Paging.stale_directory).shared_size / PAGE_SIZE = 2 ∧
      (PageTable.construct (Paging.machine_new 0x2000 Paging.stale_directory)
        (fun _ => VMPool.fresh_pool)).2.page_directory = 0x201000 ∧
      Paging.SelfMapped
        (PageTable.construct (Paging.machine_new 0x2000 Paging.stale_directory)
          (fun _ => VMPool.fresh_pool)).1.memory 0x201000 ∧
      (0x017FF000 >>> PD_SHIFT) &&& 0x3FF = 5 ∧
      (PageTable.free_page
        (PageTable.load
          (PageTable.construct (Paging.machine_new 0x2000 Paging.stale_directory)
            (fun _ => VMPool.fresh_pool)).1
          (PageTable.construct (Paging.machine_new 0x2000 Paging.stale_directory)
            (fun _ => VMPool.fresh_pool)).2) 0x017FF000).map
          (fun r => (r.cr3, r.memory (r.cr3 + 4 * 1023)))
        = some (0x201000, 0x201002) ∧
      (PageTable.free_page
        (PageTable.load
          (PageTable.construct (Paging.machine_new 0x2000 Paging.stale_directory)
            (fun _ => VMPool.fresh_pool)).1
          (PageTable.construct (Paging.machine_new 0x2000 Paging.stale_directory)
            (fun _ => VMPool.fresh_pool)).2) 0x017FF000).map
          (fun r => decide (Paging.SelfMapped r.memory r.cr3)) = some false) := by
  refine ⟨by decide, by decide, by decide, by decide, by decide, by decide, by decide⟩

namespace ContFramePool

/-- Whether it succeeds or not, `get_frames` with `n ≥ 1` leaves the range of the pool as it
is, and returns 0 or a frame of the pool. -/
theorem get_frames_range (p : ContFramePool) (n : Nat) (hv : Valid p) (hn : 1 ≤ n) :
    (get_frames p n).2.base_frame_no = p.base_frame_no ∧
      (get_frames p n).2.n_frames = p.n_frames ∧
      ((get_frames p n).1 = 0 ∨
        (p.base_frame_no ≤ (get_frames p n).1 ∧
          (get_frames p n).1 < p.base_frame_no + p.n_frames)) := by
  cases h : get_frames_succeeds p n with
  | false => rw [get_frames_fail p n h]; exact ⟨rfl, rfl, Or.inl rfl⟩
  | true =>
    obtain ⟨F, hFN, _, _, hD, hb, hN, _⟩ := get_frames_ok p n hv hn h
    exact ⟨hb, hN, Or.inr (by omega)⟩

/-- A call of `release_frames` that returns leaves every valid pool of the list valid, at its
position and with its range. -/
theorem release_frames_keeps (l : List ContFramePool) (f : Nat) :
    ∀ (l' : List ContFramePool), release_frames l f = some l' →
      ∀ (i : Nat) (P : ContFramePool), l[i]? = some P → Valid P →
        ∃ Q, l'[i]? = some Q ∧ Valid Q ∧ Q.base_frame_no = P.base_frame_no ∧
          Q.n_frames = P.n_frames := by
  induction l with
  | nil =>
    intro l' h
    simp only [release_frames] at h
    exact absurd h (by simp)
  | cons cur rest ih =>
    intro l' h i P hP hv
    by_cases hskip : f < cur.base_frame_no ∨ f > cur.base_frame_no + cur.n_frames
    · simp only [release_frames, if_pos hskip] at h
      cases hr : release_frames rest f with
      | none => rw [hr] at h; exact absurd h (by simp)
      | some r =>
        rw [hr] at h
        simp only [Option.map_some', Option.some.injEq] at h
        rw [← h]
        cases i with
        | zero =>
          simp only [List.getElem?_cons_zero, Option.some.injEq] at hP ⊢
          exact ⟨cur, rfl, hP ▸ hv, by rw [hP], by rw [hP]⟩
        | succ i =>
          simp only [List.getElem?_cons_succ] at hP ⊢
          exact ih r hr i P hP hv
    · simp only [release_frames, if_neg hskip] at h
      cases hr : release_frames_in cur f with
      | none => rw [hr] at h; exact absurd h (by simp)
      | some c =>
        rw [hr] at h
        simp only [Option.map_some', Option.some.injEq] at h
        rw [← h]
        cases i with
        | zero =>
          simp only [List.getElem?_cons_zero, Option.some.injEq] at hP ⊢
          rw [← hP] at hv ⊢
          rcases release_frames_in_cases cur c f hv (by omega) (by omega) hr with
            ⟨_, hq⟩ | ⟨_, k, _, hb, hN, _, _, hlen, hbytes, _, _, _⟩
          · rw [hq]; exact ⟨cur, rfl, hv, rfl, rfl⟩
          · obtain ⟨h8, hF, hl, _⟩ := hv
            exact ⟨c, rfl, ⟨by rw [hN]; exact h8, by rw [hN]; exact hF,
              by rw [hN, hlen]; exact hl, hbytes⟩, hb, hN⟩
        | succ i =>
          simp only [List.getElem?_cons_succ] at hP ⊢
          exact ⟨P, hP, hv, rfl, rfl⟩

end ContFramePool
namespace PageTable
open Paging

theorem map_fst_some (r : Option (Paging × List Diagnostic)) (s' : Paging)
    (d : List Diagnostic) (X : Paging) (h : r = some (s', d))
    (hX : r.map Prod.fst = some X) : s' = X := by
  rw [h] at hX
  simp only [Option.map_some', Option.some.injEq] at hX
  exact hX

/-- A call of `handle_fault` that returns, for an address whose directory index is not 1023,
keeps the invariant. -/
theorem safe_handle_fault (B N : Nat) (s s' : Paging) (t : PageTable) (addr : Nat)
    (d : List Diagnostic) (hsafe : Safe B N s) (hidx : (addr >>> PD_SHIFT) &&& 0x3FF ≠ 1023)
    (h : handle_fault s t addr = some (s', d)) : Safe B N s' := by
  obtain ⟨hal, h0, hlt, hs, hent, hBN, hdir, P, hP, hv, hb, hn⟩ := hsafe
  simp only [PD_SHIFT, shr22, and_3ff] at hidx
  have hPS : PAGE_SIZE = 4096 := rfl
  rw [hPS] at hdir
  have hpd : addr / 4194304 % 1024 < 1024 := Nat.mod_lt _ (by decide)
  have hpt : addr / 4096 % 1024 < 1024 := Nat.mod_lt _ (by decide)
  have hself := hs
  unfold SelfMapped at hself
  rw [or_flags s.cr3 hal] at hself
  obtain ⟨r1, r2, r3⟩ := ContFramePool.get_frames_range P 1 hv (le_refl 1)
  have hv1 := ContFramePool.get_frames_valid P 1 hv (le_refl 1)
  have hg1 := get_frames_at s.poolListHead s.process_mem_pool 1 P hP
  by_cases hp : s.memory (s.cr3 + 4 * (addr / 4194304 % 1024)) % 2 = 1
  · have hne := hent _ (by omega) hp
    have key := handle_fault_present s t addr hal hlt hs hp (by omega) (by omega)
    have hX := map_fst_some _ _ _ _ h key
    rw [hX]
    generalize hA : s.memory (s.cr3 + 4 * (addr / 4194304 % 1024)) % 4294967296 / 4096 * 4096
      = tf at *
    have hdirw : ∀ i, i < 1024 → write_word s.memory (tf + 4 * (addr / 4096 % 1024))
        (u32 ((Paging.get_frames s.poolListHead s.process_mem_pool 1).1 * PAGE_SIZE) + 3)
        (s.cr3 + 4 * i) = s.memory (s.cr3 + 4 * i) := by
      intro i hi
      exact write_word_other _ _ _ _ (by omega)
    refine ⟨hal, h0, hlt, ?_, ?_, hBN, by rw [hPS]; exact hdir, (P.get_frames 1).2, ?_, hv1,
      by rw [r1, hb], by rw [r2, hn]⟩
    · unfold SelfMapped
      simp only []
      rw [hdirw 1023 (by omega)]
      exact hs
    · intro i hi
      simp only []
      rw [hdirw i (by omega)]
      exact hent i hi
    · simp only [hg1]
      exact getElem?_set_self _ _ P _ hP
  · have hp0 : s.memory (s.cr3 + 4 * (addr / 4194304 % 1024)) % 2 = 0 := by omega
    have hT : u32 ((Paging.get_frames s.poolListHead s.process_mem_pool 1).1 * PAGE_SIZE)
        ≠ s.cr3 := by
      rw [hg1]
      simp only []
      unfold u32
      rw [hPS]
      omega
    have key := handle_fault_absent s t addr hal hlt hs hp0 hT
    have hX := map_fst_some _ _ _ _ h key
    rw [hX]
    have hg2 := get_frames_at (s.poolListHead.set s.process_mem_pool (P.get_frames 1).2)
      s.process_mem_pool 1 (P.get_frames 1).2 (getElem?_set_self _ _ P _ hP)
    obtain ⟨q1, q2, q3⟩ := ContFramePool.get_frames_range (P.get_frames 1).2 1 hv1 (le_refl 1)
    have hv2 := ContFramePool.get_frames_valid (P.get_frames 1).2 1 hv1 (le_refl 1)
    have hTa0 := u32_frame (Paging.get_frames s.poolListHead s.process_mem_pool 1).1
    have hTa1 := u32_frame_lt (Paging.get_frames s.poolListHead s.process_mem_pool 1).1
    generalize hta : u32 ((Paging.get_frames s.poolListHead s.process_mem_pool 1).1 * PAGE_SIZE)
      = ta at *
    generalize hvv : u32 ((Paging.get_frames
      (Paging.get_frames s.poolListHead s.process_mem_pool 1).2
      s.process_mem_pool 1).1 * PAGE_SIZE) + 3 = v at *
    have hdirw : ∀ i, i < 1024 → write_word
        (write_word s.memory (s.cr3 + 4 * (addr / 4194304 % 1024)) (ta + 3))
        (ta + 4 * (addr / 4096 % 1024)) v (s.cr3 + 4 * i)
        = write_word s.memory (s.cr3 + 4 * (addr / 4194304 % 1024)) (ta + 3)
          (s.cr3 + 4 * i) := by
      intro i hi
      exact write_word_other _ _ _ _ (by omega)
    refine ⟨hal, h0, hlt, ?_, ?_, hBN, by rw [hPS]; exact hdir,
      ((P.get_frames 1).2.get_frames 1).2, ?_, hv2, by rw [q1, r1, hb], by rw [q2, r2, hn]⟩
    · unfold SelfMapped
      simp only []
      rw [hdirw 1023 (by omega), write_word_other _ _ _ _ (by omega)]
      exact hs
    · intro i hi
      simp only []
      rw [hdirw i (by omega)]
      by_cases hip : i = addr / 4194304 % 1024
      · rw [hip, write_word_same]
        intro _
        omega
      · rw [write_word_other _ _ _ _ (by omega)]
        exact hent i hi
    · simp only [hg1, hg2]
      rw [List.set_set]
      exact getElem?_set_self _ _ P _ hP

end PageTable
namespace PageTable
open Paging

/-- Without a present directory entry for the address, `free_page` faults on its first access
to the table. -/
theorem free_page_absent (s : Paging) (a : Nat)
    (hal : s.cr3 % 4096 = 0) (hlt : s.cr3 < 4294967296) (hs : SelfMapped s.memory s.cr3)
    (hp : s.memory (s.cr3 + 4 * (a / 4194304 % 1024)) % 2 = 0) : free_page s a = none := by
  have hpd : a / 4194304 % 1024 < 1024 := Nat.mod_lt _ (by decide)
  have hpt : a / 4096 % 1024 < 1024 := Nat.mod_lt _ (by decide)
  have t2 := translate_table s.memory s.cr3 _ _ hal hlt hs hpd hpt
  rw [if_pos hp] at t2
  simp only [free_page, PD_SHIFT, PT_SHIFT, shr22, shr12, and_3ff, vread, t2, Option.map_none']

/-- A call of `free_page` that returns, for an address whose directory index is not 1023,
keeps the invariant. -/
theorem safe_free_page (B N : Nat) (s s' : Paging) (a : Nat)
    (hsafe : Safe B N s) (hidx : (a >>> PD_SHIFT) &&& 0x3FF ≠ 1023)
    (h : free_page s a = some s') : Safe B N s' := by
  obtain ⟨hal, h0, hlt, hs, hent, hBN, hdir, P, hP, hv, hb, hn⟩ := hsafe
  simp only [PD_SHIFT, shr22, and_3ff] at hidx
  have hpd : a / 4194304 % 1024 < 1024 := Nat.mod_lt _ (by decide)
  have hpt : a / 4096 % 1024 < 1024 := Nat.mod_lt _ (by decide)
  by_cases hp : s.memory (s.cr3 + 4 * (a / 4194304 % 1024)) % 2 = 1
  · have hne := hent _ (by omega) hp
    have key := free_page_spec s a hal hlt hs (by rw [directory_entry_eq]; exact hp)
    rw [key] at h
    cases hr : ContFramePool.release_frames s.poolListHead
        (table_entry s.memory s.cr3 a / PAGE_SIZE) with
    | none => rw [hr] at h; exact absurd h (by simp)
    | some l =>
      rw [hr] at h
      simp only [Option.map_some', Option.some.injEq] at h
      rw [← h]
      obtain ⟨Q, hQ, hvQ, hbQ, hnQ⟩ :=
        ContFramePool.release_frames_keeps _ _ l hr s.process_mem_pool P hP hv
      rw [directory_entry_eq]
      generalize hA : s.memory (s.cr3 + 4 * (a / 4194304 % 1024)) % 4294967296 / 4096 * 4096
        = tf at *
      have hdirw : ∀ i, i < 1024 → write_word s.memory (tf + 4 * (a / 4096 % 1024))
          (table_entry s.memory s.cr3 a &&& not32 PTE_PRESENT)
          (s.cr3 + 4 * i) = s.memory (s.cr3 + 4 * i) := by
        intro i hi
        exact write_word_other _ _ _ _ (by omega)
      refine ⟨hal, h0, hlt, ?_, ?_, hBN, hdir, Q, hQ, hvQ, by rw [hbQ, hb], by rw [hnQ, hn]⟩
      · unfold SelfMapped
        simp only []
        rw [hdirw 1023 (by omega)]
        exact hs
      · intro i hi
        simp only []
        rw [hdirw i (by omega)]
        exact hent i hi
  · rw [free_page_absent s a hal hlt hs (by omega)] at h
    exact absurd h (by simp)

/-- Every state reached by the calls keeps the invariant. -/
theorem safe_steps (B N : Nat) (s0 s : Paging) (hsafe : Safe B N s0) (h : Steps s0 s) :
    Safe B N s := by
  induction h with
  | refl => exact hsafe
  | step s s' _ hstep ih =>
    cases hstep with
    | handle_fault t addr d hidx hf => exact safe_handle_fault B N s s' t addr d ih hidx hf
    | free_page a hidx hf => exact safe_free_page B N s s' a ih hidx hf

end PageTable
namespace PageTable
open Paging

/-- The function `handle_fault` does not change CR3. -/
theorem handle_fault_cr3 (s s' : Paging) (t : PageTable) (addr : Nat) (d : List Diagnostic)
    (h : handle_fault s t addr = some (s', d)) : s'.cr3 = s.cr3 := by
  simp only [handle_fault] at h
  split at h
  · exact absurd h (by simp)
  · split at h
    · exact absurd h (by simp)
    · split at h
      · exact absurd h (by simp)
      · split at h
        · exact absurd h (by simp)
        · split at h
          · exact absurd h (by simp)
          · simp only [Option.some.injEq, Prod.mk.injEq] at h
            rw [← h.1]

/-- The function `free_page` does not change CR3. -/
theorem free_page_cr3 (s s' : Paging) (a : Nat) (h : free_page s a = some s') :
    s'.cr3 = s.cr3 := by
  simp only [free_page] at h
  split at h
  · exact absurd h (by simp)
  · split at h
    · exact absurd h (by simp)
    · split at h
      · exact absurd h (by simp)
      · simp only [Option.some.injEq] at h
        rw [← h]

theorem steps_cr3 (s0 s : Paging) (h : Steps s0 s) : s.cr3 = s0.cr3 := by
  induction h with
  | refl => rfl
  | step s s' _ hstep ih =>
    cases hstep with
    | handle_fault t addr d hidx hf => rw [handle_fault_cr3 s s' t addr d hf, ih]
    | free_page a hidx hf => rw [free_page_cr3 s s' a hf, ih]

/-- The constructor with 1024 shared frames establishes the invariant for the new directory,
once loaded, when the kernel pool supplies the two frames, does not contain frame 0 and is
disjoint from the process pool. -/
theorem safe_of_construct (s0 : Paging) (registry : Nat → VMPool) (K P : ContFramePool)
    (hK : s0.poolListHead[s0.kernel_mem_pool]? = some K) (hvK : K.Valid)
    (hfreeK : K.n_free_frames ≤ K.n_frames) (h0K : 0 < K.base_frame_no)
    (hsmallK : K.base_frame_no + K.n_frames ≤ 1048576)
    (hsup1 : K.get_frames_succeeds 1 = true)
    (hsup2 : (K.get_frames 1).2.get_frames_succeeds 1 = true)
    (hP : s0.poolListHead[s0.process_mem_pool]? = some P) (hvP : P.Valid)
    (hsmallP : P.base_frame_no + P.n_frames ≤ 1048576)
    (hdisj : K.base_frame_no + K.n_frames ≤ P.base_frame_no ∨
      P.base_frame_no + P.n_frames ≤ K.base_frame_no)
    (hsh : s0.shared_size / PAGE_SIZE = 1024) :
    Safe P.base_frame_no P.n_frames
      (load (construct s0 registry).1 (construct s0 registry).2) := by
  have hPS : PAGE_SIZE = 4096 := rfl
  obtain ⟨a1, a2, a3, a4, a5, a6, a7, a8⟩ := Paging.get_frames_one K hvK hfreeK hsup1
  obtain ⟨b1, b2, b3, b4, b5, b6, b7, b8⟩ :=
    Paging.get_frames_one (K.get_frames 1).2 a8 (by omega) hsup2
  rw [a6] at b1
  rw [a6, a7] at b2
  have hDT : (K.get_frames 1).1 ≠ ((K.get_frames 1).2.get_frames 1).1 := by
    intro h
    rw [← h, a4 _ a1, if_pos rfl] at b3
    exact absurd b3 (by decide)
  have hg1 := Paging.get_frames_at s0.poolListHead s0.kernel_mem_pool 1 K hK
  have hg2 := Paging.get_frames_at (s0.poolListHead.set s0.kernel_mem_pool (K.get_frames 1).2)
    s0.kernel_mem_pool 1 (K.get_frames 1).2 (Paging.getElem?_set_self _ _ K _ hK)
  have hidx : s0.kernel_mem_pool ≠ s0.process_mem_pool := by
    intro h
    rw [h, hP] at hK
    simp only [Option.some.injEq] at hK
    rw [hK] at hdisj
    omega
  obtain ⟨c1, c2, _⟩ := construct_identity s0 registry 0
    (by rw [hsh]) (by rw [hsh]; decide) (by rw [hg1]; simp only []; rw [hg2]; exact hDT)
    (by rw [hg1]; simp only []; omega) (by rw [hg1]; simp only []; rw [hg2]; simp only []; omega)
  rw [hg1] at c1 c2
  simp only [] at c1 c2
  rw [hg2] at c2
  simp only [] at c2
  have hpools : (construct s0 registry).1.poolListHead
      = (s0.poolListHead.set s0.kernel_mem_pool (K.get_frames 1).2).set s0.kernel_mem_pool
        ((K.get_frames 1).2.get_frames 1).2 := by
    simp only [construct, PAGE_DIRECTORY_SIZE, PAGE_TABLE_SIZE, hg1, hg2]
  have hself : SelfMapped (construct s0 registry).1.memory
      (construct s0 registry).2.page_directory := by
    unfold SelfMapped
    simp only [construct]
    rw [write_word_same]
  refine ⟨?_, ?_, ?_, hself, ?_, hsmallP, ?_, P, ?_, hvP, rfl, rfl⟩
  · simp only [load]; rw [c1, hPS]; omega
  · simp only [load]; rw [c1, hPS]; omega
  · simp only [load]; rw [c1, hPS]; omega
  · intro i hi hodd
    simp only [load] at hodd ⊢
    by_cases hi0 : i = 0
    · rw [hi0, Nat.mul_zero, Nat.add_zero, c2, c1, hPS]
      omega
    · rw [construct_directory_entry s0 registry i (by omega) (by rw [hsh]; omega) (by omega)]
        at hodd
      exact absurd hodd (by decide)
  · simp only [load]; rw [c1, hPS]; omega
  · simp only [load]
    have hproc : (construct s0 registry).1.process_mem_pool = s0.process_mem_pool := rfl
    rw [hpools, List.set_set, hproc, List.getElem?_set_ne hidx]
    exact hP

end PageTable

/-- C25, amended: self-mapping invariant, for a page table constructed with 1024 shared frames
(`shared_size` of 4 MiB, with which the constructor writes every entry of the directory), from
a valid kernel pool with `n_free_frames ≤ n_frames` that does not contain frame 0 and supplies
the two frames, with a valid process pool whose frame range is disjoint from that of the kernel
pool, all frame numbers being below `2^20`.  After the constructor, entry 1023 of the
directory holds the address of the directory itself with the present and the write bit, and
this stays true, with the directory in CR3, after every call of `handle_fault` and of
`free_page` that returns and whose address has a directory index other than 1023; `s` is any
state reached from the loaded new page table by such calls. -/
theorem PageTable.self_mapping_kept (s0 : Paging) (registry : Nat → VMPool)
    (K P : ContFramePool) (s : Paging)
    (hK : s0.poolListHead[s0.kernel_mem_pool]? = some K) (hvK : K.Valid)
    (hfreeK : K.n_free_frames ≤ K.n_frames) (h0K : 0 < K.base_frame_no)
    (hsmallK : K.base_frame_no + K.n_frames ≤ 1048576)
    (hsup1 : K.get_frames_succeeds 1 = true)
    (hsup2 : (K.get_frames 1).2.get_frames_succeeds 1 = true)
    (hP : s0.poolListHead[s0.process_mem_pool]? = some P) (hvP : P.Valid)
    (hsmallP : P.base_frame_no + P.n_frames ≤ 1048576)
    (hdisj : K.base_frame_no + K.n_frames ≤ P.base_frame_no ∨
      P.base_frame_no + P.n_frames ≤ K.base_frame_no)
    (hsh : s0.shared_size / PAGE_SIZE = 1024)
    (hsteps : Paging.Steps
      (PageTable.load (PageTable.construct s0 registry).1 (PageTable.construct s0 registry).2)
      s) :
    Paging.SelfMapped (PageTable.construct s0 registry).1.memory
        (PageTable.construct s0 registry).2.page_directory ∧
      s.cr3 = (PageTable.construct s0 registry).2.page_directory ∧
      Paging.SelfMapped s.memory s.cr3 := by
  have hsafe := PageTable.safe_of_construct s0 registry K P hK hvK hfreeK h0K hsmallK hsup1
    hsup2 hP hvP hsmallP hdisj hsh
  have h1 := PageTable.safe_steps _ _ _ s hsafe hsteps
  exact ⟨hsafe.2.2.2.1, PageTable.steps_cr3 _ s hsteps, h1.2.2.2.1⟩
namespace PageTable
open Paging

theorem steps_after_fault (s0 s : Paging) (t : PageTable) (addr : Nat)
    (hidx : (addr >>> PD_SHIFT) &&& 0x3FF ≠ 1023) (h : Steps s0 s) :
    Steps s0 (after_fault s t addr) := by
  unfold after_fault
  cases hr : handle_fault s t addr with
  | none => exact h
  | some r => exact Steps.step s r.1 h (Step.handle_fault s r.1 t addr r.2 hidx hr)

end PageTable

/-- Witness for C25 (amended): the page table constructed on `machine_new` with `shared_size`
of 4 MiB, loaded, and the state after a fault at `0x10000000`. -/
theorem PageTable.self_mapping_kept_witness :
    ContFramePool.pool16_new.Valid ∧ Paging.process16.Valid ∧
      (Paging.machine_new 0x400000 (fun _ => 0)).shared_size / PAGE_SIZE = 1024 ∧
      (0x10000000 >>> PD_SHIFT) &&& 0x3FF ≠ 1023 ∧
      Paging.Steps
        (PageTable.load
          (PageTable.construct (Paging.machine_new 0x400000 (fun _ => 0))
            (fun _ => VMPool.fresh_pool)).1
          (PageTable.construct (Paging.machine_new 0x400000 (fun _ => 0))
            (fun _ => VMPool.fresh_pool)).2)
        (Paging.after_fault
          (PageTable.load
            (PageTable.construct (Paging.machine_new 0x400000 (fun _ => 0))
              (fun _ => VMPool.fresh_pool)).1
            (PageTable.construct (Paging.machine_new 0x400000 (fun _ => 0))
              (fun _ => VMPool.fresh_pool)).2)
          Paging.table513 0x10000000) ∧
      (Paging.SelfMapped
          (PageTable.construct (Paging.machine_new 0x400000 (fun _ => 0))
            (fun _ => VMPool.fresh_pool)).1.memory
          (PageTable.construct (Paging.machine_new 0x400000 (fun _ => 0))
            (fun _ => VMPool.fresh_pool)).2.page_directory ∧
        (Paging.after_fault
          (PageTable.load
            (PageTable.construct (Paging.machine_new 0x400000 (fun _ => 0))
              (fun _ => VMPool.fresh_pool)).1
            (PageTable.construct (Paging.machine_new 0x400000 (fun _ => 0))
              (fun _ => VMPool.fresh_pool)).2)
          Paging.table513 0x10000000).cr3
          = (PageTable.construct (Paging.machine_new 0x400000 (fun _ => 0))
            (fun _ => VMPool.fresh_pool)).2.page_directory ∧
        Paging.SelfMapped
          (Paging.after_fault
            (PageTable.load
              (PageTable.construct (Paging.machine_new 0x400000 (fun _ => 0))
                (fun _ => VMPool.fresh_pool)).1
              (PageTable.construct (Paging.machine_new 0x400000 (fun _ => 0))
                (fun _ => VMPool.fresh_pool)).2)
            Paging.table513 0x10000000).memory
          (Paging.after_fault
            (PageTable.load
              (PageTable.construct (Paging.machine_new 0x400000 (fun _ => 0))
                (fun _ => VMPool.fresh_pool)).1
              (PageTable.construct (Paging.machine_new 0x400000 (fun _ => 0))
                (fun _ => VMPool.fresh_pool)).2)
            Paging.table513 0x10000000).cr3) :=
  ⟨by decide, by decide, by decide, by decide,
    PageTable.steps_after_fault _ _ _ _ (by decide) Paging.Steps.refl,
    PageTable.self_mapping_kept (Paging.machine_new 0x400000 (fun _ => 0))
      (fun _ => VMPool.fresh_pool) ContFramePool.pool16_new Paging.process16 _
      rfl (by decide) (by decide) (by decide) (by decide) (by decide) (by decide)
      rfl (by decide) (by decide) (by decide) (by decide)
      (PageTable.steps_after_fault _ _ _ _ (by decide) Paging.Steps.refl)⟩
namespace Queue

theorem enqueue_of (T : Type) (rest acc : List T) (x : T) :
    enqueue ({ qsize := (rest.length : Int) + acc.length, nodes := rest ++ acc } : Queue T) x
      = { qsize := (rest.length : Int) + (acc ++ [x]).length, nodes := rest ++ (acc ++ [x]) } := by
  simp only [enqueue, empty]
  by_cases h : (rest.length : Int) + acc.length = 0
  · have h1 : rest.length = 0 := by omega
    have h2 : acc.length = 0 := by omega
    rw [List.length_eq_zero] at h1 h2
    subst h1; subst h2
    simp
  · simp only [decide_eq_true_eq, if_neg h, List.length_append, List.length_singleton,
      List.append_assoc]
    push_cast
    rw [Int.add_assoc]

theorem dequeue_of (T : Type) (rest acc : List T) (x : T) :
    dequeue ({ qsize := ((x :: rest).length : Int) + acc.length, nodes := (x :: rest) ++ acc }
        : Queue T)
      = (some x, { qsize := (rest.length : Int) + acc.length, nodes := rest ++ acc }) := by
  simp only [dequeue, empty]
  have h : ¬ (((x :: rest).length : Int) + acc.length = 0) := by
    simp only [List.length_cons]; push_cast; omega
  simp only [decide_eq_true_eq, if_neg h, List.cons_append]
  congr 2
  simp only [List.length_cons]; push_cast; omega

/-- The queue `of_list l` is the state after the constructor and one `enqueue` for each value of
`l`, in order. -/
theorem of_list_enqueue (T : Type) (l : List T) :
    l.foldl enqueue (construct T) = of_list l := by
  have key : ∀ (r acc : List T), r.foldl enqueue (of_list acc) = of_list (acc ++ r) := by
    intro r
    induction r with
    | nil => intro acc; simp
    | cons x r ih =>
      intro acc
      have e := enqueue_of T [] acc x
      simp only [List.length_nil, Int.ofNat_zero, List.nil_append] at e
      have e2 : enqueue (of_list acc) x = of_list (acc ++ [x]) := by
        simp only [of_list]
        have e3 : ((0 : Nat) : Int) + (acc.length : Int) = (acc.length : Int) := by simp
        rw [← e3]
        rw [show (((acc ++ [x]).length : Nat) : Int) = ((0 : Nat) : Int) + ((acc ++ [x]).length : Int)
          by simp]
        simpa using e
      rw [List.foldl_cons, e2, ih]
      simp
  have := key l []
  simpa [construct, of_list] using this

end Queue
namespace mp6

/-- The loop of mp6 with as many iterations as threads are left of the original queue: the
threads kept so far (`acc`) are behind them, and the loop ends with the kept threads of the
whole queue, in their order. -/
theorem terminate_loop_filter (t : Thread) (rest : List Thread) :
    ∀ (acc : List Thread),
      terminate_loop t rest.length
          { qsize := (rest.length : Int) + acc.length, nodes := rest ++ acc }
        = some (Queue.of_list
          (acc ++ rest.filter (fun x => decide (x.ThreadId ≠ t.ThreadId)))) := by
  induction rest with
  | nil =>
    intro acc
    simp [terminate_loop, Queue.of_list]
  | cons x rest ih =>
    intro acc
    simp only [List.length_cons, terminate_loop]
    have hd := Queue.dequeue_of Thread rest acc x
    simp only [List.length_cons] at hd
    rw [hd]
    simp only []
    by_cases hx : x.ThreadId ≠ t.ThreadId
    · rw [if_pos hx, Queue.enqueue_of, ih (acc ++ [x])]
      simp [List.filter_cons, hx]
    · rw [if_neg hx, ih acc]
      simp [List.filter_cons, hx]

end mp6

/-- C35: `Scheduler::terminate` of mp6 is an order-preserving filter.  For every ready queue
contents `l` (the threads in FIFO order) and every thread `t`, the call returns, and
afterwards the ready queue holds exactly the threads of `l` whose `ThreadId` differs from that
of `t`, in their original order, with `qsize` their number. -/
theorem mp6.Scheduler.terminate_filter (l : List Thread) (t : Thread) :
    mp6.Scheduler.terminate { ready_queue := Queue.of_list l } t
      = some { ready_queue :=
          Queue.of_list (l.filter (fun x => decide (x.ThreadId ≠ t.ThreadId))) } := by
  have key := mp6.terminate_loop_filter t l []
  simp only [List.length_nil, List.append_nil, List.nil_append] at key
  simp only [mp6.Scheduler.terminate, Queue.size, Queue.of_list] at key ⊢
  by_cases h : (l.length : Int) = 0
  · have hl : l = [] := by
      have : l.length = 0 := by omega
      exact List.length_eq_zero.mp this
    subst hl
    simp
  · rw [if_pos h]
    have e : ((l.length : Int)).toNat = l.length := by omega
    have e2 : ((l.length : Int) + ((0 : Nat) : Int)) = (l.length : Int) := by simp
    rw [e2] at key
    rw [e, key]
    rfl
namespace Queue

theorem dequeue_of_list (T : Type) (l : List T) :
    dequeue (of_list l) = (l.head?, of_list l.tail) := by
  cases l with
  | nil => simp [dequeue, empty, of_list]
  | cons x r =>
    have h := dequeue_of T r [] x
    simp only [List.length_nil, List.append_nil] at h
    simp only [of_list, List.head?_cons, List.tail_cons]
    have e : ((x :: r).length : Int) = ((x :: r).length : Int) + ((0 : Nat) : Int) := by simp
    have e2 : (r.length : Int) = (r.length : Int) + ((0 : Nat) : Int) := by simp
    rw [e, h, ← e2]

end Queue

namespace mp5

/-- The loop of mp5 when `rm` holds the thread dequeued last and `rest` are the threads of the
original queue still in it, followed by the threads kept so far (`acc`): the loop runs once for
`rm` and once for every thread of `rest`, and its last `dequeue` takes the first of the kept
threads out of the queue. -/
theorem terminate_loop_drop (t : Thread) (rest : List Thread) :
    ∀ (rm : Thread) (acc : List Thread),
      terminate_loop t (rest.length + 1) (some rm)
          { qsize := (rest.length : Int) + acc.length, nodes := rest ++ acc }
        = some (Queue.of_list
          (acc ++ (rm :: rest).filter (fun x => decide (x.ThreadId ≠ t.ThreadId))).tail) := by
  induction rest with
  | nil =>
    intro rm acc
    simp only [terminate_loop, List.length_nil, List.nil_append]
    have e0 : (((0 : Nat) : Int) + (acc.length : Int)) = (acc.length : Int) := by simp
    by_cases hx : rm.ThreadId ≠ t.ThreadId
    · rw [if_pos hx]
      have e := Queue.enqueue_of Thread [] acc rm
      simp only [List.length_nil, List.nil_append] at e
      rw [e]
      have e1 : (((0 : Nat) : Int) + ((acc ++ [rm]).length : Int))
          = ((acc ++ [rm]).length : Int) := by simp
      rw [e1]
      have d := Queue.dequeue_of_list Thread (acc ++ [rm])
      simp only [Queue.of_list] at d
      rw [d]
      simp [List.filter_cons, hx, Queue.of_list]
    · rw [if_neg hx, e0]
      have d := Queue.dequeue_of_list Thread acc
      simp only [Queue.of_list] at d
      rw [d]
      simp [List.filter_cons, hx, Queue.of_list]
  | cons y rest ih =>
    intro rm acc
    rw [terminate_loop]
    by_cases hx : rm.ThreadId ≠ t.ThreadId
    · simp only [if_pos hx]
      rw [Queue.enqueue_of, Queue.dequeue_of]
      simp only [List.length_cons]
      rw [ih y (acc ++ [rm])]
      simp [List.filter_cons, hx]
    · simp only [if_neg hx]
      rw [Queue.dequeue_of]
      simp only [List.length_cons]
      rw [ih y acc]
      simp [List.filter_cons, hx]

/-- What `Scheduler::terminate` of mp5 leaves: the threads to keep without the first of
them. -/
theorem terminate_spec (l : List Thread) (t : Thread) :
    Scheduler.terminate { ready_queue := Queue.of_list l } t
      = some { ready_queue :=
          Queue.of_list (l.filter (fun x => decide (x.ThreadId ≠ t.ThreadId))).tail } := by
  cases l with
  | nil => simp [Scheduler.terminate, Queue.size, Queue.of_list]
  | cons x rest =>
    have h : ¬ ((Queue.of_list (x :: rest)).size = 0) := by
      simp only [Queue.size, Queue.of_list, List.length_cons]; push_cast; omega
    simp only [Scheduler.terminate, if_neg h]
    rw [Queue.dequeue_of_list]
    simp only [List.head?_cons, List.tail_cons]
    have e : ((Queue.of_list rest).size + 1).toNat = rest.length + 1 := by
      simp only [Queue.size, Queue.of_list]; omega
    rw [e]
    have key := terminate_loop_drop t rest x []
    simp only [List.length_nil, List.append_nil, List.nil_append] at key
    have e2 : ((rest.length : Int) + ((0 : Nat) : Int)) = (rest.length : Int) := by simp
    rw [e2] at key
    simp only [Queue.of_list] at key ⊢
    rw [key]
    rfl

end mp5

/-- C36: the ready queue holds `thread1` and `thread2`, and `terminate` is called for
`thread3`, which is not in the queue.  The function of mp6 leaves both threads in the queue;
the function of mp5 leaves only `thread2`: its loop runs once more than there are threads and
its last `dequeue` drops `thread1`.  In general mp5 leaves the queue that mp6 leaves without
its first thread. -/
theorem mp5.Scheduler.terminate_drops_thread :
    (thread1.ThreadId ≠ thread3.ThreadId ∧
      mp6.Scheduler.terminate { ready_queue := Queue.of_list [thread1, thread2] } thread3
        = some { ready_queue := Queue.of_list [thread1, thread2] } ∧
      mp5.Scheduler.terminate { ready_queue := Queue.of_list [thread1, thread2] } thread3
        = some { ready_queue := Queue.of_list [thread2] }) ∧
      ∀ (l : List Thread) (t : Thread),
        mp5.Scheduler.terminate { ready_queue := Queue.of_list l } t
          = some { ready_queue :=
              Queue.of_list (l.filter (fun x => decide (x.ThreadId ≠ t.ThreadId))).tail } :=
  ⟨by decide, mp5.terminate_spec⟩
namespace ContFramePool

/-- Well-formedness in terms of frame indices: the first frame is not ALLOCATED, and every
other ALLOCATED frame follows a head or an ALLOCATED frame. -/
theorem wellFormed_iff (p : ContFramePool) :
    WellFormed p ↔ ((0 < p.n_frames → status p.bitmap 0 ≠ 0) ∧ Closed p.bitmap p.n_frames) := by
  constructor
  · intro h
    refine ⟨?_, ?_⟩
    · intro hn h0
      have := h p.base_frame_no (le_refl _) (by omega)
        (by simp only [frame_status, Nat.sub_self, ALLOCATED]; exact h0)
      omega
    · intro x hx0 hxN hx
      have := h (p.base_frame_no + x) (by omega) (by omega)
        (by simp only [frame_status, Nat.add_sub_cancel_left, ALLOCATED]; exact hx)
      have e : p.base_frame_no + x - 1 - p.base_frame_no = x - 1 := by omega
      simp only [frame_status, e, HEAD_OF_SEQUENCE, ALLOCATED] at this
      rcases this.2 with h2 | h2
      · exact Or.inr h2
      · exact Or.inl h2
  · intro ⟨h0, hcl⟩ x hx1 hx2 hx
    simp only [frame_status, ALLOCATED] at hx
    by_cases hb : x = p.base_frame_no
    · rw [hb, Nat.sub_self] at hx
      exact absurd hx (h0 (by omega))
    · have := hcl (x - p.base_frame_no) (by omega) (by omega) hx
      have e : x - 1 - p.base_frame_no = x - p.base_frame_no - 1 := by omega
      simp only [frame_status, e, HEAD_OF_SEQUENCE, ALLOCATED]
      refine ⟨by omega, ?_⟩
      rcases this with h2 | h2
      · exact Or.inr h2
      · exact Or.inl h2

/-- A successful `get_frames` keeps the pool well-formed. -/
theorem get_frames_wellFormed (p : ContFramePool) (n : Nat) (hv : Valid p) (hn : 1 ≤ n)
    (hwf : WellFormed p) (h : get_frames_succeeds p n = true) :
    WellFormed (get_frames p n).2 := by
  rw [wellFormed_iff] at hwf ⊢
  obtain ⟨h0, hcl⟩ := hwf
  obtain ⟨F, hFN, _, _, _, _, hN, _, _, _, _, _, hst⟩ := get_frames_ok p n hv hn h
  refine ⟨?_, get_frames_closed p n hv hn hcl⟩
  intro hpos
  rw [hst 0]
  by_cases hF : 0 = F
  · rw [if_pos hF]; decide
  · rw [if_neg hF, if_neg (by omega)]
    exact h0 (by omega)

/-- The function `release_frames` on a head of the pool at which the lookup stops returns and
keeps the pool well-formed. -/
theorem release_frames_wellFormed (pre post : List ContFramePool) (p : ContFramePool) (f : Nat)
    (hv : Valid p) (hwf : WellFormed p)
    (hpre : ∀ c ∈ pre, f < c.base_frame_no ∨ f > c.base_frame_no + c.n_frames)
    (hf1 : p.base_frame_no ≤ f) (hf2 : f < p.base_frame_no + p.n_frames)
    (hhead : p.frame_status f = HEAD_OF_SEQUENCE) :
    ∃ q, release_frames (pre ++ p :: post) f = some (pre ++ q :: post) ∧ WellFormed q := by
  obtain ⟨k, hR⟩ := runAt_exists p.bitmap p.n_frames (f - p.base_frame_no) (by omega) hhead
  obtain ⟨q, hq, hb, hn, _, _, hlen, hbytes, _, _, hst⟩ := release_frames_in_run p f k hv hf1 hR
  have hsingle : release_frames [p] f = some [q] := by
    have := release_frames_found p [] f hf1 (by omega)
    rw [this, hq]; rfl
  refine ⟨q, ?_, ?_⟩
  · rw [release_frames_skip pre _ f hpre, release_frames_found p post f hf1 (by omega), hq]
    rfl
  · rw [wellFormed_iff] at hwf ⊢
    obtain ⟨h0, hcl⟩ := hwf
    refine ⟨?_, release_frames_closed p q f hv hcl hsingle⟩
    intro hpos
    rw [hst 0]
    by_cases hx : f - p.base_frame_no ≤ 0 ∧ 0 ≤ f - p.base_frame_no + k
    · rw [if_pos hx]; decide
    · rw [if_neg hx]
      exact h0 (by omega)

theorem pool8_hi_wellFormed : WellFormed pool8_hi := by
  rw [wellFormed_iff]
  refine ⟨fun _ => by decide, ?_⟩
  intro x hx0 hxN hx
  have hN : pool8_hi.n_frames = 8 := rfl
  rw [hN] at hxN
  interval_cases x <;> revert hx <;> decide

end ContFramePool

/-- C31: run well-formedness is preserved.  For a valid pool `p` that is well-formed (every
ALLOCATED frame has a predecessor in the pool, which is HEAD-OF-SEQUENCE or ALLOCATED), the
pool after every successful `get_frames(n)`, `n ≥ 1`, is well-formed, and `release_frames(f)`
for a HEAD-OF-SEQUENCE frame `f` of `p`, with `p` the pool at which the lookup stops, returns
and leaves the pool well-formed. -/
theorem ContFramePool.well_formed_preserved (p : ContFramePool) (hv : p.Valid)
    (hwf : p.WellFormed) :
    (∀ n, 1 ≤ n → p.get_frames_succeeds n = true → (p.get_frames n).2.WellFormed) ∧
      ∀ (pre post : List ContFramePool) (f : Nat),
        (∀ c ∈ pre, f < c.base_frame_no ∨ f > c.base_frame_no + c.n_frames) →
        p.base_frame_no ≤ f → f < p.base_frame_no + p.n_frames →
        p.frame_status f = HEAD_OF_SEQUENCE →
        ∃ q, ContFramePool.release_frames (pre ++ p :: post) f = some (pre ++ q :: post) ∧
          q.WellFormed :=
  ⟨fun n hn h => ContFramePool.get_frames_wellFormed p n hv hn hwf h,
    fun pre post f hpre hf1 hf2 hhead =>
      ContFramePool.release_frames_wellFormed pre post p f hv hwf hpre hf1 hf2 hhead⟩

/-- Witness for C31: `pool8_hi` (frame 16 a head, frame 17 ALLOCATED, the rest FREE), with
`get_frames(2)` and with `release_frames(16)`. -/
theorem ContFramePool.well_formed_preserved_witness :
    ContFramePool.pool8_hi.Valid ∧ ContFramePool.pool8_hi.WellFormed ∧
      ContFramePool.pool8_hi.get_frames_succeeds 2 = true ∧
      (ContFramePool.pool8_hi.get_frames 2).2.WellFormed ∧
      ContFramePool.pool8_hi.frame_status 16 = HEAD_OF_SEQUENCE ∧
      ∃ q, ContFramePool.release_frames ([] ++ ContFramePool.pool8_hi :: []) 16
          = some ([] ++ q :: []) ∧ q.WellFormed :=
  ⟨by decide, ContFramePool.pool8_hi_wellFormed, by decide,
    (ContFramePool.well_formed_preserved ContFramePool.pool8_hi (by decide)
      ContFramePool.pool8_hi_wellFormed).1 2 (by decide) (by decide),
    by decide,
    (ContFramePool.well_formed_preserved ContFramePool.pool8_hi (by decide)
      ContFramePool.pool8_hi_wellFormed).2 [] [] 16
      (fun c hc => absurd hc (List.not_mem_nil c)) (by decide) (by decide) (by decide)⟩
namespace VMPool

/-- The first loop of `release` for an address that is the start of no recorded interval, on a
list of `m` pairs: it ends with `cur = 2 * m`, the index behind the list. -/
theorem release_find_unknown (p : VMPool) (a m : Nat) (hc : p.vm_mem_pool_cur = 2 * (m : Int) - 1)
    (hu : ∀ k, k < m → p.vm_mem_pool (2 * k) ≠ a) :
    ∀ (fuel j : Nat), j + fuel = m → release_find p a fuel (2 * (j : Int)) = 2 * (m : Int) := by
  intro fuel
  induction fuel with
  | zero =>
    intro j hj
    simp only [release_find]
    omega
  | succ fuel ih =>
    intro j hj
    simp only [release_find]
    rw [if_pos (by omega)]
    have e : (2 * (j : Int)).toNat = 2 * j := by omega
    rw [e, if_neg (hu j (by omega))]
    have := ih (j + 1) (by omega)
    push_cast at this
    rw [show 2 * (j : Int) + 2 = 2 * ((j : Int) + 1) by ring]
    exact this

/-- What `release` does for an address that is the start of no recorded interval: it takes
`start` and `end` from the two words behind the list. -/
theorem release_unknown (p : VMPool) (a m : Nat) (hc : p.vm_mem_pool_cur = 2 * (m : Int) - 1)
    (hu : ∀ k, k < m → p.vm_mem_pool (2 * k) ≠ a) :
    release p a
      = release_pages PAGE_SIZE (p.vm_mem_pool (2 * m + 1))
          (sub32 (p.vm_mem_pool (2 * m + 1)) (p.vm_mem_pool (2 * m)) / PAGE_SIZE) 0
          (p.vm_mem_pool (2 * m)) ++ [PageTableCall.load] := by
  have hf : ((p.vm_mem_pool_cur + 2) / 2).toNat = m := by omega
  have key := release_find_unknown p a m hc hu m 0 (by omega)
  simp only [release, hf]
  simp only [Nat.cast_zero, Int.mul_zero] at key
  rw [key]
  have e1 : (2 * (m : Int)).toNat = 2 * m := by omega
  have e2 : (2 * (m : Int) + 1).toNat = 2 * m + 1 := by omega
  rw [e1, e2]

end VMPool

/-- C33: `release(0x10005000)` on two freshly constructed pools, on which no interval has been
recorded.  On zeroed memory the call makes no call of `free_page`; on `stale_memory`, whose
first two words hold `0x10002000` and `0x10004000`, it calls `free_page(0x10002000)`: the
function reads the two words behind the recorded list.  In general, for a list of `m` pairs
and an address that is the start of none of them, `start` and `end` are the words with index
`2 * m` and `2 * m + 1`. -/
theorem VMPool.release_unknown_reads_past_list :
    (VMPool.fresh_pool.vm_mem_pool_cur = -1 ∧ VMPool.fresh_pool_stale.vm_mem_pool_cur = -1 ∧
      VMPool.release VMPool.fresh_pool 0x10005000 = [PageTableCall.load] ∧
      VMPool.release VMPool.fresh_pool_stale 0x10005000
        = [PageTableCall.free_page 0x10002000, PageTableCall.load]) ∧
      ∀ (p : VMPool) (a m : Nat), p.vm_mem_pool_cur = 2 * (m : Int) - 1 →
        (∀ k, k < m → p.vm_mem_pool (2 * k) ≠ a) →
        VMPool.release p a
          = VMPool.release_pages PAGE_SIZE (p.vm_mem_pool (2 * m + 1))
              (sub32 (p.vm_mem_pool (2 * m + 1)) (p.vm_mem_pool (2 * m)) / PAGE_SIZE) 0
              (p.vm_mem_pool (2 * m)) ++ [PageTableCall.load] :=
  ⟨by decide, VMPool.release_unknown⟩
namespace VMPool

end VMPool
namespace VMPool

end VMPool
namespace File

/-- The loop of `Write` on a file whose size is its position: the bytes are stored from the
position on, the bytes before it stay, and position and size move together. -/
theorem Write_loop_buf (_buf : Nat → Nat) (n : Nat) :
    ∀ (s : WriteState), s.last + n ≤ 512 → s.size = s.last →
      (Write_loop _buf n s).last = s.last + n ∧ (Write_loop _buf n s).size = s.last + n ∧
      (∀ k, k < n → (Write_loop _buf n s).buf (s.last + k) = u8 (_buf (s.i + k))) ∧
      ∀ j, j < s.last → (Write_loop _buf n s).buf j = s.buf j := by
  induction n with
  | zero =>
    intro s _ hsz
    simp only [Write_loop, Nat.add_zero]
    exact ⟨trivial, hsz, fun k hk => absurd hk (by omega), fun _ _ => trivial⟩
  | succ n ih =>
    intro s hle hsz
    by_cases hend : s.last + 1 ≥ 512
    · have hc : s.last + 1 ≥ 512 ∧ n + 1 > 0 := ⟨hend, by omega⟩
      have hn : n = 0 := by omega
      simp only [Write_loop, if_pos hc]
      rw [if_pos (by omega)]
      refine ⟨by omega, by omega, ?_, ?_⟩
      · intro k hk
        have hk0 : k = 0 := by omega
        rw [hk0]
        simp [write_word]
      · intro j hj
        have : j ≠ s.last := by omega
        simp [write_word, this]
    · have hc : ¬ (s.last + 1 ≥ 512 ∧ n + 1 > 0) := fun h => hend h.1
      simp only [Write_loop, if_neg hc]
      obtain ⟨h1, h2, h3, h4⟩ := ih ⟨write_word s.buf s.last (u8 (_buf s.i)), s.last + 1,
        if s.last + 1 > s.size then s.size + 1 else s.size, s.i + 1⟩
        (by simp only []; omega) (by simp only []; rw [if_pos (by omega)]; omega)
      simp only [] at h1 h2 h3 h4
      refine ⟨by rw [h1]; omega, by rw [h2]; omega, ?_, ?_⟩
      · intro k hk
        cases k with
        | zero =>
          have e := h4 s.last (by omega)
          simp only [Nat.add_zero]
          exact e.trans (by simp [write_word])
        | succ k =>
          have := h3 k (by omega)
          rw [show s.last + (k + 1) = s.last + 1 + k by omega,
            show s.i + (k + 1) = s.i + 1 + k by omega]
          exact this
      · intro j hj
        have e := h4 j (by omega)
        have : j ≠ s.last := by omega
        exact e.trans (by simp [write_word, this])

/-- The loop of `Read` when the `n` bytes asked for lie before the end of the file: it copies
them and returns `n`. -/
theorem Read_loop_spec (buf : Nat → Nat) (size n : Nat) :
    ∀ (s : ReadState), s.last + n ≤ size →
      (Read_loop buf size n s).i = s.i + n ∧ (Read_loop buf size n s).last = s.last + n ∧
      (∀ k, k < n → (Read_loop buf size n s)._buf (s.i + k) = buf (s.last + k)) ∧
      ∀ j, j < s.i → (Read_loop buf size n s)._buf j = s._buf j := by
  induction n with
  | zero =>
    intro s _
    simp only [Read_loop, Nat.add_zero]
    exact ⟨trivial, trivial, fun k hk => absurd hk (by omega), fun _ _ => trivial⟩
  | succ n ih =>
    intro s hle
    simp only [Read_loop]
    rw [if_neg (by omega)]
    obtain ⟨h1, h2, h3, h4⟩ := ih ⟨write_word s._buf s.i (buf s.last), s.last + 1, s.i + 1⟩
      (by simp only []; omega)
    simp only [] at h1 h2 h3 h4
    refine ⟨by rw [h1]; omega, by rw [h2]; omega, ?_, ?_⟩
    · intro k hk
      cases k with
      | zero =>
        have e := h4 s.i (by omega)
        simp only [Nat.add_zero]
        exact e.trans (by simp [write_word])
      | succ k =>
        have := h3 k (by omega)
        rw [show s.i + (k + 1) = s.i + 1 + k by omega,
          show s.last + (k + 1) = s.last + 1 + k by omega]
        exact this
    · intro j hj
      have e := h4 j (by omega)
      have : j ≠ s.i := by omega
      exact e.trans (by simp [write_word, this])

/-- The loop of `Write` entered at a position below 512 stores below index 512 only. -/
theorem Write_indices_lt (n : Nat) :
    ∀ (last : Nat), last < 512 → ∀ k ∈ Write_indices n last, k < 512 := by
  induction n with
  | zero => intro last _ k hk; simp [Write_indices] at hk
  | succ n ih =>
    intro last hl k hk
    simp only [Write_indices, List.mem_cons] at hk
    rcases hk with hk | hk
    · omega
    · by_cases hc : last + 1 ≥ 512 ∧ n + 1 > 0
      · rw [if_pos hc] at hk; simp at hk
      · rw [if_neg hc] at hk
        exact ih (last + 1) (by omega) k hk

/-- The loop of `Read` on a file of at most 512 bytes reads below index 512 only. -/
theorem Read_indices_lt (size n : Nat) (hs : size ≤ 512) :
    ∀ (last : Nat), ∀ k ∈ Read_indices size n last, k < 512 := by
  induction n with
  | zero => intro last k hk; simp [Read_indices] at hk
  | succ n ih =>
    intro last k hk
    simp only [Read_indices] at hk
    by_cases hc : last ≥ size
    · rw [if_pos hc] at hk; simp at hk
    · rw [if_neg hc, List.mem_cons] at hk
      rcases hk with hk | hk
      · omega
      · exact ih (last + 1) k hk

end File
namespace File

/-- What `Write(n, data)` does on an empty file with a block, for `n ≤ 512`: position and size
become `n` and the block on the disk holds the bytes of `data` at its start. -/
theorem Write_empty (f : File) (disk : Int → Nat → Nat) (n : Nat) (data : Nat → Nat)
    (hfs : f.fs_is_null = false) (hblock : f.block_no ≠ -1) (hsize : f.size = 0)
    (hlast : f.last = 0) (hn : n ≤ 512) :
    (Write f disk n data).2.1 = { f with last := n, size := n } ∧
      ∀ k, k < n → (Write f disk n data).2.2 f.block_no k = u8 (data k) := by
  have h1 : ¬ (f.fs_is_null = true ∨ f.block_no = -1) := by
    rw [hfs]; simp [hblock]
  have h2 : ¬ (f.last ≥ 512) := by omega
  have h3 : n < 2147483648 := by omega
  obtain ⟨a1, a2, a3, _⟩ := Write_loop_buf data n
    ⟨disk f.block_no, f.last, f.size, 0⟩ (by simp only []; omega) (by simp only []; omega)
  simp only [] at a1 a2 a3
  simp only [Write, if_neg h1, if_neg h2, if_pos h3]
  refine ⟨?_, ?_⟩
  · rw [a1, a2, hlast, Nat.zero_add]
  · intro k hk
    have := a3 k hk
    simp only [Nat.zero_add] at this
    rw [hlast] at this ⊢
    simp only [if_true, Nat.zero_add] at this ⊢
    exact this

end File

/-- C34: write/read round trip.  For an empty file (size 0, position 0) that has a file system
and a block, every `n ≤ 512` and `n` bytes of data: after `Write(n, data)` and `Reset()`,
`Read(n, out)` returns `n` and `out[i] = data[i]` for all `i < n`.  After each of the three
calls the position is at most the size and the size at most 512, and the two loops index the
512-byte buffer below 512 only. -/
theorem File.write_read_round_trip (f : File) (disk : Int → Nat → Nat) (n : Nat)
    (data out : Nat → Nat)
    (hfs : f.fs_is_null = false) (hblock : f.block_no ≠ -1) (hsize : f.size = 0)
    (hlast : f.last = 0) (hn : n ≤ 512) (hdata : ∀ i, i < n → data i < 256) :
    (File.Read (File.Write f disk n data).2.1.Reset (File.Write f disk n data).2.2 n out).1 = n ∧
      (∀ i, i < n →
        (File.Read (File.Write f disk n data).2.1.Reset (File.Write f disk n data).2.2 n out).2.2 i
          = data i) ∧
      ((File.Write f disk n data).2.1.last ≤ (File.Write f disk n data).2.1.size ∧
        (File.Write f disk n data).2.1.size ≤ 512) ∧
      ((File.Write f disk n data).2.1.Reset.last ≤ (File.Write f disk n data).2.1.Reset.size ∧
        (File.Write f disk n data).2.1.Reset.size ≤ 512) ∧
      ((File.Read (File.Write f disk n data).2.1.Reset (File.Write f disk n data).2.2
          n out).2.1.last
        ≤ (File.Read (File.Write f disk n data).2.1.Reset (File.Write f disk n data).2.2
          n out).2.1.size ∧
        (File.Read (File.Write f disk n data).2.1.Reset (File.Write f disk n data).2.2
          n out).2.1.size ≤ 512) ∧
      (∀ k ∈ File.Write_indices n f.last, k < 512) ∧
      ∀ k ∈ File.Read_indices (File.Write f disk n data).2.1.Reset.size n
        (File.Write f disk n data).2.1.Reset.last, k < 512 := by
  obtain ⟨hw, hbuf⟩ := File.Write_empty f disk n data hfs hblock hsize hlast hn
  have h1 : ¬ (f.fs_is_null = true ∨ f.block_no = -1) := by
    rw [hfs]; simp [hblock]
  have h3 : n < 2147483648 := by omega
  obtain ⟨b1, b2, b3, _⟩ := File.Read_loop_spec ((File.Write f disk n data).2.2 f.block_no) n n
    ⟨out, 0, 0⟩ (by simp only []; omega)
  simp only [Nat.zero_add] at b1 b2 b3
  have hr : File.Read (File.Write f disk n data).2.1.Reset (File.Write f disk n data).2.2 n out
      = ((File.Read_loop ((File.Write f disk n data).2.2 f.block_no) n n ⟨out, 0, 0⟩).i,
        { f with last := (File.Read_loop ((File.Write f disk n data).2.2 f.block_no) n n
            ⟨out, 0, 0⟩).last, size := n },
        (File.Read_loop ((File.Write f disk n data).2.2 f.block_no) n n ⟨out, 0, 0⟩)._buf) := by
    rw [hw]
    simp only [File.Read, File.Reset, if_neg h1, if_pos h3]
    rw [if_neg (by omega)]
  rw [hr, hw]
  simp only [File.Reset]
  refine ⟨b1, ?_, ⟨le_refl _, hn⟩, ⟨Nat.zero_le _, hn⟩, ⟨by rw [b2], hn⟩,
    File.Write_indices_lt n f.last (by omega), File.Read_indices_lt n n hn 0⟩
  intro i hi
  rw [b3 i hi, hbuf i hi]
  unfold u8
  exact Nat.mod_eq_of_lt (hdata i hi)

/-- Witness for C34: five bytes written to `empty_file` and read back. -/
theorem File.write_read_round_trip_witness :
    File.empty_file.fs_is_null = false ∧ File.empty_file.block_no ≠ -1 ∧
      File.empty_file.size = 0 ∧ File.empty_file.last = 0 ∧ 5 ≤ 512 ∧
      (File.Read (File.Write File.empty_file (fun _ _ => 0) 5 (fun i => 65 + i)).2.1.Reset
        (File.Write File.empty_file (fun _ _ => 0) 5 (fun i => 65 + i)).2.2 5
        (fun _ => 0)).1 = 5 ∧
      (File.Read (File.Write File.empty_file (fun _ _ => 0) 5 (fun i => 65 + i)).2.1.Reset
        (File.Write File.empty_file (fun _ _ => 0) 5 (fun i => 65 + i)).2.2 5
        (fun _ => 0)).2.2 4 = 69 :=
  ⟨by decide, by decide, by decide, by decide, by decide,
    (File.write_read_round_trip File.empty_file (fun _ _ => 0) 5 (fun i => 65 + i) (fun _ => 0)
      (by decide) (by decide) (by decide) (by decide) (by decide)
      (fun i hi => by simp only []; omega)).1,
    (File.write_read_round_trip File.empty_file (fun _ _ => 0) 5 (fun i => 65 + i) (fun _ => 0)
      (by decide) (by decide) (by decide) (by decide) (by decide)
      (fun i hi => by simp only []; omega)).2.1 4 (by decide)⟩

namespace VMPool

end VMPool

namespace VMPool

end VMPool

namespace VMPool

end VMPool

